import Mathlib

/-!
Formalization of the Neuro Scholar research pipeline: DOI normalization,
citation filtering and rewriting, reference-section generation, academic
search merging, tiered query construction, and the research orchestrator.
Definitions are shallow embeddings of the corresponding functions in the
application source (electron research orchestrator, academic search tool,
and citation utilities); theorems establish or refute the specified
properties.
-/

namespace NeuroScholar

/-! ### Character utilities -/

/-- ASCII lowercasing, as performed by JS toLowerCase on ASCII letters
(non-ASCII characters, e.g. Hangul, are unchanged). -/
def toLowerA (c : Char) : Char :=
  if 'A' ≤ c ∧ c ≤ 'Z' then Char.ofNat (c.toNat + 32) else c

/-- ASCII digit test (JS regex d class). -/
def isDigitA (c : Char) : Bool :=
  48 ≤ c.toNat && c.toNat ≤ 57

/-- The JS whitespace class (regex s, String.trim): ASCII whitespace,
NBSP, BOM and the Unicode space separators. -/
def isWsJS (c : Char) : Bool :=
  let n := c.toNat
  n == 9 || n == 10 || n == 11 || n == 12 || n == 13 || n == 32 ||
  n == 0xa0 || n == 0x1680 || (0x2000 ≤ n && n ≤ 0x200a) ||
  n == 0x2028 || n == 0x2029 || n == 0x202f || n == 0x205f ||
  n == 0x3000 || n == 0xfeff

/-- Hexadecimal digit test. -/
def isHexD (c : Char) : Bool :=
  isDigitA c || ('a' ≤ c && c ≤ 'f') || ('A' ≤ c && c ≤ 'F')

/-- Value of a hexadecimal digit. -/
def hexVal (c : Char) : Nat :=
  if isDigitA c then c.toNat - '0'.toNat
  else if 'a' ≤ c && c ≤ 'f' then c.toNat - 'a'.toNat + 10
  else if 'A' ≤ c && c ≤ 'F' then c.toNat - 'A'.toNat + 10
  else 0

/-- Uppercase hex digit for a value below 16. -/
def hexDigitU (n : Nat) : Char :=
  if n < 10 then Char.ofNat ('0'.toNat + n) else Char.ofNat ('A'.toNat + n - 10)

/-- Remove the maximal whitespace suffix of a character list. -/
def trimRightC : List Char → List Char
  | [] => []
  | c :: r =>
    match trimRightC r with
    | [] => if isWsJS c then [] else [c]
    | x :: xs => c :: x :: xs

/-- JS String.trim on a character list: strip leading and trailing
whitespace. -/
def trimChars (l : List Char) : List Char :=
  trimRightC (l.dropWhile isWsJS)

/-! ### Case-insensitive literal matching (regex i flag) -/

/-- Match a literal pattern case-insensitively at the head of the input,
returning the remainder on success. -/
def matchCI : List Char → List Char → Option (List Char)
  | [], l => some l
  | _ :: _, [] => none
  | p :: ps, c :: cs => if toLowerA c == toLowerA p then matchCI ps cs else none

/-- Boolean head test for a case-insensitive literal pattern. -/
def ciStarts (pat l : List Char) : Bool :=
  (matchCI pat l).isSome

/-! ### Percent decoding and encoding (decodeURIComponent / encodeURIComponent) -/

/-- Read k continuation bytes, each written as a percent escape, from the
front of the input (UTF-8 continuation range 0x80-0xBF). -/
def readContBytes : Nat → List Char → Option (List Nat × List Char)
  | 0, l => some ([], l)
  | k + 1, '%' :: h1 :: h2 :: rest =>
    if isHexD h1 && isHexD h2 then
      let b := hexVal h1 * 16 + hexVal h2
      if 0x80 ≤ b && b < 0xC0 then
        match readContBytes k rest with
        | some (bs, r) => some (b :: bs, r)
        | none => none
      else none
    else none
  | _ + 1, _ => none

/-- One step of percent decoding: decode the escape sequence at the head
of the input (which must start with a percent sign) into a character. -/
def decodeEscape (h1 h2 : Char) (rest : List Char) : Option (Char × List Char) :=
  if isHexD h1 && isHexD h2 then
    let b := hexVal h1 * 16 + hexVal h2
    if b < 0x80 then some (Char.ofNat b, rest)
    else if b < 0xC0 then none
    else if b < 0xE0 then
      match readContBytes 1 rest with
      | some ([b2], r) =>
        let cp := (b - 0xC0) * 64 + (b2 - 0x80)
        if 0x80 ≤ cp then some (Char.ofNat cp, r) else none
      | _ => none
    else if b < 0xF0 then
      match readContBytes 2 rest with
      | some ([b2, b3], r) =>
        let cp := (b - 0xE0) * 4096 + (b2 - 0x80) * 64 + (b3 - 0x80)
        if 0x800 ≤ cp && !(0xD800 ≤ cp && cp ≤ 0xDFFF) then some (Char.ofNat cp, r)
        else none
      | _ => none
    else if b < 0xF8 then
      match readContBytes 3 rest with
      | some ([b2, b3, b4], r) =>
        let cp := (b - 0xF0) * 262144 + (b2 - 0x80) * 4096 + (b3 - 0x80) * 64 + (b4 - 0x80)
        if 0x10000 ≤ cp && cp ≤ 0x10FFFF then some (Char.ofNat cp, r) else none
      | _ => none
    else none
  else none

/-- Fueled percent-decoding loop (the fuel bounds the number of consumed
input characters; callers supply the input length). -/
def percentDecodeAux : Nat → List Char → Option (List Char)
  | _, [] => some []
  | 0, _ => none
  | fuel + 1, '%' :: rest =>
    match rest with
    | h1 :: h2 :: r2 =>
      match decodeEscape h1 h2 r2 with
      | some (c, r3) =>
        match percentDecodeAux fuel r3 with
        | some out => some (c :: out)
        | none => none
      | none => none
    | _ => none
  | fuel + 1, c :: rest =>
    match percentDecodeAux fuel rest with
    | some out => some (c :: out)
    | none => none

/-- decodeURIComponent: percent-decode a character list; none models a
thrown URIError. -/
def percentDecode (l : List Char) : Option (List Char) :=
  percentDecodeAux l.length l

/-- Test for the presence of a percent escape (regex percent followed by
two hex digits) anywhere in the input. -/
def hasPctEscape : List Char → Bool
  | '%' :: h1 :: h2 :: r =>
    (isHexD h1 && isHexD h2) || hasPctEscape (h1 :: h2 :: r)
  | _ :: r => hasPctEscape r
  | [] => false

/-- UTF-8 bytes of a character. -/
def utf8Bytes (c : Char) : List Nat :=
  let n := c.toNat
  if n < 0x80 then [n]
  else if n < 0x800 then [0xC0 + n / 64, 0x80 + n % 64]
  else if n < 0x10000 then [0xE0 + n / 4096, 0x80 + (n / 64) % 64, 0x80 + n % 64]
  else [0xF0 + n / 262144, 0x80 + (n / 4096) % 64, 0x80 + (n / 64) % 64, 0x80 + n % 64]

/-- Characters left unescaped by encodeURIComponent. -/
def isUriUnreserved (c : Char) : Bool :=
  ('A' ≤ c && c ≤ 'Z') || ('a' ≤ c && c ≤ 'z') || ('0' ≤ c && c ≤ '9') ||
  c == '-' || c == '_' || c == '.' || c == '!' || c == '~' || c == '*' ||
  c == '\x27' || c == '(' || c == ')'

/-- encodeURIComponent on a character list. -/
def encodeURIChars : List Char → List Char
  | [] => []
  | c :: r =>
    if isUriUnreserved c then c :: encodeURIChars r
    else
      (utf8Bytes c).foldr (fun b acc => '%' :: hexDigitU (b / 16) :: hexDigitU (b % 16) :: acc)
        (encodeURIChars r)

/-- Global replacement of the escape %2F (case-insensitively) by a slash,
as applied by toDoiUrl after encoding. -/
def unescapeSlash : List Char → List Char
  | '%' :: '2' :: c :: r =>
    if toLowerA c == 'f' then '/' :: unescapeSlash r
    else '%' :: '2' :: unescapeSlash (c :: r)
  | c :: r => c :: unescapeSlash r
  | [] => []

/-! ### normalizeDoi (citation utilities in the electron main bundle) -/

/-- Match the scheme part http(s):// case-insensitively, returning the
remainder. -/
def matchScheme (l : List Char) : Option (List Char) :=
  match matchCI ['h', 't', 't', 'p'] l with
  | none => none
  | some r1 =>
    match r1 with
    | c :: r2 =>
      if toLowerA c == 's' then matchCI [':', '/', '/'] r2
      else matchCI [':', '/', '/'] r1
    | [] => none

/-- Test whether the end-anchored markdown-suffix pattern — a closing
bracket, an opening paren, http(s)://, the given host, a slash, and then
one or more characters none of which is a closing paren or whitespace,
running to the end of the input — matches at the head of the input. -/
def mdSuffixHere (host : List Char) (l : List Char) : Bool :=
  match l with
  | ']' :: '(' :: rest =>
    match matchScheme rest with
    | some r3 =>
      match matchCI host r3 with
      | some r4 =>
        match r4 with
        | '/' :: tail => !tail.isEmpty && tail.all (fun c => !(c == ')') && !isWsJS c)
        | _ => false
      | none => false
    | none => false
  | _ => false

/-- Delete the leftmost match of the end-anchored markdown-suffix pattern
(replacement by the empty string keeps only the text before the match). -/
def stripMdSuffix (host : List Char) : List Char → List Char
  | [] => []
  | c :: r => if mdSuffixHere host (c :: r) then [] else c :: stripMdSuffix host r

/-- The literal pattern d o i colon. -/
def doiLabelPat : List Char := ['d', 'o', 'i', ':']

/-- Strip a leading doi: label (case-insensitive) plus following
whitespace. -/
def dropDoiLabel (l : List Char) : List Char :=
  match matchCI doiLabelPat l with
  | some r => r.dropWhile isWsJS
  | none => l

/-- The host characters of doi.org followed by a slash. -/
def doiOrgSlashPat : List Char := ['d', 'o', 'i', '.', 'o', 'r', 'g', '/']

/-- Strip a leading http(s)://(dx.)?doi.org/ URL scheme (case-insensitive,
with regex-style backtracking over the optional dx. group). -/
def dropDoiUrlScheme (l : List Char) : List Char :=
  match matchScheme l with
  | none => l
  | some r =>
    match matchCI ['d', 'x', '.'] r with
    | some r2 =>
      match matchCI doiOrgSlashPat r2 with
      | some r3 => r3
      | none =>
        match matchCI doiOrgSlashPat r with
        | some r3 => r3
        | none => l
    | none =>
      match matchCI doiOrgSlashPat r with
      | some r3 => r3
      | none => l

/-- The trailing punctuation class stripped by normalizeDoi: period,
comma, semicolon, colon, bang, question mark, closing paren, plus,
closing bracket. -/
def isPunctJS (c : Char) : Bool :=
  c == '.' || c == ',' || c == ';' || c == ':' || c == '!' || c == '?' ||
  c == ')' || c == '+' || c == ']'

/-- Strip the maximal trailing run of sentence punctuation. -/
def stripTrailingPunct (l : List Char) : List Char :=
  (l.reverse.dropWhile isPunctJS).reverse

/-- normalizeDoi: trim, strip a markdown-link suffix toward (dx.)doi.org,
strip a doi: label or a (dx.)doi.org URL scheme, percent-decode when a
percent escape is present (keeping the input when decoding throws), strip
trailing sentence punctuation and trim again. -/
def normalizeDoi (doi : String) : String :=
  let l0 := trimChars doi.data
  let l1 := stripMdSuffix ['d', 'o', 'i', '.', 'o', 'r', 'g'] l0
  let l2 := stripMdSuffix ['d', 'x', '.', 'd', 'o', 'i', '.', 'o', 'r', 'g'] l1
  let l3 := dropDoiUrlScheme (dropDoiLabel l2)
  let l4 := if hasPctEscape l3 then (percentDecode l3).getD l3 else l3
  String.mk (trimChars (stripTrailingPunct l4))

/-- toDoiUrl: the doi.org URL for a DOI, percent-encoded except that
encoded slashes are restored. -/
def toDoiUrl (doi : String) : String :=
  String.mk ("https://doi.org/".data ++ unescapeSlash (encodeURIChars doi.data))

/-! ### Author labels -/

/-- Split a character list at every character satisfying the predicate
(single-separator split; runs of separators yield empty pieces). -/
def splitOnPred (p : Char → Bool) : List Char → List (List Char)
  | [] => [[]]
  | c :: r =>
    if p c then [] :: splitOnPred p r
    else
      match splitOnPred p r with
      | [] => [[c]]
      | x :: xs => (c :: x) :: xs

/-- getLastName: final whitespace-delimited token of the trimmed full
name (empty for an empty or all-whitespace name). -/
def getLastName (fullName : String) : String :=
  let parts := (splitOnPred isWsJS (trimChars fullName.data)).filter (fun x => !x.isEmpty)
  String.mk ((parts.getLast?).getD [])

/-- Minimal bibliographic projection keyed by normalized DOI. -/
structure ReferenceFallbackInfo where
  authors : List String
  year : Nat
  title : String
  journal : String
deriving DecidableEq

/-- formatCitationLinkTextFromFallback: the humanized author-year label. -/
def formatCitationLinkTextFromFallback (fallback : ReferenceFallbackInfo) : String :=
  let year := if fallback.year > 0 then toString fallback.year else "n.d."
  match fallback.authors with
  | [] => "Unknown " ++ year
  | [a] => getLastName a ++ " " ++ year
  | [a, b] => getLastName a ++ " and " ++ getLastName b ++ " " ++ year
  | a :: _ :: _ :: _ => getLastName a ++ " et al. " ++ year

/-- Lookup in an association list keyed by DOI string (models Map.get). -/
def listLookup (k : String) (m : List (String × ReferenceFallbackInfo)) :
    Option ReferenceFallbackInfo :=
  match m.find? (fun p => p.1 == k) with
  | some p => some p.2
  | none => none

/-! ### Citation marker matchers (the four recognized surface forms) -/

/-- The character class excluded from a captured DOI in the paren and
bracket citation patterns: whitespace, angle brackets, double quote,
closing paren, closing bracket. -/
def isDoiBodyStop (c : Char) : Bool :=
  isWsJS c || c == '<' || c == '>' || c == '"' || c == ')' || c == ']'

/-- Match the captured-DOI core: the literal one-zero-dot, at least four
digits, a slash, then one or more characters not in the stop class.
Returns the captured DOI characters and the remainder. -/
def matchDoiCore (stop : Char → Bool) : List Char → Option (List Char × List Char)
  | '1' :: '0' :: '.' :: r =>
    let ds := r.takeWhile isDigitA
    let r2 := r.dropWhile isDigitA
    if ds.length < 4 then none
    else
      match r2 with
      | '/' :: r3 =>
        let body := r3.takeWhile (fun c => !stop c)
        let r4 := r3.dropWhile (fun c => !stop c)
        if body.isEmpty then none
        else some ('1' :: '0' :: '.' :: (ds ++ '/' :: body), r4)
      | _ => none
  | _ => none

/-- Expect one literal character at the head of the input. -/
def expectC (ch : Char) : List Char → Option (List Char)
  | c :: r => if c == ch then some r else none
  | [] => none

/-- Matcher for a paren citation marker. -/
def matcherParen (l : List Char) : Option (List Char × List Char) :=
  match expectC '(' l with
  | none => none
  | some r =>
    match matchCI doiLabelPat r with
    | none => none
    | some r2 =>
      match matchDoiCore isDoiBodyStop (r2.dropWhile isWsJS) with
      | none => none
      | some (d, r4) =>
        match expectC ')' r4 with
        | none => none
        | some r5 => some (d, r5)

/-- Matcher for a bracket citation marker. -/
def matcherBracket (l : List Char) : Option (List Char × List Char) :=
  match expectC '[' l with
  | none => none
  | some r =>
    match matchCI doiLabelPat r with
    | none => none
    | some r2 =>
      match matchDoiCore isDoiBodyStop (r2.dropWhile isWsJS) with
      | none => none
      | some (d, r4) =>
        match expectC ']' r4 with
        | none => none
        | some r5 => some (d, r5)

/-- Matcher for a paren-wrapped bracket citation marker. -/
def matcherParenBracket (l : List Char) : Option (List Char × List Char) :=
  match expectC '(' l with
  | none => none
  | some r0 =>
    match expectC '[' r0 with
    | none => none
    | some r =>
      match matchCI doiLabelPat r with
      | none => none
      | some r2 =>
        match matchDoiCore isDoiBodyStop (r2.dropWhile isWsJS) with
        | none => none
        | some (d, r4) =>
          match expectC ']' r4 with
          | none => none
          | some r5 =>
            match expectC ')' r5 with
            | none => none
            | some r6 => some (d, r6)

/-- Matcher for a markdown-link citation marker (capture runs to the
closing bracket; the parenthesized URL part must be nonempty). -/
def matcherMdLink (l : List Char) : Option (List Char × List Char) :=
  match expectC '[' l with
  | none => none
  | some r =>
    match matchCI doiLabelPat r with
    | none => none
    | some r2 =>
      match matchDoiCore (fun c => c == ']') (r2.dropWhile isWsJS) with
      | none => none
      | some (d, r4) =>
        match expectC ']' r4 with
        | none => none
        | some r5 =>
          match expectC '(' r5 with
          | none => none
          | some r6 =>
            let inner := r6.takeWhile (fun c => !(c == ')'))
            let r7 := r6.dropWhile (fun c => !(c == ')'))
            if inner.isEmpty then none
            else
              match expectC ')' r7 with
              | none => none
              | some r8 => some (d, r8)

/-! ### Replacement passes -/

/-- Keep-first deduplication of a string list (models iterating a JS Set). -/
def dedupFirst : List String → List String
  | [] => []
  | x :: xs => x :: (dedupFirst xs).filter (fun y => y ≠ x)

/-- The paren-wrapped replacement used by the first three passes. -/
def wrapRepl (doi : String) (fb : ReferenceFallbackInfo) : String :=
  "([" ++ formatCitationLinkTextFromFallback fb ++ "](" ++ toDoiUrl doi ++ "))"

/-- The bare-link replacement used by the markdown-link pass. -/
def linkRepl (doi : String) (fb : ReferenceFallbackInfo) : String :=
  "[" ++ formatCitationLinkTextFromFallback fb ++ "](" ++ toDoiUrl doi ++ ")"

/-- One global regex-replace pass: scan left to right, and at each match
normalize the captured DOI, record it as cited or removed according to
the fallback map, and splice in the replacement (or nothing) without
rescanning it; non-matching characters are copied.  The fuel bounds the
number of consumed input characters. -/
def passAuxF (mf : List Char → Option (List Char × List Char))
    (repl : String → ReferenceFallbackInfo → String)
    (fallbackByDoi : List (String × ReferenceFallbackInfo)) :
    Nat → List Char → List Char × List String × List String
  | _, [] => ([], [], [])
  | 0, l => (l, [], [])
  | fuel + 1, c :: rest =>
    match mf (c :: rest) with
    | some (d, r) =>
      let nd := normalizeDoi (String.mk d)
      match listLookup nd fallbackByDoi with
      | none =>
        let (o, cs, rs) := passAuxF mf repl fallbackByDoi fuel r
        (o, cs, nd :: rs)
      | some fb =>
        let (o, cs, rs) := passAuxF mf repl fallbackByDoi fuel r
        ((repl nd fb).data ++ o, nd :: cs, rs)
    | none =>
      let (o, cs, rs) := passAuxF mf repl fallbackByDoi fuel rest
      (c :: o, cs, rs)

/-- Run one replacement pass over a whole character list. -/
def passRun (mf : List Char → Option (List Char × List Char))
    (repl : String → ReferenceFallbackInfo → String)
    (fallbackByDoi : List (String × ReferenceFallbackInfo))
    (l : List Char) : List Char × List String × List String :=
  passAuxF mf repl fallbackByDoi l.length l

/-- Result of citation filtering. -/
structure FilterResult where
  processedContent : String
  citedDois : List String
  removedDois : List String
deriving DecidableEq

/-- filterAndFormatCitationsWithSourceDois: run the three citation
patterns in order with the paren-wrapped replacement, then the
markdown-link pattern with the bare-link replacement, and deduplicate the
cited and removed DOI lists keeping first occurrences. -/
def filterAndFormatCitationsWithSourceDois (content : String)
    (fallbackByDoi : List (String × ReferenceFallbackInfo)) : FilterResult :=
  let p1 := passRun matcherParen wrapRepl fallbackByDoi content.data
  let p2 := passRun matcherBracket wrapRepl fallbackByDoi p1.1
  let p3 := passRun matcherParenBracket wrapRepl fallbackByDoi p2.1
  let p4 := passRun matcherMdLink linkRepl fallbackByDoi p3.1
  { processedContent := String.mk p4.1
  , citedDois := dedupFirst (p1.2.1 ++ p2.2.1 ++ p3.2.1 ++ p4.2.1)
  , removedDois := dedupFirst (p1.2.2 ++ p2.2.2 ++ p3.2.2 ++ p4.2.2) }

/-! ### References section -/

/-- Richer validated bibliographic record (secondary metadata lookup). -/
structure ValidatedDoiInfo where
  doi : String
  title : String
  authors : List String
  year : Nat
  journal : String
deriving DecidableEq

/-- Join strings with a separator (models Array.join). -/
def joinSep (sep : String) : List String → String
  | [] => ""
  | [x] => x
  | x :: y :: xs => x ++ sep ++ joinSep sep (y :: xs)

/-- Display string for an author list: up to three authors then et al.,
or Unknown when empty. -/
def authorsDisplay (authors : List String) : String :=
  if authors.length > 0 then
    joinSep ", " (authors.take 3) ++ (if authors.length > 3 then ", et al." else "")
  else "Unknown"

/-- One bibliography line for a raw cited DOI, preferring validated
metadata over the fallback projection, with placeholders for missing
fields. -/
def refLineFor (validatedDois : List (String × ValidatedDoiInfo))
    (fallbackByDoi : List (String × ReferenceFallbackInfo)) (rawDoi : String) : String :=
  let doi := normalizeDoi rawDoi
  match (validatedDois.find? (fun p => p.1 == doi)).map Prod.snd with
  | some validated =>
    let yearStr := if validated.year > 0 then toString validated.year else "n.d."
    "- " ++ authorsDisplay validated.authors ++ ". " ++ yearStr ++ ". " ++
      (if validated.title == "" then "Untitled" else validated.title) ++ ". *" ++
      (if validated.journal == "" then "Unknown Journal" else validated.journal) ++
      "*. [DOI: " ++ validated.doi ++ "](" ++ toDoiUrl validated.doi ++ ")"
  | none =>
    let fb := listLookup doi fallbackByDoi
    let authorsStr :=
      match fb with
      | some f => authorsDisplay f.authors
      | none => "Unknown"
    let yearStr :=
      match fb with
      | some f => if f.year > 0 then toString f.year else "n.d."
      | none => "n.d."
    let titleStr :=
      match fb with
      | some f => if f.title == "" then "Untitled" else f.title
      | none => "Untitled"
    let journalStr :=
      match fb with
      | some f => if f.journal == "" then "Unknown Journal" else f.journal
      | none => "Unknown Journal"
    "- " ++ authorsStr ++ ". " ++ yearStr ++ ". " ++ titleStr ++ ". *" ++
      journalStr ++ "*. [DOI: " ++ doi ++ "](" ++ toDoiUrl doi ++ ")"

/-- generateReferencesSection: localized heading plus one line per unique
cited DOI, in first-citation order. -/
def generateReferencesSection (citedDois : List String)
    (validatedDois : List (String × ValidatedDoiInfo))
    (fallbackByDoi : List (String × ReferenceFallbackInfo))
    (language : String) : String :=
  let title := if language == "ko" then "## 참고문헌" else "## References"
  let uniqueCitedDois := dedupFirst citedDois
  let refLines := uniqueCitedDois.map (refLineFor validatedDois fallbackByDoi)
  title ++ "\n\n" ++ joinSep "\n\n" refLines ++ "\n"

/-! ### Academic search tool -/

/-- A literature record returned by the search backends. -/
structure AcademicSource where
  title : String
  authors : List String
  journal : String
  year : Nat
  doi : String
  abstract : String
  url : String
  source : String
deriving DecidableEq

/-- Insert a key-value pair with JS Map semantics: an existing key keeps
its position but its value is overwritten; a new key is appended. -/
def jsMapInsert (m : List (String × AcademicSource)) (k : String) (v : AcademicSource) :
    List (String × AcademicSource) :=
  if m.any (fun p => p.1 == k) then m.map (fun p => if p.1 == k then (k, v) else p)
  else m ++ [(k, v)]

/-- Build a JS Map from an entry list (later duplicate keys overwrite). -/
def jsMapOfList (l : List (String × AcademicSource)) : List (String × AcademicSource) :=
  l.foldl (fun m p => jsMapInsert m p.1 p.2) []

/-- The merged candidate list before DOI filtering: primary (PubMed)
results, where a backend failure degrades to zero results, then secondary
(scholar web search) results when the primary yielded fewer than ten and
the secondary is available. -/
def mergedCandidates (pubmedOutcome : Except String (List AcademicSource))
    (ollamaInitialized : Bool) (scholarResults : List AcademicSource) :
    List AcademicSource :=
  let results := match pubmedOutcome with | .ok l => l | .error _ => []
  if results.length < 10 && ollamaInitialized then results ++ scholarResults else results

namespace AcademicSearchTool

/-- search: merge both backends, keep only DOI-bearing records,
deduplicate by the raw DOI string with JS Map semantics, and truncate to
the cap of twenty. -/
def search (pubmedOutcome : Except String (List AcademicSource))
    (ollamaInitialized : Bool) (scholarResults : List AcademicSource) :
    List AcademicSource :=
  let results := mergedCandidates pubmedOutcome ollamaInitialized scholarResults
  let withDoi := results.filter (fun r => !r.doi.isEmpty)
  let uniqueByDoi := (jsMapOfList (withDoi.map (fun r => (r.doi, r)))).map Prod.snd
  uniqueByDoi.take 20

end AcademicSearchTool

/-- buildTieredQueries: all keywords AND-ed; for three or more keywords
also the first keyword AND-ed with the disjunction of the rest; then all
keywords OR-ed. -/
def buildTieredQueries (keywords : List String) : List String :=
  match keywords with
  | [] => []
  | [k] => [k]
  | k1 :: k2 :: rest =>
    let quoted := (k1 :: k2 :: rest).map (fun k => "(" ++ k ++ ")")
    let tier1 := joinSep " AND " quoted
    let tier3 := joinSep " OR " quoted
    if (k1 :: k2 :: rest).length > 2 then
      let primary := quoted.headD ""
      let orRest := joinSep " OR " quoted.tail
      [tier1, primary ++ " AND (" ++ orRest ++ ")", tier3]
    else [tier1, tier3]

/-- The last record of a list carrying the given raw DOI (used to state
which record survives JS Map deduplication). -/
def lastWithDoi (l : List AcademicSource) (k : String) : Option AcademicSource :=
  (l.filter (fun r => r.doi == k)).getLast?

/-! ### Report text cleanup -/

/-- Split a character list into lines at every newline. -/
def splitLinesChars : List Char → List (List Char) :=
  splitOnPred (fun c => c == '\n')

/-- Join lines with newlines. -/
def joinLinesChars : List (List Char) → List Char
  | [] => []
  | [x] => x
  | x :: y :: xs => x ++ '\n' :: joinLinesChars (y :: xs)

/-- Lowercase every character (ASCII). -/
def toLowerL (l : List Char) : List Char := l.map toLowerA

/-- JS String.trim as a String function. -/
def trimS (s : String) : String := String.mk (trimChars s.data)

/-- Substring test on character lists (JS String.includes). -/
def containsSubB (pat l : List Char) : Bool :=
  l.tails.any (fun t => pat.isPrefixOf t)

/-- Whether a line, trimmed and lowercased, is one of the recognized
reference-section markers across supported languages. -/
def isRefMarkerL (line : List Char) : Bool :=
  let t := toLowerL (trimChars line)
  t == "references".data || t == "bibliography".data || t == "참고문헌".data ||
  t == "works cited".data ||
  "references:".data.isPrefixOf t || "bibliography:".data.isPrefixOf t ||
  "참고문헌:".data.isPrefixOf t

/-- stripInlineReferencesBlock: truncate the text from the first line
matching a reference-section marker onward (trimming the kept prefix);
texts without a marker line are returned unchanged. -/
def stripInlineReferencesBlock (text : String) : String :=
  let lines := splitLinesChars text.data
  match lines.findIdx? isRefMarkerL with
  | none => text
  | some i => String.mk (trimChars (joinLinesChars (lines.take i)))

/-- Whether the tail of a heading line (after the leading hashes) matches
the regex remainder: one or more whitespace characters followed by one or
more characters none of which is a line terminator, reaching the line
end.  Expressed as the existence of a split point, which is exactly the
backtracking regex semantics. -/
def headerTailMatch (tail : List Char) : Bool :=
  (List.range tail.length).any (fun j =>
    0 < j && (tail.take j).all isWsJS && !(tail.drop j).isEmpty &&
      (tail.drop j).all (fun c => !(c == '\r' || c.toNat == 0x2028 || c.toNat == 0x2029)))

/-- Whether a line matches the markdown-heading pattern (one or two
hashes, whitespace, content). -/
def isHeaderLine (l : List Char) : Bool :=
  match l with
  | '#' :: '#' :: r => headerTailMatch r
  | '#' :: r => headerTailMatch r
  | _ => false

/-- Blank out every markdown-heading line of the text (the multiline
global replace applied before appending summary and section bodies). -/
def stripHeaders (text : String) : String :=
  String.mk (joinLinesChars
    ((splitLinesChars text.data).map (fun l => if isHeaderLine l then [] else l)))

/-- The full cleanup applied to LM output before it is appended to the
report: strip heading lines, trim, then truncate any inline
references/bibliography trailer block. -/
def cleanupSectionContent (text : String) : String :=
  stripInlineReferencesBlock (trimS (stripHeaders text))

/-! ### Research orchestrator model -/

/-- Progress events pushed to the renderer. -/
inductive REvent where
  | statusMsg (message : String)
  | statusTitle (title : String)
  | planCreated (toc : List String)
  | researchStarted (sectionIndex : Nat) (topic : String)
  | toolStart (tool : String) (info : String)
  | sourceFound (title url doi journal : String)
  | reportChunk (chunk : String) (final : Bool)
  | reportReplace (content : String)
  | completedEv (reportPreview : String)
  | pausedEv (message : String)
  | cancelledEv (message : String)
  | errorEv (message : String)
deriving DecidableEq

/-- A thrown JS error, identified by its name and message. -/
structure JsError where
  name : String
  message : String
deriving DecidableEq

/-- The error thrown by the cooperative cancellation check. -/
def cancelledError : JsError := ⟨"Error", "Research cancelled"⟩

/-- The cancellation test applied in the catch block of the run. -/
def isCancelError (e : JsError) : Bool :=
  e.name == "AbortError" || e.message == "Research cancelled"

/-- One planned section. -/
structure PlanSection where
  title : String
  description : String
deriving DecidableEq

/-- The research plan. -/
structure ResearchPlan where
  sections : List PlanSection
deriving DecidableEq

/-- The in-memory active session state. -/
structure ResearchState where
  id : String
  chatId : String
  status : String
  query : String
  plan : Option ResearchPlan
  currentStep : Nat
  sources : List AcademicSource
  reportContent : String
deriving DecidableEq

/-- The per-section research result. -/
structure SectionResult where
  title : String
  content : String
  sources : List AcademicSource
deriving DecidableEq

/-- Oracles for the external collaborators: uploaded files, the LM
responses of each phase (already parsed for planning), the search
gateway, and the out-of-band cancellation signal sampled at each poll
point. -/
structure Oracles where
  files : List (String × String)
  planOutcome : Except JsError (Option ResearchPlan)
  keywordOutcome : Nat → Except JsError String
  searchResults : Nat → String → List AcademicSource
  sectionSynthOutcome : Nat → Except JsError String
  summaryOutcome : Except JsError String
  titleOutcome : Except JsError String
  abortedAtPoll : Nat → Bool

/-- Observable world state: emitted events, the persisted session row,
saved messages, the chat title, the in-memory session and cancellation
references, and counters of LM calls and poll points. -/
structure World where
  events : List REvent
  dbStatus : String
  dbCurrentStep : Nat
  dbPlan : Option ResearchPlan
  savedMessages : List (String × List AcademicSource)
  chatTitle : Option String
  session : Option ResearchState
  abortCtrl : Option Unit
  lmCalls : Nat
  polls : Nat
deriving DecidableEq

/-- State-and-exception monad for the orchestrator run: events and
persisted state survive a thrown error. -/
def RM (α : Type) := World → World × Except JsError α

instance : Monad RM where
  pure a := fun w => (w, .ok a)
  bind x f := fun w =>
    match x w with
    | (w2, .ok a) => f a w2
    | (w2, .error e) => (w2, .error e)

/-- Emit a progress event. -/
def emitEv (ev : REvent) : RM Unit :=
  fun w => ({w with events := w.events ++ [ev]}, .ok ())

/-- Throw a JS error. -/
def throwJs {α : Type} (e : JsError) : RM α := fun w => (w, .error e)

/-- Update the world. -/
def modifyW (g : World → World) : RM Unit := fun w => (g w, .ok ())

/-- Read the world. -/
def getWorld : RM World := fun w => (w, .ok w)

/-- Issue one LM request with the given outcome (counted even when it
throws). -/
def lmCall {α : Type} (outcome : Except JsError α) : RM α :=
  fun w => ({w with lmCalls := w.lmCalls + 1}, outcome)

/-- Update the in-memory active session, when present. -/
def updateSession (g : ResearchState → ResearchState) : RM Unit :=
  modifyW (fun w => {w with session := w.session.map g})

/-- The cooperative pause/cancel check: throws the cancellation error
when the abort signal is observed at this poll point (runs without a
pause request are modelled, so the paused wait loop is not entered). -/
def checkPauseCancel (o : Oracles) : RM Unit := fun w =>
  let k := w.polls
  let w2 := {w with polls := k + 1}
  if o.abortedAtPoll k then (w2, .error cancelledError) else (w2, .ok ())

/-- JS String.slice from the start. -/
def takeS (n : Nat) (s : String) : String := String.mk (s.data.take n)

/-- Replace newlines with comma-space (the first keyword cleanup step). -/
def replNl : List Char → List Char
  | [] => []
  | '\n' :: r => ',' :: ' ' :: replNl r
  | c :: r => c :: replNl r

/-- Collapse every whitespace run to a single space. -/
def collapseWs : List Char → List Char
  | [] => []
  | [c] => if isWsJS c then [' '] else [c]
  | c :: d :: r =>
    if isWsJS c && isWsJS d then collapseWs (d :: r)
    else (if isWsJS c then ' ' else c) :: collapseWs (d :: r)

/-- The keyword post-processing: newlines to comma-space, whitespace
normalization, trim. -/
def processKeywords (content : String) : String :=
  String.mk (trimChars (collapseWs (replNl content.data)))

/-- generateSearchKeywords: one LM call whose failure is caught and
reported as none (triggering the deterministic fallback). -/
def generateSearchKeywordsModel (o : Oracles) (i : Nat) : RM (Option String) :=
  fun w =>
    let w2 := {w with lmCalls := w.lmCalls + 1}
    match o.keywordOutcome i with
    | .ok content => (w2, .ok (some (processKeywords content)))
    | .error _ => (w2, .ok none)

/-- Append each found source to the session and emit a source_found
event per source, in order. -/
def reportSources : List AcademicSource → RM Unit
  | [] => pure ()
  | s :: rest => do
    updateSession (fun st => {st with sources := st.sources ++ [s]})
    emitEv (.sourceFound s.title s.url s.doi s.journal)
    reportSources rest

/-- researchSection: keyword generation (with deterministic fallback to
title-space-description on failure or empty result), the academic search,
streaming of found sources, and the section synthesis LM call. -/
def researchSectionModel (o : Oracles) (i : Nat) (sect : PlanSection) : RM SectionResult := do
  emitEv (.toolStart "keyword_generation" sect.title)
  let kw ← generateSearchKeywordsModel o i
  let searchTerms :=
    match kw with
    | some k => if k == "" then sect.title ++ " " ++ sect.description else k
    | none => sect.title ++ " " ++ sect.description
  emitEv (.toolStart "academic_search" searchTerms)
  let sources := o.searchResults i searchTerms
  reportSources sources
  let content ← lmCall (o.sectionSynthOutcome i)
  pure ⟨sect.title, content, sources⟩

/-- The localized placeholder report for a run that found no sources. -/
def noSourcesReport (language : String) : String :=
  if language == "ko" then
    "## 보고서 생성 불가\n\n검색 단계에서 DOI가 확인된 문헌을 찾지 못해 보고서를 생성할 수 없습니다. 검색 질의어를 더 구체화하거나 범위를 넓혀 다시 시도하세요.\n"
  else
    "## Report Unavailable\n\nNo DOI-verified sources were found during search, so a report cannot be generated safely. Please refine or broaden the query and try again.\n"

/-- The reserved titles excluded from the synthesized body. -/
def excludedTitles : List String :=
  ["executive summary", "요약", "summary", "references", "참고문헌", "bibliography"]

/-- The fallback map built from the union of all found sources, keyed by
normalized DOI, first occurrence kept. -/
def buildFallbackByDoi (sources : List AcademicSource) :
    List (String × ReferenceFallbackInfo) :=
  sources.foldl
    (fun m s =>
      let k := normalizeDoi s.doi
      if (listLookup k m).isSome then m
      else m ++ [(k, ⟨s.authors, s.year, s.title, s.journal⟩)])
    []

/-- Append the retained sections to the report, cleaning each and
streaming a report_chunk per section, with a poll point before each. -/
def appendSectionsModel (o : Oracles) : List SectionResult → String → RM String
  | [], acc => pure acc
  | s :: rest, acc => do
    checkPauseCancel o
    let cleanContent := cleanupSectionContent s.content
    let sectionContent := "## " ++ s.title ++ "\n\n" ++ cleanContent ++ "\n\n"
    let acc2 := acc ++ sectionContent
    emitEv (.reportChunk sectionContent false)
    updateSession (fun st => {st with reportContent := acc2})
    appendSectionsModel o rest acc2

/-- synthesizeReport: filter reserved titles, short-circuit with the
placeholder when the source union is empty, otherwise write the summary,
append cleaned sections, run the citation filter against the fallback
map, append the references section and broadcast a full replace. -/
def synthesizeReportModel (o : Oracles) (sectionResults : List SectionResult)
    (language : String) : RM Unit := do
  let filteredSections := sectionResults.filter
    (fun s => !(excludedTitles.any (fun t => containsSubB t.data (toLowerL s.title.data))))
  let allSources := (sectionResults.map (fun s => s.sources)).flatten
  if allSources.length == 0 then do
    emitEv (.reportChunk (noSourcesReport language) true)
    updateSession (fun st => {st with reportContent := noSourcesReport language, sources := []})
    pure ()
  else do
    emitEv (.statusMsg (if language == "ko" then "요약 작성 중..." else "Writing executive summary..."))
    let summaryContent ← lmCall o.summaryOutcome
    let summaryTitle := if language == "ko" then "## 요약" else "## Executive Summary"
    let cleanSummary := cleanupSectionContent summaryContent
    let rc1 := summaryTitle ++ "\n\n" ++ cleanSummary ++ "\n\n"
    emitEv (.reportChunk rc1 false)
    updateSession (fun st => {st with reportContent := rc1})
    let rcSections ← appendSectionsModel o filteredSections rc1
    emitEv (.statusMsg (if language == "ko" then "DOI 인용 정합성 확인 중..." else "Validating DOI citations against searched sources..."))
    let fallbackByDoi := buildFallbackByDoi allSources
    let res := filterAndFormatCitationsWithSourceDois rcSections fallbackByDoi
    let rcFinal := res.processedContent ++
      generateReferencesSection res.citedDois [] fallbackByDoi language
    emitEv (.reportReplace rcFinal)
    updateSession (fun st => {st with sources := allSources})
    updateSession (fun st => {st with reportContent := rcFinal})
    pure ()

/-- The per-section research loop with its leading poll point, current
step persistence and research_started event. -/
def researchLoopModel (o : Oracles) : Nat → List PlanSection → RM (List SectionResult)
  | _, [] => pure []
  | i, sect :: rest => do
    checkPauseCancel o
    updateSession (fun st => {st with currentStep := i})
    modifyW (fun w => {w with dbCurrentStep := i})
    emitEv (.researchStarted i sect.title)
    let r ← researchSectionModel o i sect
    let rs ← researchLoopModel o (i + 1) rest
    pure (r :: rs)

/-- Strip one leading and one trailing quote character. -/
def stripEdgeQuotes (s : String) : String :=
  let l1 :=
    match s.data with
    | c :: r => if c == '"' || c == '\x27' then r else s.data
    | [] => s.data
  let l2 :=
    match l1.reverse with
    | c :: r => if c == '"' || c == '\x27' then r.reverse else l1
    | [] => l1
  String.mk l2

/-- Best-effort chat title generation; an LM failure is caught. -/
def generateTitleModel (o : Oracles) : RM Unit := fun w =>
  let w2 := {w with lmCalls := w.lmCalls + 1}
  match o.titleOutcome with
  | .ok content =>
    let title := stripEdgeQuotes (trimS content)
    ({w2 with chatTitle := some title, events := w2.events ++ [.statusTitle title]}, .ok ())
  | .error _ => (w2, .ok ())

/-- The body of the research run (the content of the try block): plan,
per-section research, synthesis, completion persistence, message save and
title generation. -/
def runResearchCore (o : Oracles) (query language : String) : RM Unit := do
  let _enhancedQuery :=
    if o.files.length > 0 then
      query ++ "\n\nContext from uploaded documents:\n" ++
        joinSep "\n\n" (o.files.map (fun f => "--- " ++ f.1 ++ " ---\n" ++ takeS 2000 f.2))
    else query
  emitEv (.statusMsg (if language == "ko" then "연구 계획 작성 중..." else "Creating research plan..."))
  let plan? ← lmCall o.planOutcome
  match plan? with
  | none => throwJs ⟨"Error", "Failed to create research plan"⟩
  | some plan => do
    modifyW (fun w => {w with dbPlan := some plan})
    updateSession (fun st => {st with plan := some plan})
    emitEv (.planCreated (plan.sections.map (fun s => s.title)))
    let sectionResults ← researchLoopModel o 0 plan.sections
    checkPauseCancel o
    emitEv (.statusMsg (if language == "ko" then "보고서 종합 중..." else "Synthesizing report..."))
    synthesizeReportModel o sectionResults language
    modifyW (fun w => {w with dbStatus := "completed"})
    let w ← getWorld
    let finalReport := match w.session with | some st => st.reportContent | none => ""
    let finalSources := match w.session with | some st => st.sources | none => []
    emitEv (.completedEv (takeS 500 finalReport))
    modifyW (fun w2 => {w2 with savedMessages := w2.savedMessages ++ [(finalReport, finalSources)]})
    generateTitleModel o

/-- The initial world created by startResearch: session row inserted as
running, in-memory session and abort controller initialized. -/
def initialWorld (sessionId chatId query : String) : World :=
  { events := [], dbStatus := "running", dbCurrentStep := 0, dbPlan := none,
    savedMessages := [], chatTitle := none,
    session := some ⟨sessionId, chatId, "running", query, none, 0, [], ""⟩,
    abortCtrl := some (), lmCalls := 0, polls := 0 }

/-- The outcome of the try-block body alone, for stating the failure
semantics. -/
def runResearchOutcome (o : Oracles) (sessionId chatId query language : String) :
    Except JsError Unit :=
  (runResearchCore o query language (initialWorld sessionId chatId query)).2

/-- runResearch: the try block, the catch block mapping a cancellation
error to persisted cancelled plus a cancelled event and any other error
to persisted completed plus a rethrow, and the finally block clearing the
in-memory session and cancellation references in every outcome. -/
def runResearchModel (o : Oracles) (sessionId chatId query language : String) :
    World × Except JsError Unit :=
  let p := runResearchCore o query language (initialWorld sessionId chatId query)
  let w := p.1
  let handled :=
    match p.2 with
    | .ok _ => (w, Except.ok ())
    | .error e =>
      if isCancelError e then
        ({w with dbStatus := "cancelled",
                 events := w.events ++ [REvent.cancelledEv "Research cancelled by user"]},
         Except.ok ())
      else
        ({w with dbStatus := "completed"}, Except.error e)
  ({handled.1 with session := none, abortCtrl := none}, handled.2)

/-- startResearch: launch the run; a rethrown error is caught at the top
level and surfaced as an error event carrying the message. -/
def startResearchModel (o : Oracles) (sessionId chatId query language : String) : World :=
  let p := runResearchModel o sessionId chatId query language
  match p.2 with
  | .ok _ => p.1
  | .error e => {p.1 with events := p.1.events ++ [.errorEv e.message]}

/-! ### Structured citation texts

A class of input texts for the universal theorems about the citation
filter: marker-free prose segments interleaved with citation markers in
the four recognized surface forms, under non-degeneracy conditions on
DOIs, URLs and author labels. -/

/-- Characters admissible inside the suffix part of a plain DOI: outside
the capture stop class, and free of the percent sign and the two
match-trigger characters. -/
def goodDoiChar (c : Char) : Bool :=
  !isDoiBodyStop c && !(c == '%') && !(c == '(') && !(c == '[')

/-- A plain DOI: the literal one-zero-dot, at least four digits, a slash,
and a nonempty suffix of admissible characters not ending in trailing
punctuation. -/
def GoodDoi (d : String) : Bool :=
  match d.data with
  | '1' :: '0' :: '.' :: r =>
    let ds := r.takeWhile isDigitA
    match r.dropWhile isDigitA with
    | '/' :: body =>
      decide (4 ≤ ds.length) && !body.isEmpty && body.all goodDoiChar &&
        (match body.getLast? with
         | some c => !isPunctJS c
         | none => false)
    | _ => false
  | _ => false

/-- The four recognized citation surface forms. -/
inductive CiteForm where
  | paren
  | bracket
  | parenBracket
  | mdLink (url : String)
deriving DecidableEq

/-- An item of a structured citation text. -/
inductive RItem where
  | seg (s : String)
  | cite (form : CiteForm) (doi : String)
deriving DecidableEq

/-- Render one item to its surface text. -/
def renderItem : RItem → List Char
  | .seg s => s.data
  | .cite .paren d => "(DOI: ".data ++ d.data ++ [')']
  | .cite .bracket d => "[DOI: ".data ++ d.data ++ [']']
  | .cite .parenBracket d => "([DOI: ".data ++ d.data ++ [']', ')']
  | .cite (.mdLink u) d => "[DOI: ".data ++ d.data ++ [']', '('] ++ u.data ++ [')']

/-- Render a structured citation text. -/
def renderChars (items : List RItem) : List Char :=
  (items.map renderItem).flatten

/-- A prose segment free of the two match-trigger characters. -/
def GoodSeg (s : String) : Bool :=
  s.data.all (fun c => !(c == '(') && !(c == '['))

/-- A markdown-link URL free of trigger characters and not starting with
a doi label. -/
def GoodUrl (u : String) : Bool :=
  u.data.all (fun c => !(c == '(') && !(c == '[')) && !ciStarts doiLabelPat u.data

/-- A fallback record whose rendered author-year label is free of trigger
characters and does not start with a doi label. -/
def GoodFallback (fb : ReferenceFallbackInfo) : Bool :=
  let lab := (formatCitationLinkTextFromFallback fb).data
  lab.all (fun c => !(c == '(') && !(c == '[')) && !ciStarts doiLabelPat lab

/-- Non-degeneracy of one item. -/
def GoodItem : RItem → Bool
  | .seg s => GoodSeg s
  | .cite f d =>
    GoodDoi d &&
      (match f with
       | .mdLink u => GoodUrl u
       | _ => true)

/-- Non-degeneracy of a structured citation text. -/
def CleanItems (items : List RItem) : Bool := items.all GoodItem

/-- Non-degeneracy of a fallback map. -/
def CleanMap (f : List (String × ReferenceFallbackInfo)) : Bool :=
  f.all (fun p => GoodFallback p.2)

/-- The text a marker with the given DOI leaves behind in the first three
passes: the wrapped replacement link when the DOI is mapped, nothing
otherwise. -/
def repOf (f : List (String × ReferenceFallbackInfo)) (d : String) : List Char :=
  match listLookup d f with
  | some fb => (wrapRepl d fb).data
  | none => []

/-- Item text after the first pass (paren markers resolved). -/
def stage1Item (f : List (String × ReferenceFallbackInfo)) : RItem → List Char
  | .cite .paren d => repOf f d
  | it => renderItem it

/-- Item text after all four passes. -/
def finalItem (f : List (String × ReferenceFallbackInfo)) : RItem → List Char
  | .seg s => s.data
  | .cite .paren d => repOf f d
  | .cite .bracket d => repOf f d
  | .cite .parenBracket d => '(' :: (repOf f d ++ [')'])
  | .cite (.mdLink u) d => repOf f d ++ '(' :: (u.data ++ [')'])

/-- DOIs of mapped paren markers, in order (collected by the first pass). -/
def citedPass1 (items : List RItem) (f : List (String × ReferenceFallbackInfo)) :
    List String :=
  items.filterMap fun it =>
    match it with
    | .cite .paren d => if (listLookup d f).isSome then some d else none
    | _ => none

/-- DOIs of unmapped paren markers, in order. -/
def removedPass1 (items : List RItem) (f : List (String × ReferenceFallbackInfo)) :
    List String :=
  items.filterMap fun it =>
    match it with
    | .cite .paren d => if (listLookup d f).isSome then none else some d
    | _ => none

/-- DOIs of mapped bracket-family markers, in order (collected by the
second pass). -/
def citedPass2 (items : List RItem) (f : List (String × ReferenceFallbackInfo)) :
    List String :=
  items.filterMap fun it =>
    match it with
    | .cite .bracket d => if (listLookup d f).isSome then some d else none
    | .cite .parenBracket d => if (listLookup d f).isSome then some d else none
    | .cite (.mdLink _) d => if (listLookup d f).isSome then some d else none
    | _ => none

/-- DOIs of unmapped bracket-family markers, in order. -/
def removedPass2 (items : List RItem) (f : List (String × ReferenceFallbackInfo)) :
    List String :=
  items.filterMap fun it =>
    match it with
    | .cite .bracket d => if (listLookup d f).isSome then none else some d
    | .cite .parenBracket d => if (listLookup d f).isSome then none else some d
    | .cite (.mdLink _) d => if (listLookup d f).isSome then none else some d
    | _ => none

/-- A matcher strictly consumes input whenever it succeeds. -/
def MatcherConsumes (mf : List Char → Option (List Char × List Char)) : Prop :=
  ∀ l d r, mf l = some (d, r) → r.length < l.length

/-- A character list is inert for a matcher before a given continuation:
the matcher fails at every position inside it. -/
def InertFor (mf : List Char → Option (List Char × List Char))
    (X rest : List Char) : Prop :=
  ∀ a c b, X = a ++ c :: b → mf (c :: (b ++ rest)) = none

/-- An event that is neither an error event nor a cancelled event. -/
def SafeEv (ev : REvent) : Prop :=
  (∀ m, ev ≠ REvent.errorEv m) ∧ (∀ m, ev ≠ REvent.cancelledEv m)

/-- A run step only appends events, and only safe ones: the error and
cancelled events are emitted exclusively by the handlers around the core
run. -/
def EvShape {α : Type} (x : RM α) : Prop :=
  ∀ w, ∃ evs, ((x w).1).events = w.events ++ evs ∧ ∀ ev ∈ evs, SafeEv ev

/-! ### Helper lemmas -/

lemma takeWhile_app_stop {p : Char → Bool} {xs : List Char} {y : Char} (r : List Char)
    (hxs : xs.all p = true) (hy : p y = false) :
    (xs ++ y :: r).takeWhile p = xs := by
  induction xs with
  | nil => simp [List.takeWhile, hy]
  | cons c cs ih =>
    simp only [List.all_cons, Bool.and_eq_true] at hxs
    simp [List.takeWhile, hxs.1, ih hxs.2]

lemma dropWhile_app_stop {p : Char → Bool} {xs : List Char} {y : Char} (r : List Char)
    (hxs : xs.all p = true) (hy : p y = false) :
    (xs ++ y :: r).dropWhile p = y :: r := by
  induction xs with
  | nil => simp [List.dropWhile, hy]
  | cons c cs ih =>
    simp only [List.all_cons, Bool.and_eq_true] at hxs
    simp [List.dropWhile, hxs.1, ih hxs.2]

lemma dropWhile_cons_neg {p : Char → Bool} {c : Char} (r : List Char) (hc : p c = false) :
    (c :: r).dropWhile p = c :: r := by
  simp [List.dropWhile, hc]

lemma length_dropWhile_le (p : Char → Bool) (l : List Char) :
    (l.dropWhile p).length ≤ l.length := by
  induction l with
  | nil => simp
  | cons c r ih =>
    by_cases hc : p c
    · simp only [List.dropWhile, hc]
      exact Nat.le_succ_of_le ih
    · simp [List.dropWhile, hc]

/-! ### dedupFirst lemmas -/

lemma mem_dedupFirst {a : String} {l : List String} : a ∈ dedupFirst l ↔ a ∈ l := by
  induction l with
  | nil => simp [dedupFirst]
  | cons x xs ih =>
    simp only [dedupFirst, List.mem_cons, List.mem_filter]
    constructor
    · rintro (rfl | ⟨hmem, _⟩)
      · exact Or.inl rfl
      · exact Or.inr (ih.mp hmem)
    · rintro (rfl | hmem)
      · exact Or.inl rfl
      · by_cases hax : a = x
        · exact Or.inl hax
        · exact Or.inr ⟨ih.mpr hmem, by simpa using hax⟩

lemma dedupFirst_nodup (l : List String) : (dedupFirst l).Nodup := by
  induction l with
  | nil => simp [dedupFirst]
  | cons x xs ih =>
    simpa [dedupFirst, List.nodup_cons, List.mem_filter] using
      List.Nodup.filter _ ih

lemma count_dedupFirst_eq_one {a : String} {l : List String} (h : a ∈ l) :
    (dedupFirst l).count a = 1 :=
  List.count_eq_one_of_mem (dedupFirst_nodup l) (mem_dedupFirst.mpr h)

lemma dedupFirst_append_singleton (xs : List String) (x : String) :
    dedupFirst (xs ++ [x]) =
      if x ∈ xs then dedupFirst xs else dedupFirst xs ++ [x] := by
  induction xs with
  | nil => simp [dedupFirst]
  | cons y ys ih =>
    by_cases hx : x ∈ ys
    · have hmem : x ∈ y :: ys := List.mem_cons_of_mem _ hx
      simp only [List.cons_append, dedupFirst, List.append_eq, ih, if_pos hx, if_pos hmem]
    · by_cases hxy : x = y
      · subst hxy
        have hmem : x ∈ x :: ys := List.mem_cons_self _ _
        simp only [List.cons_append, dedupFirst, List.append_eq, ih, if_neg hx, if_pos hmem]
        rw [List.filter_append]
        simp
      · have hmem : x ∉ y :: ys := by simp [List.mem_cons, hxy, hx]
        simp only [List.cons_append, dedupFirst, List.append_eq, ih, if_neg hx, if_neg hmem]
        rw [List.filter_append]
        simp [hxy]

/-! ### JS Map lemmas and search properties -/

lemma jsMapOfList_append_singleton (l : List (String × AcademicSource))
    (p : String × AcademicSource) :
    jsMapOfList (l ++ [p]) = jsMapInsert (jsMapOfList l) p.1 p.2 := by
  simp [jsMapOfList, List.foldl_append]

lemma any_key_iff (M : List (String × AcademicSource)) (k : String) :
    M.any (fun p => p.1 == k) = true ↔ k ∈ M.map Prod.fst := by
  rw [List.any_eq_true]
  constructor
  · rintro ⟨p, hp, hpk⟩
    exact List.mem_map.mpr ⟨p, hp, beq_iff_eq.mp hpk⟩
  · intro h
    obtain ⟨p, hp, hpk⟩ := List.mem_map.mp h
    exact ⟨p, hp, beq_iff_eq.mpr hpk⟩

lemma filter_key_eq_nil {l : List (String × AcademicSource)} {k : String}
    (h : k ∉ l.map Prod.fst) : l.filter (fun p => p.1 == k) = [] := by
  apply List.filter_eq_nil_iff.mpr
  intro p hp
  simp only [beq_iff_eq]
  intro hk
  exact h (List.mem_map.mpr ⟨p, hp, hk⟩)

lemma jsMapOfList_props (l : List (String × AcademicSource)) :
    (jsMapOfList l).map Prod.fst = dedupFirst (l.map Prod.fst) ∧
    ∀ e ∈ jsMapOfList l, (l.filter (fun p => p.1 == e.1)).getLast? = some e := by
  induction l using List.reverseRecOn with
  | nil => exact ⟨rfl, by simp [jsMapOfList]⟩
  | append_singleton l p0 ih =>
    obtain ⟨hk, hv⟩ := ih
    rw [jsMapOfList_append_singleton]
    by_cases hpresent : (jsMapOfList l).any (fun p => p.1 == p0.1) = true
    · have hkey : p0.1 ∈ l.map Prod.fst := by
        have := (any_key_iff _ _).mp hpresent
        rw [hk] at this
        exact mem_dedupFirst.mp this
      constructor
      · rw [jsMapInsert, if_pos hpresent, List.map_map]
        have : ((jsMapOfList l).map
            (Prod.fst ∘ fun p => if p.1 == p0.1 then (p0.1, p0.2) else p)) =
            (jsMapOfList l).map Prod.fst := by
          apply List.map_congr_left
          intro q _
          by_cases hq : q.1 == p0.1
          · simp only [Function.comp, if_pos hq]
            exact (beq_iff_eq.mp hq).symm
          · simp only [Function.comp, if_neg hq]
        rw [this, hk]
        have hmp : List.map Prod.fst (l ++ [p0]) = List.map Prod.fst l ++ [p0.1] := by simp
        rw [hmp, dedupFirst_append_singleton, if_pos hkey]
      · intro e he
        rw [jsMapInsert, if_pos hpresent] at he
        rw [List.mem_map] at he
        obtain ⟨q, hq, hqe⟩ := he
        by_cases hq1 : q.1 == p0.1
        · have he : e = (p0.1, p0.2) := by rw [← hqe, if_pos hq1]
          subst he
          rw [List.filter_append]
          have : List.filter (fun p => p.1 == p0.1) [p0] = [p0] := by simp
          rw [this, List.getLast?_concat]
        · have he : e = q := by rw [← hqe, if_neg hq1]
          subst he
          rw [List.filter_append]
          have : List.filter (fun p => p.1 == e.1) [p0] = [] := by
            simp only [List.filter, beq_iff_eq]
            have : (p0.1 == e.1) = false := by
              rw [beq_eq_false_iff_ne]
              intro hcontra
              exact hq1 (by rw [beq_iff_eq, hcontra])
            simp [this]
          rw [this, List.append_nil]
          exact hv e hq
    · have hkey : p0.1 ∉ l.map Prod.fst := by
        intro hmem
        apply hpresent
        rw [any_key_iff, hk]
        exact mem_dedupFirst.mpr hmem
      constructor
      · rw [jsMapInsert, if_neg hpresent, List.map_append, hk]
        have hmp : List.map Prod.fst (l ++ [p0]) = List.map Prod.fst l ++ [p0.1] := by simp
        rw [hmp, dedupFirst_append_singleton, if_neg hkey]
        rfl
      · intro e he
        rw [jsMapInsert, if_neg hpresent, List.mem_append] at he
        rcases he with he | he
        · have hne : e.1 ≠ p0.1 := by
            intro hcontra
            apply hkey
            have : e.1 ∈ (jsMapOfList l).map Prod.fst := List.mem_map.mpr ⟨e, he, rfl⟩
            rw [hk] at this
            rw [← hcontra]
            exact mem_dedupFirst.mp this
          rw [List.filter_append]
          have : List.filter (fun p => p.1 == e.1) [p0] = [] := by
            have : (p0.1 == e.1) = false := by
              rw [beq_eq_false_iff_ne]
              exact fun h => hne h.symm
            simp [List.filter, this]
          rw [this, List.append_nil]
          exact hv e he
        · have he : e = (p0.1, p0.2) := by simpa using he
          subst he
          rw [List.filter_append, filter_key_eq_nil hkey]
          simp

lemma getLast?_map' {α β : Type} (f : α → β) (l : List α) :
    (l.map f).getLast? = (l.getLast?).map f := by
  induction l with
  | nil => rfl
  | cons a r ih =>
    cases r with
    | nil => rfl
    | cons b s =>
      simp only [List.map_cons, List.getLast?_cons_cons] at ih ⊢
      exact ih

lemma mem_of_getLast?' {α : Type} {l : List α} {a : α} (h : l.getLast? = some a) :
    a ∈ l := by
  induction l with
  | nil => simp at h
  | cons x r ih =>
    cases r with
    | nil =>
      simp only [List.getLast?_singleton, Option.some.injEq] at h
      simp [h]
    | cons y s =>
      rw [List.getLast?_cons_cons] at h
      exact List.mem_cons_of_mem _ (ih h)

/-- The value list of the JS-Map deduplication of a record list keyed by
raw DOI: keys are the first-seen deduplicated DOIs, and each surviving
record is the last-seen candidate bearing its DOI. -/
lemma jsValues_props (cand : List AcademicSource) :
    ((jsMapOfList (cand.map (fun r => (r.doi, r)))).map Prod.snd).map (fun r => r.doi) =
      dedupFirst (cand.map (fun r => r.doi)) ∧
    ∀ r ∈ (jsMapOfList (cand.map (fun r => (r.doi, r)))).map Prod.snd,
      r ∈ cand ∧ (cand.filter (fun x => x.doi == r.doi)).getLast? = some r := by
  obtain ⟨hkeys, hvals⟩ := jsMapOfList_props (cand.map (fun r => (r.doi, r)))
  have hentry : ∀ e ∈ jsMapOfList (cand.map (fun r => (r.doi, r))),
      e.2 ∈ cand ∧ e.2.doi = e.1 ∧
      (cand.filter (fun r => r.doi == e.1)).getLast? = some e.2 := by
    intro e he
    have h1 := hvals e he
    have hfil : (cand.map (fun r => (r.doi, r))).filter (fun p => p.1 == e.1) =
        (cand.filter (fun r => r.doi == e.1)).map (fun r => (r.doi, r)) := by
      rw [List.filter_map]
      rfl
    rw [hfil, getLast?_map'] at h1
    cases hlast : (cand.filter (fun r => r.doi == e.1)).getLast? with
    | none => rw [hlast] at h1; exact absurd h1 (by simp)
    | some r0 =>
      rw [hlast] at h1
      simp only [Option.map_some'] at h1
      have h2 : (r0.doi, r0) = e := Option.some.inj h1
      have hr0f : r0 ∈ cand.filter (fun r => r.doi == e.1) := mem_of_getLast?' hlast
      have hr0c : r0 ∈ cand := (List.mem_filter.mp hr0f).1
      have he2 : e.2 = r0 := by rw [← h2]
      have he1 : e.1 = r0.doi := by rw [← h2]
      refine ⟨?_, ?_, ?_⟩
      · rw [he2]; exact hr0c
      · rw [he2, he1]
      · rw [he2]
  constructor
  · rw [List.map_map]
    have hcongr : (jsMapOfList (cand.map (fun r => (r.doi, r)))).map
        ((fun r => r.doi) ∘ Prod.snd) =
        (jsMapOfList (cand.map (fun r => (r.doi, r)))).map Prod.fst := by
      apply List.map_congr_left
      intro e he
      exact (hentry e he).2.1
    rw [hcongr, hkeys, List.map_map]
    rfl
  · intro r hr
    obtain ⟨e, he, he2⟩ := List.mem_map.mp hr
    obtain ⟨hec, hedoi, helast⟩ := hentry e he
    subst he2
    refine ⟨hec, ?_⟩
    rw [hedoi]
    exact helast

/-- C6 (amended): search returns at most twenty records, each with a
non-empty DOI; the returned raw DOI strings are pairwise distinct and are
the first-seen-ordered deduplication by raw DOI string of the DOI-bearing
merged candidates, truncated to the cap; and the record surviving for
each DOI is the last-seen candidate carrying that raw DOI (records whose
raw DOIs differ only by normalization are all retained). -/
theorem search_dedup_properties (pm : Except String (List AcademicSource))
    (oi : Bool) (sr : List AcademicSource) :
    (AcademicSearchTool.search pm oi sr).length ≤ 20 ∧
    (∀ r ∈ AcademicSearchTool.search pm oi sr, r.doi ≠ "") ∧
    ((AcademicSearchTool.search pm oi sr).map (fun r => r.doi)).Nodup ∧
    (AcademicSearchTool.search pm oi sr).map (fun r => r.doi) =
      (dedupFirst
        (((mergedCandidates pm oi sr).filter (fun r => !r.doi.isEmpty)).map
          (fun r => r.doi))).take 20 ∧
    ∀ r ∈ AcademicSearchTool.search pm oi sr,
      lastWithDoi ((mergedCandidates pm oi sr).filter (fun r => !r.doi.isEmpty)) r.doi
        = some r := by
  have hsearch : AcademicSearchTool.search pm oi sr =
      ((jsMapOfList (((mergedCandidates pm oi sr).filter
        (fun r => !r.doi.isEmpty)).map (fun r => (r.doi, r)))).map Prod.snd).take 20 :=
    rfl
  obtain ⟨hmapeq, hmem⟩ :=
    jsValues_props ((mergedCandidates pm oi sr).filter (fun r => !r.doi.isEmpty))
  have hdoieq : (AcademicSearchTool.search pm oi sr).map (fun r => r.doi) =
      (dedupFirst
        (((mergedCandidates pm oi sr).filter (fun r => !r.doi.isEmpty)).map
          (fun r => r.doi))).take 20 := by
    rw [hsearch, List.map_take, hmapeq]
  refine ⟨?_, ?_, ?_, hdoieq, ?_⟩
  · rw [hsearch]
    simp [List.length_take_le]
  · intro r hr
    rw [hsearch] at hr
    have hr2 := List.mem_of_mem_take hr
    have hrc := (hmem r hr2).1
    have hne : (!r.doi.isEmpty) = true := (List.mem_filter.mp hrc).2
    intro hcontra
    rw [hcontra] at hne
    exact absurd hne (by decide)
  · rw [hdoieq]
    exact (List.take_sublist _ _).nodup (dedupFirst_nodup _)
  · intro r hr
    rw [hsearch] at hr
    have hr2 := List.mem_of_mem_take hr
    exact (hmem r hr2).2

/-- C6 counterexample: for two candidates sharing a raw DOI the search
returns the second (last-seen) record, not the first-seen one; and two
candidates whose raw DOIs differ but normalize to the same DOI are both
returned, so the result is not deduplicated by normalized DOI. -/
theorem search_not_firstSeen_counterexample :
    AcademicSearchTool.search
        (Except.ok
          [⟨"First Title", [], "", 0, "10.1/x", "", "", "pubmed"⟩,
           ⟨"Second Title", [], "", 0, "10.1/x", "", "", "pubmed"⟩])
        false [] =
      [⟨"Second Title", [], "", 0, "10.1/x", "", "", "pubmed"⟩] ∧
    AcademicSearchTool.search
        (Except.ok
          [⟨"First Title", [], "", 0, "10.1/x", "", "", "pubmed"⟩,
           ⟨"Third Title", [], "", 0, "doi:10.1/x", "", "", "scholar"⟩])
        false [] =
      [⟨"First Title", [], "", 0, "10.1/x", "", "", "pubmed"⟩,
       ⟨"Third Title", [], "", 0, "doi:10.1/x", "", "", "scholar"⟩] ∧
    normalizeDoi "doi:10.1/x" = normalizeDoi "10.1/x" := by
  decide

/-- A witness instantiating the search properties at a concrete input. -/
theorem search_dedup_properties_witness :
    (AcademicSearchTool.search
        (Except.ok
          [⟨"First Title", [], "", 0, "10.1/x", "", "", "pubmed"⟩,
           ⟨"Second Title", [], "", 0, "10.1/x", "", "", "pubmed"⟩])
        false []).length ≤ 20 ∧
    ∀ r ∈ AcademicSearchTool.search
        (Except.ok
          [⟨"First Title", [], "", 0, "10.1/x", "", "", "pubmed"⟩,
           ⟨"Second Title", [], "", 0, "10.1/x", "", "", "pubmed"⟩])
        false [],
      lastWithDoi ((mergedCandidates
        (Except.ok
          [⟨"First Title", [], "", 0, "10.1/x", "", "", "pubmed"⟩,
           ⟨"Second Title", [], "", 0, "10.1/x", "", "", "pubmed"⟩])
        false []).filter (fun r => !r.doi.isEmpty)) r.doi = some r := by
  have h := search_dedup_properties
    (Except.ok
      [⟨"First Title", [], "", 0, "10.1/x", "", "", "pubmed"⟩,
       ⟨"Second Title", [], "", 0, "10.1/x", "", "", "pubmed"⟩])
    false []
  exact ⟨h.1, h.2.2.2.2⟩

/-- C7: tiered query construction for three keywords produces the three
tiers in order, and for exactly two keywords only the conjunctive and
disjunctive tiers. -/
theorem buildTieredQueries_spec (a b c : String) :
    buildTieredQueries [a, b, c] =
      ["(" ++ a ++ ") AND (" ++ b ++ ") AND (" ++ c ++ ")",
       "(" ++ a ++ ") AND ((" ++ b ++ ") OR (" ++ c ++ "))",
       "(" ++ a ++ ") OR (" ++ b ++ ") OR (" ++ c ++ ")"] ∧
    buildTieredQueries [a, b] =
      ["(" ++ a ++ ") AND (" ++ b ++ ")",
       "(" ++ a ++ ") OR (" ++ b ++ ")"] := by
  constructor
  · have hdef : buildTieredQueries [a, b, c] =
        [("(" ++ a ++ ")") ++ " AND " ++ (("(" ++ b ++ ")") ++ " AND " ++ ("(" ++ c ++ ")")),
         ("(" ++ a ++ ")") ++ " AND (" ++ (("(" ++ b ++ ")") ++ " OR " ++ ("(" ++ c ++ ")")) ++ ")",
         ("(" ++ a ++ ")") ++ " OR " ++ (("(" ++ b ++ ")") ++ " OR " ++ ("(" ++ c ++ ")"))] := rfl
    have e1 : ("(" ++ a ++ ")") ++ " AND " ++ (("(" ++ b ++ ")") ++ " AND " ++ ("(" ++ c ++ ")"))
        = "(" ++ a ++ ") AND (" ++ b ++ ") AND (" ++ c ++ ")" := by
      apply String.ext
      simp [String.data_append, List.append_assoc]
    have e2 : ("(" ++ a ++ ")") ++ " AND (" ++ (("(" ++ b ++ ")") ++ " OR " ++ ("(" ++ c ++ ")")) ++ ")"
        = "(" ++ a ++ ") AND ((" ++ b ++ ") OR (" ++ c ++ "))" := by
      apply String.ext
      simp [String.data_append, List.append_assoc]
    have e3 : ("(" ++ a ++ ")") ++ " OR " ++ (("(" ++ b ++ ")") ++ " OR " ++ ("(" ++ c ++ ")"))
        = "(" ++ a ++ ") OR (" ++ b ++ ") OR (" ++ c ++ ")" := by
      apply String.ext
      simp [String.data_append, List.append_assoc]
    rw [hdef, e1, e2, e3]
  · have hdef : buildTieredQueries [a, b] =
        [("(" ++ a ++ ")") ++ " AND " ++ ("(" ++ b ++ ")"),
         ("(" ++ a ++ ")") ++ " OR " ++ ("(" ++ b ++ ")")] := rfl
    have e1 : ("(" ++ a ++ ")") ++ " AND " ++ ("(" ++ b ++ ")")
        = "(" ++ a ++ ") AND (" ++ b ++ ")" := by
      apply String.ext
      simp [String.data_append, List.append_assoc]
    have e2 : ("(" ++ a ++ ")") ++ " OR " ++ ("(" ++ b ++ ")")
        = "(" ++ a ++ ") OR (" ++ b ++ ")" := by
      apply String.ext
      simp [String.data_append, List.append_assoc]
    rw [hdef, e1, e2]

/-- C10: generateReferencesSection is total and produces exactly one
bibliography line per deduplicated cited DOI, in first-citation order;
deduplication is exact (no cited DOI is dropped, none is duplicated); and
a DOI absent from both metadata maps still yields a line built from the
placeholders Unknown, n.d., Untitled and Unknown Journal. -/
theorem generateReferencesSection_spec
    (citedDois : List String) (validatedDois : List (String × ValidatedDoiInfo))
    (fallbackByDoi : List (String × ReferenceFallbackInfo)) (language : String) :
    generateReferencesSection citedDois validatedDois fallbackByDoi language =
      (if language == "ko" then "## 참고문헌" else "## References") ++ "\n\n" ++
        joinSep "\n\n"
          ((dedupFirst citedDois).map (refLineFor validatedDois fallbackByDoi)) ++ "\n" ∧
    ((dedupFirst citedDois).map (refLineFor validatedDois fallbackByDoi)).length
      = (dedupFirst citedDois).length ∧
    (dedupFirst citedDois).Nodup ∧
    (∀ d, d ∈ dedupFirst citedDois ↔ d ∈ citedDois) ∧
    ∀ d ∈ dedupFirst citedDois,
      validatedDois.find? (fun p => p.1 == normalizeDoi d) = none →
      listLookup (normalizeDoi d) fallbackByDoi = none →
      refLineFor validatedDois fallbackByDoi d =
        "- Unknown. n.d.. Untitled. *Unknown Journal*. [DOI: " ++ normalizeDoi d ++
          "](" ++ toDoiUrl (normalizeDoi d) ++ ")" := by
  refine ⟨rfl, List.length_map _ _, dedupFirst_nodup _, fun d => mem_dedupFirst, ?_⟩
  intro d _ h1 h2
  rw [refLineFor, h1, h2]
  apply String.ext
  simp [String.data_append, List.append_assoc]

/-- A witness instantiating the references-section properties, including
the placeholder line for a DOI absent from both maps. -/
theorem generateReferencesSection_spec_witness :
    (List.find? (fun p => p.1 == normalizeDoi "10.9999/zz")
      ([] : List (String × ValidatedDoiInfo)) = none) ∧
    (listLookup (normalizeDoi "10.9999/zz") [] = none) ∧
    refLineFor [] [] "10.9999/zz" =
      "- Unknown. n.d.. Untitled. *Unknown Journal*. [DOI: " ++ normalizeDoi "10.9999/zz" ++
        "](" ++ toDoiUrl (normalizeDoi "10.9999/zz") ++ ")" := by
  refine ⟨rfl, rfl, ?_⟩
  exact (generateReferencesSection_spec ["10.9999/zz"] [] [] "en").2.2.2.2
    "10.9999/zz" (by decide) rfl rfl

/-! ### normalizeDoi fixed-point lemmas -/

lemma trimRightC_eq_self {l : List Char} (h : l.all (fun c => !isWsJS c) = true) :
    trimRightC l = l := by
  induction l with
  | nil => rfl
  | cons c r ih =>
    simp only [List.all_cons, Bool.and_eq_true] at h
    have hr := ih h.2
    cases r with
    | nil =>
      simp only [trimRightC]
      simp only [Bool.not_eq_true'] at h
      simp [h.1]
    | cons x xs =>
      rw [trimRightC, hr]

lemma trimChars_eq_self {l : List Char} (h : l.all (fun c => !isWsJS c) = true) :
    trimChars l = l := by
  rw [trimChars]
  have hdrop : l.dropWhile isWsJS = l := by
    cases l with
    | nil => rfl
    | cons c r =>
      simp only [List.all_cons, Bool.and_eq_true, Bool.not_eq_true'] at h
      exact dropWhile_cons_neg r h.1
  rw [hdrop]
  exact trimRightC_eq_self h

lemma mdSuffixHere_ne {host : List Char} {c : Char} {r : List Char} (h : c ≠ ']') :
    mdSuffixHere host (c :: r) = false := by
  unfold mdSuffixHere
  split
  · rename_i rest heq
    rw [List.cons.injEq] at heq
    exact absurd heq.1 h
  · rfl

lemma stripMdSuffix_eq_self {host l : List Char} (h : ']' ∉ l) :
    stripMdSuffix host l = l := by
  induction l with
  | nil => rfl
  | cons c r ih =>
    have hc : c ≠ ']' := fun hc => h (by rw [hc]; exact List.mem_cons_self _ _)
    have hr : ']' ∉ r := fun hr => h (List.mem_cons_of_mem _ hr)
    rw [stripMdSuffix, mdSuffixHere_ne hc, ih hr]
    simp

lemma matchCI_cons_ne {p c : Char} {ps cs : List Char}
    (h : (toLowerA c == toLowerA p) = false) :
    matchCI (p :: ps) (c :: cs) = none := by
  simp [matchCI, h]

lemma hasPctEscape_of_not_mem {l : List Char} (h : '%' ∉ l) :
    hasPctEscape l = false := by
  induction l with
  | nil => rfl
  | cons c r ih =>
    have hc : c ≠ '%' := fun hc => h (by rw [hc]; exact List.mem_cons_self _ _)
    have hr : '%' ∉ r := fun hr => h (List.mem_cons_of_mem _ hr)
    unfold hasPctEscape
    split
    · rename_i h1 h2 rest heq
      rw [List.cons.injEq] at heq
      exact absurd heq.1 hc
    · rename_i x rest heq
      rw [List.cons.injEq] at heq
      rw [← heq.2]
      exact ih hr
    · rename_i heq
      simp at heq

lemma stripTrailingPunct_eq_self {l : List Char} {x : Char}
    (hx : l.getLast? = some x) (hpunct : isPunctJS x = false) :
    stripTrailingPunct l = l := by
  rw [stripTrailingPunct]
  have hrev : l.reverse.head? = some x := by
    rw [List.head?_reverse]
    exact hx
  cases hl : l.reverse with
  | nil => rw [hl] at hrev; simp at hrev
  | cons y ys =>
    rw [hl] at hrev
    simp only [List.head?_cons, Option.some.injEq] at hrev
    have hy : isPunctJS y = false := by rw [hrev]; exact hpunct
    rw [dropWhile_cons_neg ys hy, ← hl, List.reverse_reverse]

lemma getLast?_append_right {xs ys : List Char} (h : ys ≠ []) :
    (xs ++ ys).getLast? = ys.getLast? := by
  induction xs with
  | nil => rfl
  | cons c r ih =>
    rw [List.cons_append]
    cases hr : r ++ ys with
    | nil =>
      exact absurd (List.append_eq_nil.mp hr).2 h
    | cons z zs =>
      rw [List.getLast?_cons_cons, ← hr, ih]

lemma isDigitA_not_ws {c : Char} (h : isDigitA c = true) : isWsJS c = false := by
  simp only [isDigitA, Bool.and_eq_true, decide_eq_true_eq] at h
  simp only [isWsJS, Bool.or_eq_false_iff, beq_eq_false_iff_ne, ne_eq,
    Bool.and_eq_false_iff, decide_eq_false_iff_not, not_le]
  omega

lemma isDigitA_ne {c x : Char} (h : isDigitA c = true) (hx : isDigitA x = false) :
    c ≠ x := by
  intro heq
  rw [heq] at h
  rw [h] at hx
  exact absurd hx (by simp)

lemma goodDoiChar_facts {c : Char} (h : goodDoiChar c = true) :
    isWsJS c = false ∧ c ≠ ']' ∧ c ≠ ')' ∧ c ≠ '%' ∧ c ≠ '(' ∧ c ≠ '[' := by
  simp only [goodDoiChar, isDoiBodyStop, Bool.and_eq_true, Bool.not_eq_true',
    Bool.or_eq_false_iff, beq_eq_false_iff_ne] at h
  refine ⟨?_, ?_, ?_, ?_, ?_, ?_⟩ <;> tauto

lemma GoodDoi_decomp {d : String} (h : GoodDoi d = true) :
    ∃ ds body, d.data = '1' :: '0' :: '.' :: (ds ++ '/' :: body) ∧
      ds.all isDigitA = true ∧ 4 ≤ ds.length ∧ body ≠ [] ∧
      body.all goodDoiChar = true ∧
      ∃ x, body.getLast? = some x ∧ isPunctJS x = false := by
  rw [GoodDoi] at h
  split at h
  case h_2 => exact absurd h (by simp)
  case h_1 r heq =>
    split at h
    case h_2 => exact absurd h (by simp)
    case h_1 body heq2 =>
      simp only [Bool.and_eq_true, decide_eq_true_eq, Bool.not_eq_true'] at h
      obtain ⟨⟨⟨hlen, hne⟩, hchars⟩, hlast⟩ := h
      refine ⟨r.takeWhile isDigitA, body, ?_, ?_, hlen, ?_, hchars, ?_⟩
      · rw [heq, ← heq2, List.takeWhile_append_dropWhile]
      · rw [List.all_eq_true]
        intro c hc
        exact List.mem_takeWhile_imp hc
      · intro hb
        rw [hb] at hne
        exact absurd hne (by simp)
      · split at hlast
        case h_1 x heqx => exact ⟨x, heqx, by simpa using hlast⟩
        case h_2 => exact absurd hlast (by simp)

lemma goodDoi_chars {d : String} (h : GoodDoi d = true) :
    ∀ c ∈ d.data, isWsJS c = false ∧ c ≠ ']' ∧ c ≠ '%' ∧ c ≠ '(' ∧ c ≠ '[' ∧ c ≠ ')' := by
  obtain ⟨ds, body, hdec, hds, _, _, hbchars, _⟩ := GoodDoi_decomp h
  intro c hc
  rw [hdec] at hc
  simp only [List.mem_cons, List.mem_append] at hc
  rcases hc with rfl | rfl | rfl | hc | hc
  · exact ⟨by decide, by decide, by decide, by decide, by decide, by decide⟩
  · exact ⟨by decide, by decide, by decide, by decide, by decide, by decide⟩
  · exact ⟨by decide, by decide, by decide, by decide, by decide, by decide⟩
  · have hd : isDigitA c = true := List.all_eq_true.mp hds c hc
    exact ⟨isDigitA_not_ws hd, isDigitA_ne hd (by decide), isDigitA_ne hd (by decide),
      isDigitA_ne hd (by decide), isDigitA_ne hd (by decide), isDigitA_ne hd (by decide)⟩
  · rcases hc with rfl | hc
    · exact ⟨by decide, by decide, by decide, by decide, by decide, by decide⟩
    · have hg := goodDoiChar_facts (List.all_eq_true.mp hbchars c hc)
      exact ⟨hg.1, hg.2.1, hg.2.2.2.1, hg.2.2.2.2.1, hg.2.2.2.2.2, hg.2.2.1⟩

/-- A plain DOI is a fixed point of normalizeDoi. -/
theorem normalizeDoi_goodDoi {d : String} (h : GoodDoi d = true) : normalizeDoi d = d := by
  obtain ⟨ds, body, hdec, hds, _hlen, hbody, hbchars, x, hlast, hxp⟩ := GoodDoi_decomp h
  have hmem := goodDoi_chars h
  have hnws : d.data.all (fun c => !isWsJS c) = true := by
    rw [List.all_eq_true]
    intro c hc
    simp [(hmem c hc).1]
  have hnrb : ']' ∉ d.data := fun hc => (hmem _ hc).2.1 rfl
  have hnpct : '%' ∉ d.data := fun hc => (hmem _ hc).2.2.1 rfl
  have hgl : d.data.getLast? = some x := by
    rw [hdec]
    have h1 : ('1' : Char) :: '0' :: '.' :: (ds ++ '/' :: body) =
        ['1', '0', '.'] ++ (ds ++ '/' :: body) := rfl
    rw [h1, getLast?_append_right (by simp), getLast?_append_right (by simp)]
    cases body with
    | nil => exact absurd rfl hbody
    | cons b bs => rw [List.getLast?_cons_cons]; exact hlast
  have hmci : matchCI doiLabelPat d.data = none := by
    rw [hdec, doiLabelPat]
    exact matchCI_cons_ne (by decide)
  have hms : matchScheme d.data = none := by
    rw [matchScheme, hdec, matchCI_cons_ne (by decide)]
  simp only [normalizeDoi]
  rw [trimChars_eq_self hnws, stripMdSuffix_eq_self hnrb, stripMdSuffix_eq_self hnrb]
  rw [show dropDoiLabel d.data = d.data by simp [dropDoiLabel, hmci]]
  rw [show dropDoiUrlScheme d.data = d.data by simp [dropDoiUrlScheme, hms]]
  rw [hasPctEscape_of_not_mem hnpct]
  simp only [Bool.false_eq_true, if_false]
  rw [stripTrailingPunct_eq_self hgl hxp, trimChars_eq_self hnws]

/-- C3 counterexample: on the specified example input normalizeDoi does
not strip the markdown wrapper (the end-anchored suffix pattern cannot
match a URL closed by a paren), the claimed value is not produced, and a
second application changes the result, refuting idempotence. -/
theorem normalizeDoi_not_idempotent_counterexample :
    normalizeDoi "[DOI: 10.1234/AbC.](https://doi.org/10.1234/AbC.)" =
      "[DOI: 10.1234/AbC.](https://doi.org/10.1234/AbC" ∧
    normalizeDoi "[DOI: 10.1234/AbC.](https://doi.org/10.1234/AbC.)" ≠ "10.1234/AbC" ∧
    normalizeDoi (normalizeDoi "[DOI: 10.1234/AbC.](https://doi.org/10.1234/AbC.)") ≠
      normalizeDoi "[DOI: 10.1234/AbC.](https://doi.org/10.1234/AbC.)" := by
  decide

/-- C3 (amended): normalizeDoi is not idempotent in general, but every
plain DOI (one-zero-dot, at least four digits, slash, then a nonempty
suffix free of whitespace, stop characters, percent signs and trailing
punctuation) is a fixed point, so normalizeDoi is idempotent on plain
DOIs and on its image over them. -/
theorem normalizeDoi_idempotent_on_plain (d : String) (h : GoodDoi d = true) :
    normalizeDoi d = d ∧ normalizeDoi (normalizeDoi d) = normalizeDoi d := by
  have hfix := normalizeDoi_goodDoi h
  exact ⟨hfix, by rw [hfix, hfix]⟩

/-- Witness for the amended idempotence claim at a concrete plain DOI. -/
theorem normalizeDoi_idempotent_on_plain_witness :
    GoodDoi "10.1234/AbC" = true ∧
    (normalizeDoi "10.1234/AbC" = "10.1234/AbC" ∧
      normalizeDoi (normalizeDoi "10.1234/AbC") = normalizeDoi "10.1234/AbC") :=
  ⟨by decide, normalizeDoi_idempotent_on_plain "10.1234/AbC" (by decide)⟩

/-! ### Matcher structure lemmas -/

lemma dropWhile_suffix' (p : Char → Bool) (l : List Char) : l.dropWhile p <:+ l := by
  induction l with
  | nil => exact List.suffix_refl _
  | cons c r ih =>
    by_cases hc : p c
    · simp only [List.dropWhile, hc]
      exact ih.trans (List.suffix_cons c r)
    · simp [List.dropWhile, hc]

lemma matchCI_suffix {pat l r : List Char} (h : matchCI pat l = some r) : r <:+ l := by
  induction pat generalizing l with
  | nil =>
    rw [matchCI] at h
    cases h
    exact List.suffix_refl _
  | cons p ps ih =>
    cases l with
    | nil => simp [matchCI] at h
    | cons c cs =>
      rw [matchCI] at h
      by_cases hc : (toLowerA c == toLowerA p) = true
      · rw [if_pos hc] at h
        exact (ih h).trans (List.suffix_cons c cs)
      · rw [if_neg hc] at h
        cases h

lemma expectC_eq {ch : Char} {l r : List Char} (h : expectC ch l = some r) :
    l = ch :: r := by
  cases l with
  | nil => simp [expectC] at h
  | cons c cs =>
    rw [expectC] at h
    by_cases hc : (c == ch) = true
    · rw [if_pos hc] at h
      cases h
      rw [beq_iff_eq.mp hc]
    · rw [if_neg hc] at h
      cases h

lemma matchDoiCore_suffix {stop : Char → Bool} {l d r : List Char}
    (h : matchDoiCore stop l = some (d, r)) : r <:+ l := by
  rw [matchDoiCore.eq_def] at h
  split at h
  case h_2 => cases h
  case h_1 rr =>
    dsimp only at h
    split at h
    case isTrue => cases h
    case isFalse =>
      split at h
      case h_2 => cases h
      case h_1 r3 heq3 =>
        split at h
        case isTrue => cases h
        case isFalse =>
          cases h
          have h1 : r3.dropWhile (fun c => !stop c) <:+ r3 := dropWhile_suffix' _ _
          have h2 : r3 <:+ rr.dropWhile isDigitA := by
            rw [heq3]
            exact (List.suffix_cons '/' r3)
          have h3 : rr.dropWhile isDigitA <:+ rr := dropWhile_suffix' _ _
          exact ((h1.trans h2).trans h3).trans
            ((List.suffix_cons '.' rr).trans
              ((List.suffix_cons '0' _).trans (List.suffix_cons '1' _)))

lemma matcherParen_inv {l : List Char} {p : List Char × List Char}
    (h : matcherParen l = some p) :
    ∃ r, l = '(' :: r ∧ ciStarts doiLabelPat r = true ∧ p.2 <:+ r := by
  rw [matcherParen] at h
  split at h
  case h_1 => cases h
  case h_2 r hexp =>
    have hl := expectC_eq hexp
    split at h
    case h_1 => cases h
    case h_2 r2 hci =>
      split at h
      case h_1 => cases h
      case h_2 d r4 hcore =>
        split at h
        case h_1 => cases h
        case h_2 r5 hexp2 =>
          cases h
          refine ⟨r, hl, by simp [ciStarts, hci], ?_⟩
          have h1 : r5 <:+ r4 := by
            rw [expectC_eq hexp2]
            exact List.suffix_cons ')' r5
          have h2 : r4 <:+ r2.dropWhile isWsJS := matchDoiCore_suffix hcore
          have h3 : r2.dropWhile isWsJS <:+ r2 := dropWhile_suffix' _ _
          exact ((h1.trans h2).trans h3).trans (matchCI_suffix hci)

lemma matcherBracket_inv {l : List Char} {p : List Char × List Char}
    (h : matcherBracket l = some p) :
    ∃ r, l = '[' :: r ∧ ciStarts doiLabelPat r = true ∧ p.2 <:+ r := by
  rw [matcherBracket] at h
  split at h
  case h_1 => cases h
  case h_2 r hexp =>
    have hl := expectC_eq hexp
    split at h
    case h_1 => cases h
    case h_2 r2 hci =>
      split at h
      case h_1 => cases h
      case h_2 d r4 hcore =>
        split at h
        case h_1 => cases h
        case h_2 r5 hexp2 =>
          cases h
          refine ⟨r, hl, by simp [ciStarts, hci], ?_⟩
          have h1 : r5 <:+ r4 := by
            rw [expectC_eq hexp2]
            exact List.suffix_cons ']' r5
          have h2 : r4 <:+ r2.dropWhile isWsJS := matchDoiCore_suffix hcore
          have h3 : r2.dropWhile isWsJS <:+ r2 := dropWhile_suffix' _ _
          exact ((h1.trans h2).trans h3).trans (matchCI_suffix hci)

lemma matcherParenBracket_inv {l : List Char} {p : List Char × List Char}
    (h : matcherParenBracket l = some p) :
    ∃ r, l = '(' :: '[' :: r ∧ ciStarts doiLabelPat r = true ∧ p.2 <:+ r := by
  rw [matcherParenBracket] at h
  split at h
  case h_1 => cases h
  case h_2 r0 hexp0 =>
    have hl0 := expectC_eq hexp0
    split at h
    case h_1 => cases h
    case h_2 r hexp =>
      have hl := expectC_eq hexp
      split at h
      case h_1 => cases h
      case h_2 r2 hci =>
        split at h
        case h_1 => cases h
        case h_2 d r4 hcore =>
          split at h
          case h_1 => cases h
          case h_2 r5 hexp2 =>
            split at h
            case h_1 => cases h
            case h_2 r6 hexp3 =>
              cases h
              refine ⟨r, by rw [hl0, hl], by simp [ciStarts, hci], ?_⟩
              have h1 : r6 <:+ r5 := by
                rw [expectC_eq hexp3]
                exact List.suffix_cons ')' r6
              have h15 : r5 <:+ r4 := by
                rw [expectC_eq hexp2]
                exact List.suffix_cons ']' r5
              have h2 : r4 <:+ r2.dropWhile isWsJS := matchDoiCore_suffix hcore
              have h3 : r2.dropWhile isWsJS <:+ r2 := dropWhile_suffix' _ _
              exact (((h1.trans h15).trans h2).trans h3).trans (matchCI_suffix hci)

lemma matcherMdLink_inv {l : List Char} {p : List Char × List Char}
    (h : matcherMdLink l = some p) :
    ∃ r, l = '[' :: r ∧ ciStarts doiLabelPat r = true ∧ p.2 <:+ r := by
  rw [matcherMdLink] at h
  split at h
  case h_1 => cases h
  case h_2 r hexp =>
    have hl := expectC_eq hexp
    split at h
    case h_1 => cases h
    case h_2 r2 hci =>
      split at h
      case h_1 => cases h
      case h_2 d r4 hcore =>
        split at h
        case h_1 => cases h
        case h_2 r5 hexp2 =>
          split at h
          case h_1 => cases h
          case h_2 r6 hexp3 =>
            dsimp only at h
            split at h
            case isTrue => cases h
            case isFalse =>
              split at h
              case h_1 => cases h
              case h_2 r8 hexp4 =>
                cases h
                refine ⟨r, hl, by simp [ciStarts, hci], ?_⟩
                have h1 : r8 <:+ r6.dropWhile (fun c => !(c == ')')) := by
                  rw [expectC_eq hexp4]
                  exact List.suffix_cons ')' r8
                have h2 : r6.dropWhile (fun c => !(c == ')')) <:+ r6 :=
                  dropWhile_suffix' _ _
                have h3 : r6 <:+ r5 := by
                  rw [expectC_eq hexp3]
                  exact List.suffix_cons '(' r6
                have h4 : r5 <:+ r4 := by
                  rw [expectC_eq hexp2]
                  exact List.suffix_cons ']' r5
                have h5 : r4 <:+ r2.dropWhile isWsJS := matchDoiCore_suffix hcore
                have h6 : r2.dropWhile isWsJS <:+ r2 := dropWhile_suffix' _ _
                exact (((((h1.trans h2).trans h3).trans h4).trans h5).trans h6).trans
                  (matchCI_suffix hci)

lemma matcherParen_consumes : MatcherConsumes matcherParen := by
  intro l d r h
  obtain ⟨r0, hl, _, hsuf⟩ := matcherParen_inv h
  rw [hl]
  exact Nat.lt_succ_of_le hsuf.length_le

lemma matcherBracket_consumes : MatcherConsumes matcherBracket := by
  intro l d r h
  obtain ⟨r0, hl, _, hsuf⟩ := matcherBracket_inv h
  rw [hl]
  exact Nat.lt_succ_of_le hsuf.length_le

lemma matcherParenBracket_consumes : MatcherConsumes matcherParenBracket := by
  intro l d r h
  obtain ⟨r0, hl, _, hsuf⟩ := matcherParenBracket_inv h
  rw [hl]
  exact Nat.lt_succ_of_le (Nat.le_succ_of_le hsuf.length_le)

lemma matcherMdLink_consumes : MatcherConsumes matcherMdLink := by
  intro l d r h
  obtain ⟨r0, hl, _, hsuf⟩ := matcherMdLink_inv h
  rw [hl]
  exact Nat.lt_succ_of_le hsuf.length_le

/-! ### Replacement-pass machinery -/

section PassMachinery

variable {mf : List Char → Option (List Char × List Char)}
variable {repl : String → ReferenceFallbackInfo → String}
variable {f : List (String × ReferenceFallbackInfo)}

lemma passAuxF_congr (hm : MatcherConsumes mf) :
    ∀ fuel1 fuel2 l, l.length ≤ fuel1 → l.length ≤ fuel2 →
      passAuxF mf repl f fuel1 l = passAuxF mf repl f fuel2 l := by
  intro fuel1
  induction fuel1 with
  | zero =>
    intro fuel2 l h1 _h2
    have : l = [] := List.length_eq_zero.mp (Nat.le_zero.mp h1)
    subst this
    cases fuel2 <;> rfl
  | succ n ih =>
    intro fuel2 l h1 h2
    cases l with
    | nil => cases fuel2 <;> rfl
    | cons c rest =>
      cases fuel2 with
      | zero => simp at h2
      | succ m =>
        simp only [List.length_cons, Nat.succ_le_succ_iff] at h1 h2
        simp only [passAuxF]
        cases hmf : mf (c :: rest) with
        | some p =>
          obtain ⟨d, r⟩ := p
          have hr : r.length < rest.length + 1 := hm _ _ _ hmf
          have hrn : r.length ≤ n := Nat.lt_succ_iff.mp (lt_of_lt_of_le hr (Nat.succ_le_succ h1))
          have hrm : r.length ≤ m := Nat.lt_succ_iff.mp (lt_of_lt_of_le hr (Nat.succ_le_succ h2))
          dsimp only
          rw [ih m r hrn hrm]
        | none =>
          dsimp only
          rw [ih m rest h1 h2]

lemma passRun_cons_fail {c : Char} {rest : List Char} (h : mf (c :: rest) = none) :
    passRun mf repl f (c :: rest) =
      (c :: (passRun mf repl f rest).1, (passRun mf repl f rest).2.1,
        (passRun mf repl f rest).2.2) := by
  simp only [passRun, List.length_cons, passAuxF, h]

lemma passRun_match_none (hm : MatcherConsumes mf) {M dch rest : List Char}
    (hM : M ≠ []) (h : mf (M ++ rest) = some (dch, rest))
    (hl : listLookup (normalizeDoi (String.mk dch)) f = none) :
    passRun mf repl f (M ++ rest) =
      ((passRun mf repl f rest).1, (passRun mf repl f rest).2.1,
        normalizeDoi (String.mk dch) :: (passRun mf repl f rest).2.2) := by
  cases M with
  | nil => exact absurd rfl hM
  | cons c M2 =>
    rw [List.cons_append] at h ⊢
    have hcongr : passAuxF mf repl f (M2 ++ rest).length rest =
        passAuxF mf repl f rest.length rest :=
      passAuxF_congr hm _ _ _ (by simp) le_rfl
    simp only [passRun, List.length_cons, passAuxF, h, hl, hcongr]

lemma passRun_match_some (hm : MatcherConsumes mf) {M dch rest : List Char}
    {fb : ReferenceFallbackInfo}
    (hM : M ≠ []) (h : mf (M ++ rest) = some (dch, rest))
    (hl : listLookup (normalizeDoi (String.mk dch)) f = some fb) :
    passRun mf repl f (M ++ rest) =
      ((repl (normalizeDoi (String.mk dch)) fb).data ++ (passRun mf repl f rest).1,
        normalizeDoi (String.mk dch) :: (passRun mf repl f rest).2.1,
        (passRun mf repl f rest).2.2) := by
  cases M with
  | nil => exact absurd rfl hM
  | cons c M2 =>
    rw [List.cons_append] at h ⊢
    have hcongr : passAuxF mf repl f (M2 ++ rest).length rest =
        passAuxF mf repl f rest.length rest :=
      passAuxF_congr hm _ _ _ (by simp) le_rfl
    simp only [passRun, List.length_cons, passAuxF, h, hl, hcongr]

lemma passRun_append_inert {X rest : List Char}
    (hX : InertFor mf X rest) :
    passRun mf repl f (X ++ rest) =
      (X ++ (passRun mf repl f rest).1, (passRun mf repl f rest).2.1,
        (passRun mf repl f rest).2.2) := by
  induction X with
  | nil => simp
  | cons c X2 ih =>
    have hfail : mf (c :: (X2 ++ rest)) = none := hX [] c X2 rfl
    have hX2 : InertFor mf X2 rest := by
      intro a c2 b hab
      exact hX (c :: a) c2 b (by rw [hab]; rfl)
    rw [List.cons_append, passRun_cons_fail hfail, ih hX2]
    simp

lemma inertFor_of_all {t : Char} (htrig : ∀ l p, mf l = some p → ∃ r, l = t :: r)
    {X rest : List Char} (hX : X.all (fun c => !(c == t)) = true) :
    InertFor mf X rest := by
  intro a c b heq
  cases hmf : mf (c :: (b ++ rest)) with
  | none => rfl
  | some p =>
    obtain ⟨r, hr⟩ := htrig _ _ hmf
    rw [List.cons.injEq] at hr
    have hc : c ∈ X := by
      rw [heq, List.mem_append]
      exact Or.inr (List.mem_cons_self _ _)
    have := List.all_eq_true.mp hX c hc
    simp only [Bool.not_eq_true', beq_eq_false_iff_ne] at this
    exact absurd hr.1 this

lemma append_split_cons {X Y a b : List Char} {c : Char} (heq : X ++ Y = a ++ c :: b) :
    (∃ b1, X = a ++ c :: b1 ∧ b = b1 ++ Y) ∨
    (∃ a2, a = X ++ a2 ∧ Y = a2 ++ c :: b) := by
  induction X generalizing a with
  | nil =>
    right
    exact ⟨a, by simp, by simpa using heq⟩
  | cons x X2 ih =>
    cases a with
    | nil =>
      left
      rw [List.cons_append] at heq
      injection heq with hx1 hx2
      exact ⟨X2, by rw [List.nil_append, hx1], hx2.symm⟩
    | cons a1 a2 =>
      rw [List.cons_append, List.cons_append] at heq
      injection heq with hx1 hx2
      rcases ih hx2 with ⟨b1, hX2, hb⟩ | ⟨az, ha2, hy⟩
      · left
        refine ⟨b1, ?_, hb⟩
        rw [hx1, hX2, List.cons_append]
      · right
        refine ⟨az, ?_, hy⟩
        rw [hx1, ha2, List.cons_append]

lemma inertFor_append {X Y rest : List Char}
    (h1 : InertFor mf X (Y ++ rest)) (h2 : InertFor mf Y rest) :
    InertFor mf (X ++ Y) rest := by
  intro a c b heq
  rcases append_split_cons heq with ⟨b1, hX, hb⟩ | ⟨a2, _ha, hY⟩
  · have := h1 a c b1 hX
    rw [hb, List.append_assoc]
    exact this
  · exact h2 a2 c b hY

lemma inertFor_single_fail {c : Char} {rest : List Char}
    (hfail : mf (c :: rest) = none) : InertFor mf [c] rest := by
  intro a c2 b heq
  cases a with
  | nil =>
    rw [List.nil_append, List.cons.injEq] at heq
    obtain ⟨h1, h2⟩ := heq
    rw [← h1, ← h2]
    simpa using hfail
  | cons x a2 =>
    rw [List.cons_append, List.cons.injEq] at heq
    exact absurd heq.2 (by simp)

end PassMachinery

/-! ### Matcher failure lemmas -/

lemma matcherParen_head : ∀ l p, matcherParen l = some p → ∃ r, l = '(' :: r := by
  intro l p h
  obtain ⟨r, hr, _, _⟩ := matcherParen_inv h
  exact ⟨r, hr⟩

lemma matcherBracket_head : ∀ l p, matcherBracket l = some p → ∃ r, l = '[' :: r := by
  intro l p h
  obtain ⟨r, hr, _, _⟩ := matcherBracket_inv h
  exact ⟨r, hr⟩

lemma matcherParenBracket_head :
    ∀ l p, matcherParenBracket l = some p → ∃ r, l = '(' :: r := by
  intro l p h
  obtain ⟨r, hr, _, _⟩ := matcherParenBracket_inv h
  exact ⟨'[' :: r, hr⟩

lemma matcherMdLink_head : ∀ l p, matcherMdLink l = some p → ∃ r, l = '[' :: r := by
  intro l p h
  obtain ⟨r, hr, _, _⟩ := matcherMdLink_inv h
  exact ⟨r, hr⟩

lemma matcherParen_no_doi {r : List Char} (h : ciStarts doiLabelPat r = false) :
    matcherParen ('(' :: r) = none := by
  cases hmf : matcherParen ('(' :: r) with
  | none => rfl
  | some p =>
    obtain ⟨r0, hr, hci, _⟩ := matcherParen_inv hmf
    rw [List.cons.injEq] at hr
    rw [← hr.2] at hci
    rw [hci] at h
    cases h

lemma matcherBracket_no_doi {r : List Char} (h : ciStarts doiLabelPat r = false) :
    matcherBracket ('[' :: r) = none := by
  cases hmf : matcherBracket ('[' :: r) with
  | none => rfl
  | some p =>
    obtain ⟨r0, hr, hci, _⟩ := matcherBracket_inv hmf
    rw [List.cons.injEq] at hr
    rw [← hr.2] at hci
    rw [hci] at h
    cases h

lemma matcherMdLink_no_doi {r : List Char} (h : ciStarts doiLabelPat r = false) :
    matcherMdLink ('[' :: r) = none := by
  cases hmf : matcherMdLink ('[' :: r) with
  | none => rfl
  | some p =>
    obtain ⟨r0, hr, hci, _⟩ := matcherMdLink_inv hmf
    rw [List.cons.injEq] at hr
    rw [← hr.2] at hci
    rw [hci] at h
    cases h

lemma matcherParenBracket_snd_ne {c : Char} {r : List Char} (hc : c ≠ '[') :
    matcherParenBracket ('(' :: c :: r) = none := by
  cases hmf : matcherParenBracket ('(' :: c :: r) with
  | none => rfl
  | some p =>
    obtain ⟨r0, hr, _, _⟩ := matcherParenBracket_inv hmf
    rw [List.cons.injEq] at hr
    rw [List.cons.injEq] at hr
    exact absurd hr.2.1 hc

lemma matcherParenBracket_no_doi {r : List Char} (h : ciStarts doiLabelPat r = false) :
    matcherParenBracket ('(' :: '[' :: r) = none := by
  cases hmf : matcherParenBracket ('(' :: '[' :: r) with
  | none => rfl
  | some p =>
    obtain ⟨r0, hr, hci, _⟩ := matcherParenBracket_inv hmf
    rw [List.cons.injEq] at hr
    rw [List.cons.injEq] at hr
    rw [← hr.2.2] at hci
    rw [hci] at h
    cases h

lemma matcherParen_empty_inner {r : List Char} :
    matcherParen ('(' :: ')' :: r) = none := by
  apply matcherParen_no_doi
  rw [ciStarts, doiLabelPat, matchCI_cons_ne (by decide)]
  rfl

/-- Blocking lemma: a case-insensitive pattern that fails on a prefix and
whose characters never match the blocker character also fails on any
extension of the prefix through the blocker. -/
lemma ciStarts_append_block {pat : List Char} {b : Char}
    (hpat : ∀ p ∈ pat, (toLowerA b == toLowerA p) = false) :
    ∀ {u : List Char}, ciStarts pat u = false →
      ∀ w, ciStarts pat (u ++ b :: w) = false := by
  induction pat with
  | nil =>
    intro u hu _w
    rw [ciStarts, matchCI] at hu
    cases hu
  | cons p ps ih =>
    intro u hu w
    cases u with
    | nil =>
      rw [List.nil_append, ciStarts, matchCI_cons_ne (hpat p (List.mem_cons_self _ _))]
      rfl
    | cons c cs =>
      rw [List.cons_append, ciStarts, matchCI]
      rw [ciStarts, matchCI] at hu
      by_cases hc : (toLowerA c == toLowerA p) = true
      · rw [if_pos hc] at hu ⊢
        have hps : ∀ q ∈ ps, (toLowerA b == toLowerA q) = false :=
          fun q hq => hpat q (List.mem_cons_of_mem _ hq)
        exact ih hps hu w
      · rw [if_neg hc]
        rfl

lemma doiPat_blocker_rb : ∀ p ∈ doiLabelPat, (toLowerA ']' == toLowerA p) = false := by
  decide

lemma doiPat_blocker_rp : ∀ p ∈ doiLabelPat, (toLowerA ')' == toLowerA p) = false := by
  decide

/-! ### Matcher hit lemmas on rendered markers -/

lemma ciStarts_cons_ne {c : Char} {r : List Char} (h : (toLowerA c == 'd') = false) :
    ciStarts doiLabelPat (c :: r) = false := by
  have h2 : (toLowerA c == toLowerA 'd') = false := by
    rw [show toLowerA 'd' = 'd' from by decide]
    exact h
  rw [ciStarts, doiLabelPat, matchCI_cons_ne h2]
  rfl

lemma goodDoiChar_not_stop {c : Char} (h : goodDoiChar c = true) :
    (!isDoiBodyStop c) = true := by
  simp only [goodDoiChar, Bool.and_eq_true] at h
  exact h.1.1.1

lemma isEmpty_false_of_ne_nil {l : List Char} (h : l ≠ []) : l.isEmpty = false := by
  cases l with
  | nil => exact absurd rfl h
  | cons c r => rfl

lemma matchDoiCore_hit {stop : Char → Bool} {ds body : List Char} {tailc : Char}
    {rest : List Char}
    (hds : ds.all isDigitA = true) (hlen : 4 ≤ ds.length) (hbody : body ≠ [])
    (hbs : body.all (fun c => !stop c) = true) (hstop : stop tailc = true) :
    matchDoiCore stop ('1' :: '0' :: '.' :: (ds ++ '/' :: (body ++ tailc :: rest))) =
      some ('1' :: '0' :: '.' :: (ds ++ '/' :: body), tailc :: rest) := by
  have htail : (fun c => !stop c) tailc = false := by simp [hstop]
  simp only [matchDoiCore]
  rw [takeWhile_app_stop _ hds (by decide), dropWhile_app_stop _ hds (by decide)]
  rw [if_neg (by omega)]
  split
  · rename_i r3 heq
    injection heq with h1 h2
    subst h2
    rw [takeWhile_app_stop _ hbs htail, dropWhile_app_stop _ hbs htail]
    rw [isEmpty_false_of_ne_nil hbody]
    rfl
  · rename_i x hne
    exact (hne (body ++ tailc :: rest) rfl).elim

lemma matcherParen_head_ne {c : Char} {r : List Char} (hc : c ≠ '(') :
    matcherParen (c :: r) = none := by
  cases hmf : matcherParen (c :: r) with
  | none => rfl
  | some p =>
    obtain ⟨r0, hr⟩ := matcherParen_head _ _ hmf
    rw [List.cons.injEq] at hr
    exact absurd hr.1 hc

lemma matcherBracket_head_ne {c : Char} {r : List Char} (hc : c ≠ '[') :
    matcherBracket (c :: r) = none := by
  cases hmf : matcherBracket (c :: r) with
  | none => rfl
  | some p =>
    obtain ⟨r0, hr⟩ := matcherBracket_head _ _ hmf
    rw [List.cons.injEq] at hr
    exact absurd hr.1 hc

lemma inertFor_cons {c : Char} {X rest : List Char}
    (h1 : mf (c :: (X ++ rest)) = none) (h2 : InertFor mf X rest) :
    InertFor mf (c :: X) rest := by
  intro a c2 b heq
  cases a with
  | nil =>
    rw [List.nil_append, List.cons.injEq] at heq
    rw [← heq.1, ← heq.2]
    exact h1
  | cons a0 a2 =>
    rw [List.cons_append, List.cons.injEq] at heq
    exact h2 a2 c2 b heq.2

/-! ### Character classes of encoded URLs -/

lemma char_toNat_lt (c : Char) : c.toNat < 1114112 := by
  have h := c.valid
  rw [Char.toNat]
  rcases h with h | h <;> omega

lemma utf8Bytes_lt {c : Char} : ∀ b ∈ utf8Bytes c, b < 256 := by
  have hc := char_toNat_lt c
  rw [utf8Bytes]
  intro b hb
  split_ifs at hb with h1 h2 h3 <;>
    simp only [List.mem_cons, List.mem_singleton, List.not_mem_nil, or_false] at hb <;>
    rcases hb with rfl | rfl | rfl | rfl <;> omega

lemma hexDigitU_good (n : Nat) (h : n < 16) :
    (!(hexDigitU n == '(') && !(hexDigitU n == '[')) = true := by
  interval_cases n <;> decide

lemma encodeURIChars_noTrig {l : List Char}
    (h : l.all (fun c => !(c == '(') && !(c == '[')) = true) :
    (encodeURIChars l).all (fun c => !(c == '(') && !(c == '[')) = true := by
  induction l with
  | nil => rfl
  | cons c r ih =>
    rw [List.all_cons, Bool.and_eq_true] at h
    rw [encodeURIChars]
    split_ifs with hc
    · rw [List.all_cons, Bool.and_eq_true]
      exact ⟨h.1, ih h.2⟩
    · have hb : ∀ b ∈ utf8Bytes c, b < 256 := utf8Bytes_lt
      have hrec := ih h.2
      generalize utf8Bytes c = bs at hb
      induction bs with
      | nil => exact hrec
      | cons b bs2 ih2 =>
        have hblt : b < 256 := hb b (List.mem_cons_self _ _)
        simp only [List.foldr_cons, List.all_cons, Bool.and_eq_true]
        have hg1 := hexDigitU_good (b / 16) (by omega)
        have hg2 := hexDigitU_good (b % 16) (by omega)
        rw [Bool.and_eq_true] at hg1 hg2
        exact ⟨⟨by decide, by decide⟩, ⟨hg1.1, hg1.2⟩, ⟨hg2.1, hg2.2⟩,
          ih2 (fun b2 hb2 => hb b2 (List.mem_cons_of_mem _ hb2))⟩

lemma unescapeSlash_all {p : Char → Bool} (hs : p '/' = true) :
    ∀ n l, l.length ≤ n → l.all p = true → (unescapeSlash l).all p = true := by
  intro n
  induction n with
  | zero =>
    intro l hl _
    have : l = [] := List.length_eq_zero.mp (Nat.le_zero.mp hl)
    subst this
    rfl
  | succ n ih =>
    intro l hl hall
    rw [unescapeSlash.eq_def]
    split
    · rename_i c r
      simp only [List.length_cons] at hl
      simp only [List.all_cons, Bool.and_eq_true] at hall
      split_ifs with hcf
      · rw [List.all_cons, Bool.and_eq_true]
        exact ⟨hs, ih r (by omega) hall.2.2.2⟩
      · rw [List.all_cons, List.all_cons, Bool.and_eq_true, Bool.and_eq_true]
        refine ⟨hall.1, hall.2.1, ih (c :: r) (by simp; omega) ?_⟩
        rw [List.all_cons, Bool.and_eq_true]
        exact ⟨hall.2.2.1, hall.2.2.2⟩
    · rename_i c r hne
      simp only [List.length_cons] at hl
      simp only [List.all_cons, Bool.and_eq_true] at hall
      rw [List.all_cons, Bool.and_eq_true]
      exact ⟨hall.1, ih r (by omega) hall.2⟩
    · rfl

lemma goodDoi_data_noTrig {d : String} (h : GoodDoi d = true) :
    d.data.all (fun c => !(c == '(') && !(c == '[')) = true := by
  rw [List.all_eq_true]
  intro c hc
  have hg := goodDoi_chars h c hc
  have h1 : (c == '(') = false := beq_eq_false_iff_ne.mpr hg.2.2.2.1
  have h2 : (c == '[') = false := beq_eq_false_iff_ne.mpr hg.2.2.2.2.1
  rw [h1, h2]
  rfl

lemma toDoiUrl_data (d : String) :
    (toDoiUrl d).data =
      "https://doi.org/".data ++ unescapeSlash (encodeURIChars d.data) := rfl

lemma toDoiUrl_noTrig {d : String} (h : GoodDoi d = true) :
    (toDoiUrl d).data.all (fun c => !(c == '(') && !(c == '[')) = true := by
  rw [toDoiUrl_data, List.all_append, Bool.and_eq_true]
  refine ⟨by decide, ?_⟩
  exact unescapeSlash_all (by decide) _ _ (le_refl _)
    (encodeURIChars_noTrig (goodDoi_data_noTrig h))

lemma all_noTrig_left {l : List Char}
    (h : l.all (fun c => !(c == '(') && !(c == '[')) = true) :
    l.all (fun c => !(c == '(')) = true := by
  rw [List.all_eq_true] at h ⊢
  intro c hc
  have h2 := h c hc
  rw [Bool.and_eq_true] at h2
  exact h2.1

lemma all_noTrig_right {l : List Char}
    (h : l.all (fun c => !(c == '(') && !(c == '[')) = true) :
    l.all (fun c => !(c == '[')) = true := by
  rw [List.all_eq_true] at h ⊢
  intro c hc
  have h2 := h c hc
  rw [Bool.and_eq_true] at h2
  exact h2.2

/-! ### Matcher hits on rendered markers -/

lemma matcherParen_hit {d : String} (h : GoodDoi d = true) (rest : List Char) :
    matcherParen ("(DOI: ".data ++ (d.data ++ ')' :: rest)) = some (d.data, rest) := by
  obtain ⟨ds, body, hdec, hds, hlen, hbody, hbchars, _⟩ := GoodDoi_decomp h
  have hbs : body.all (fun c => !isDoiBodyStop c) = true := by
    rw [List.all_eq_true]
    intro c hc
    exact goodDoiChar_not_stop (List.all_eq_true.mp hbchars c hc)
  have hcore : matchDoiCore isDoiBodyStop (d.data ++ ')' :: rest) =
      some (d.data, ')' :: rest) := by
    rw [hdec]
    have hass : ('1' :: '0' :: '.' :: (ds ++ '/' :: body) : List Char) ++ ')' :: rest =
        '1' :: '0' :: '.' :: (ds ++ '/' :: (body ++ ')' :: rest)) := by
      simp
    rw [hass, matchDoiCore_hit hds hlen hbody hbs (by decide)]
  have hci : matchCI doiLabelPat
      ('D' :: 'O' :: 'I' :: ':' :: ' ' :: (d.data ++ ')' :: rest)) =
      some (' ' :: (d.data ++ ')' :: rest)) := rfl
  have hdrop : (' ' :: (d.data ++ ')' :: rest)).dropWhile isWsJS =
      d.data ++ ')' :: rest := by
    rw [List.dropWhile_cons]
    simp only [show isWsJS ' ' = true from by decide, if_true]
    rw [hdec, List.cons_append, dropWhile_cons_neg _ (by decide)]
  have hsh : ("(DOI: ".data : List Char) = '(' :: 'D' :: 'O' :: 'I' :: ':' :: ' ' :: [] :=
    rfl
  rw [hsh]
  simp only [List.cons_append, List.nil_append]
  rw [matcherParen]
  simp only [expectC, beq_self_eq_true, if_true, hci, hdrop, hcore]

lemma matcherBracket_hit {d : String} (h : GoodDoi d = true) (rest : List Char) :
    matcherBracket ("[DOI: ".data ++ (d.data ++ ']' :: rest)) = some (d.data, rest) := by
  obtain ⟨ds, body, hdec, hds, hlen, hbody, hbchars, _⟩ := GoodDoi_decomp h
  have hbs : body.all (fun c => !isDoiBodyStop c) = true := by
    rw [List.all_eq_true]
    intro c hc
    exact goodDoiChar_not_stop (List.all_eq_true.mp hbchars c hc)
  have hcore : matchDoiCore isDoiBodyStop (d.data ++ ']' :: rest) =
      some (d.data, ']' :: rest) := by
    rw [hdec]
    have hass : ('1' :: '0' :: '.' :: (ds ++ '/' :: body) : List Char) ++ ']' :: rest =
        '1' :: '0' :: '.' :: (ds ++ '/' :: (body ++ ']' :: rest)) := by
      simp
    rw [hass, matchDoiCore_hit hds hlen hbody hbs (by decide)]
  have hci : matchCI doiLabelPat
      ('D' :: 'O' :: 'I' :: ':' :: ' ' :: (d.data ++ ']' :: rest)) =
      some (' ' :: (d.data ++ ']' :: rest)) := rfl
  have hdrop : (' ' :: (d.data ++ ']' :: rest)).dropWhile isWsJS =
      d.data ++ ']' :: rest := by
    rw [List.dropWhile_cons]
    simp only [show isWsJS ' ' = true from by decide, if_true]
    rw [hdec, List.cons_append, dropWhile_cons_neg _ (by decide)]
  have hsh : ("[DOI: ".data : List Char) = '[' :: 'D' :: 'O' :: 'I' :: ':' :: ' ' :: [] :=
    rfl
  rw [hsh]
  simp only [List.cons_append, List.nil_append]
  rw [matcherBracket]
  simp only [expectC, beq_self_eq_true, if_true, hci, hdrop, hcore]

/-! ### Inertness of rendered pieces for the four matchers -/

lemma inertFor_nil {rest : List Char} : InertFor mf [] rest := by
  intro a c b heq
  have hlen := congrArg List.length heq
  rw [List.length_nil, List.length_append, List.length_cons] at hlen
  omega

lemma listLookup_clean {f : List (String × ReferenceFallbackInfo)}
    (hf : CleanMap f = true) {k : String} {fb : ReferenceFallbackInfo}
    (h : listLookup k f = some fb) : GoodFallback fb = true := by
  rw [listLookup] at h
  cases hfind : f.find? (fun p => p.1 == k) with
  | none => rw [hfind] at h; cases h
  | some p =>
    rw [hfind] at h
    have hmem := List.mem_of_find?_eq_some hfind
    have hgood := List.all_eq_true.mp hf p hmem
    injection h with h2
    rw [← h2]
    exact hgood

lemma goodFallback_parts {fb : ReferenceFallbackInfo} (h : GoodFallback fb = true) :
    (formatCitationLinkTextFromFallback fb).data.all
      (fun c => !(c == '(') && !(c == '[')) = true ∧
    ciStarts doiLabelPat (formatCitationLinkTextFromFallback fb).data = false := by
  simp only [GoodFallback, Bool.and_eq_true, Bool.not_eq_true'] at h
  exact h

lemma goodUrl_parts {u : String} (h : GoodUrl u = true) :
    u.data.all (fun c => !(c == '(') && !(c == '[')) = true ∧
    ciStarts doiLabelPat u.data = false := by
  simp only [GoodUrl, Bool.and_eq_true, Bool.not_eq_true'] at h
  exact h

lemma goodItem_cite {fo : CiteForm} {d : String}
    (h : GoodItem (RItem.cite fo d) = true) : GoodDoi d = true := by
  simp only [GoodItem, Bool.and_eq_true] at h
  exact h.1

lemma goodItem_md {u : String} {d : String}
    (h : GoodItem (RItem.cite (CiteForm.mdLink u) d) = true) : GoodUrl u = true := by
  simp only [GoodItem, Bool.and_eq_true] at h
  exact h.2

/-- The bracket-marker text with no opening paren anywhere. -/
lemma bracketRender_no_paren {d : String} (h : GoodDoi d = true) :
    ("[DOI: ".data ++ d.data ++ [']']).all (fun c => !(c == '(')) = true := by
  rw [List.all_append, List.all_append, Bool.and_eq_true, Bool.and_eq_true]
  exact ⟨⟨by decide, all_noTrig_left (goodDoi_data_noTrig h)⟩, by decide⟩

lemma bracketRender_no_bracket_tail {d : String} (h : GoodDoi d = true)
    {tail : List Char} (htail : tail.all (fun c => !(c == '[')) = true) :
    (d.data ++ tail).all (fun c => !(c == '[')) = true := by
  rw [List.all_append, Bool.and_eq_true]
  exact ⟨all_noTrig_right (goodDoi_data_noTrig h), htail⟩

/-- Pass-1 inertness: items other than paren markers never trigger the
paren matcher. -/
lemma inert1_item {it : RItem} (hg : GoodItem it = true)
    (hno : ∀ d, it ≠ RItem.cite CiteForm.paren d) (rest : List Char) :
    InertFor matcherParen (renderItem it) rest := by
  cases it with
  | seg s =>
    exact inertFor_of_all matcherParen_head (all_noTrig_left hg)
  | cite fo d =>
    have hd : GoodDoi d = true := goodItem_cite hg
    cases fo with
    | paren => exact absurd rfl (hno d)
    | bracket =>
      exact inertFor_of_all matcherParen_head (bracketRender_no_paren hd)
    | parenBracket =>
      have hsh : renderItem (RItem.cite CiteForm.parenBracket d) =
          '(' :: ("[DOI: ".data ++ (d.data ++ [']', ')'])) := by
        simp [renderItem, List.append_assoc]
      rw [hsh]
      apply inertFor_cons
      · apply matcherParen_no_doi
        apply ciStarts_cons_ne
        decide
      · apply inertFor_of_all matcherParen_head
        rw [List.all_append, Bool.and_eq_true]
        refine ⟨by decide, ?_⟩
        rw [List.all_append, Bool.and_eq_true]
        exact ⟨all_noTrig_left (goodDoi_data_noTrig hd), by decide⟩
    | mdLink u =>
      have hu := goodUrl_parts (goodItem_md hg)
      have hsh : renderItem (RItem.cite (CiteForm.mdLink u) d) =
          ("[DOI: ".data ++ (d.data ++ [']'])) ++ ('(' :: (u.data ++ [')'])) := by
        simp [renderItem, List.append_assoc]
      rw [hsh]
      apply inertFor_append
      · apply inertFor_of_all matcherParen_head
        rw [List.all_append, Bool.and_eq_true]
        refine ⟨by decide, ?_⟩
        rw [List.all_append, Bool.and_eq_true]
        exact ⟨all_noTrig_left (goodDoi_data_noTrig hd), by decide⟩
      · apply inertFor_cons
        · apply matcherParen_no_doi
          have hsh2 : (u.data ++ [')']) ++ rest = u.data ++ ')' :: rest := by simp
          rw [hsh2]
          exact ciStarts_append_block doiPat_blocker_rp hu.2 rest
        · apply inertFor_of_all matcherParen_head
          rw [List.all_append, Bool.and_eq_true]
          exact ⟨all_noTrig_left hu.1, by decide⟩

lemma renderChars_cons (it : RItem) (its : List RItem) :
    renderChars (it :: its) = renderItem it ++ renderChars its := by
  rw [renderChars, List.map_cons, List.flatten_cons, renderChars]

lemma mk_data (d : String) : String.mk d.data = d := rfl

/-- The first pass resolves exactly the paren markers. -/
lemma pass1_eq {f : List (String × ReferenceFallbackInfo)} :
    ∀ items, CleanItems items = true →
      passRun matcherParen wrapRepl f (renderChars items) =
        ((items.map (stage1Item f)).flatten, citedPass1 items f, removedPass1 items f) := by
  intro items
  induction items with
  | nil => intro _; rfl
  | cons it its ih =>
    intro hc
    rw [CleanItems, List.all_cons, Bool.and_eq_true] at hc
    obtain ⟨hit, hits⟩ := hc
    have ihr := ih hits
    rw [renderChars_cons]
    by_cases hp : ∃ d, it = RItem.cite CiteForm.paren d
    · obtain ⟨d, rfl⟩ := hp
      have hd : GoodDoi d = true := goodItem_cite hit
      have hre : renderItem (RItem.cite CiteForm.paren d) ++ renderChars its =
          "(DOI: ".data ++ (d.data ++ ')' :: renderChars its) := by
        simp [renderItem, List.append_assoc]
      have hhit := matcherParen_hit hd (renderChars its)
      have hM : ("(DOI: ".data ++ (d.data ++ [')']) : List Char) ≠ [] := by simp
      have hM2 : ("(DOI: ".data ++ (d.data ++ [')'])) ++ renderChars its =
          "(DOI: ".data ++ (d.data ++ ')' :: renderChars its) := by
        simp [List.append_assoc]
      have hnorm : normalizeDoi (String.mk d.data) = d := by
        rw [mk_data]
        exact normalizeDoi_goodDoi hd
      rw [hre]
      cases hl : listLookup d f with
      | some fb =>
        have hstep := @passRun_match_some matcherParen wrapRepl f matcherParen_consumes
          _ _ _ _ hM (by rw [hM2]; exact hhit) (by rw [hnorm]; exact hl)
        rw [hM2] at hstep
        rw [hstep, ihr, hnorm]
        simp only [List.map_cons, List.flatten_cons, citedPass1, removedPass1,
          List.filterMap_cons]
        rw [hl]
        simp [stage1Item, repOf, hl, citedPass1, removedPass1]
      | none =>
        have hstep := @passRun_match_none matcherParen wrapRepl f matcherParen_consumes
          _ _ _ hM (by rw [hM2]; exact hhit) (by rw [hnorm]; exact hl)
        rw [hM2] at hstep
        rw [hstep, ihr, hnorm]
        simp only [List.map_cons, List.flatten_cons, citedPass1, removedPass1,
          List.filterMap_cons]
        rw [hl]
        simp [stage1Item, repOf, hl, citedPass1, removedPass1]
    · have hno : ∀ d, it ≠ RItem.cite CiteForm.paren d := by
        intro d hd
        exact hp ⟨d, hd⟩
      have hiner := inert1_item hit hno (renderChars its)
      rw [passRun_append_inert hiner, ihr]
      have hst : stage1Item f it = renderItem it := by
        cases it with
        | seg s => rfl
        | cite fo d =>
          cases fo with
          | paren => exact absurd rfl (hno d)
          | bracket => rfl
          | parenBracket => rfl
          | mdLink u => rfl
      cases it with
      | seg s => simp [stage1Item, citedPass1, removedPass1, List.filterMap_cons]
      | cite fo d =>
        cases fo with
        | paren => exact absurd rfl (hno d)
        | bracket => simp [stage1Item, citedPass1, removedPass1, List.filterMap_cons]
        | parenBracket => simp [stage1Item, citedPass1, removedPass1, List.filterMap_cons]
        | mdLink u => simp [stage1Item, citedPass1, removedPass1, List.filterMap_cons]

lemma wrapRepl_data (d : String) (fb : ReferenceFallbackInfo) :
    (wrapRepl d fb).data = '(' :: '[' ::
      ((formatCitationLinkTextFromFallback fb).data ++
        (']' :: '(' :: ((toDoiUrl d).data ++ [')', ')']))) := by
  rw [wrapRepl]
  simp [String.data_append, List.append_assoc]

lemma wrapRepl_inert_bracket {d : String} {fb : ReferenceFallbackInfo}
    (hd : GoodDoi d = true) (hf : GoodFallback fb = true) (rest : List Char) :
    InertFor matcherBracket (wrapRepl d fb).data rest := by
  have hlab := goodFallback_parts hf
  rw [wrapRepl_data]
  apply inertFor_cons
  · exact matcherBracket_head_ne (by decide)
  · apply inertFor_cons
    · apply matcherBracket_no_doi
      have hsh : ((formatCitationLinkTextFromFallback fb).data ++
          (']' :: '(' :: ((toDoiUrl d).data ++ [')', ')']))) ++ rest =
          (formatCitationLinkTextFromFallback fb).data ++
            ']' :: (('(' :: ((toDoiUrl d).data ++ [')', ')'])) ++ rest) := by simp
      rw [hsh]
      exact ciStarts_append_block doiPat_blocker_rb hlab.2 _
    · apply inertFor_append
      · exact inertFor_of_all matcherBracket_head (all_noTrig_right hlab.1)
      · apply inertFor_cons
        · exact matcherBracket_head_ne (by decide)
        · apply inertFor_cons
          · exact matcherBracket_head_ne (by decide)
          · apply inertFor_of_all matcherBracket_head
            rw [List.all_append, Bool.and_eq_true]
            exact ⟨all_noTrig_right (toDoiUrl_noTrig hd), by decide⟩

lemma repOf_inert_bracket {f : List (String × ReferenceFallbackInfo)} {d : String}
    (hm : CleanMap f = true) (hd : GoodDoi d = true) (rest : List Char) :
    InertFor matcherBracket (repOf f d) rest := by
  cases hl : listLookup d f with
  | none =>
    rw [repOf, hl]
    exact inertFor_nil
  | some fb =>
    rw [repOf, hl]
    exact wrapRepl_inert_bracket hd (listLookup_clean hm hl) rest

/-- The second pass resolves the bracket-family markers (plain bracket,
paren-bracket inner part and markdown-link head part). -/
lemma pass2_eq {f : List (String × ReferenceFallbackInfo)} (hm : CleanMap f = true) :
    ∀ items, CleanItems items = true →
      passRun matcherBracket wrapRepl f ((items.map (stage1Item f)).flatten) =
        ((items.map (finalItem f)).flatten, citedPass2 items f, removedPass2 items f) := by
  intro items
  induction items with
  | nil => intro _; rfl
  | cons it its ih =>
    intro hc
    rw [CleanItems, List.all_cons, Bool.and_eq_true] at hc
    obtain ⟨hit, hits⟩ := hc
    have ihr := ih hits
    rw [List.map_cons, List.flatten_cons, List.map_cons, List.flatten_cons]
    cases it with
    | seg s =>
      have hiner : InertFor matcherBracket (stage1Item f (RItem.seg s))
          ((its.map (stage1Item f)).flatten) :=
        inertFor_of_all matcherBracket_head (all_noTrig_right hit)
      rw [passRun_append_inert hiner, ihr]
      simp [stage1Item, renderItem, finalItem, citedPass2, removedPass2, List.filterMap_cons]
    | cite fo d =>
      have hd : GoodDoi d = true := goodItem_cite hit
      have hnorm : normalizeDoi (String.mk d.data) = d := by
        rw [mk_data]
        exact normalizeDoi_goodDoi hd
      cases fo with
      | paren =>
        have hiner : InertFor matcherBracket (repOf f d)
            ((its.map (stage1Item f)).flatten) :=
          repOf_inert_bracket hm hd _
        rw [show stage1Item f (RItem.cite CiteForm.paren d) = repOf f d from rfl]
        rw [passRun_append_inert hiner, ihr]
        simp [finalItem, renderItem, citedPass2, removedPass2, List.filterMap_cons]
      | bracket =>
        have hre : stage1Item f (RItem.cite CiteForm.bracket d) ++
            (its.map (stage1Item f)).flatten =
            "[DOI: ".data ++ (d.data ++ ']' :: (its.map (stage1Item f)).flatten) := by
          simp [stage1Item, renderItem, List.append_assoc]
        have hhit := matcherBracket_hit hd ((its.map (stage1Item f)).flatten)
        have hM : ("[DOI: ".data ++ (d.data ++ [']']) : List Char) ≠ [] := by simp
        have hM2 : ("[DOI: ".data ++ (d.data ++ [']'])) ++
            (its.map (stage1Item f)).flatten =
            "[DOI: ".data ++ (d.data ++ ']' :: (its.map (stage1Item f)).flatten) := by
          simp [List.append_assoc]
        rw [hre]
        cases hl : listLookup d f with
        | some fb =>
          have hstep := @passRun_match_some matcherBracket wrapRepl f
            matcherBracket_consumes _ _ _ _ hM (by rw [hM2]; exact hhit)
            (by rw [hnorm]; exact hl)
          rw [hM2] at hstep
          rw [hstep, ihr, hnorm]
          simp only [citedPass2, removedPass2, List.filterMap_cons]
          rw [hl]
          simp [finalItem, renderItem, repOf, hl, citedPass2, removedPass2]
        | none =>
          have hstep := @passRun_match_none matcherBracket wrapRepl f
            matcherBracket_consumes _ _ _ hM (by rw [hM2]; exact hhit)
            (by rw [hnorm]; exact hl)
          rw [hM2] at hstep
          rw [hstep, ihr, hnorm]
          simp only [citedPass2, removedPass2, List.filterMap_cons]
          rw [hl]
          simp [finalItem, renderItem, repOf, hl, citedPass2, removedPass2]
      | parenBracket =>
        have hre : stage1Item f (RItem.cite CiteForm.parenBracket d) ++
            (its.map (stage1Item f)).flatten =
            '(' :: (("[DOI: ".data ++ (d.data ++ [']'])) ++
              ')' :: (its.map (stage1Item f)).flatten) := by
          simp [stage1Item, renderItem, List.append_assoc]
        have hM : ("[DOI: ".data ++ (d.data ++ [']']) : List Char) ≠ [] := by simp
        have hM2 : ("[DOI: ".data ++ (d.data ++ [']'])) ++
            (')' :: (its.map (stage1Item f)).flatten) =
            "[DOI: ".data ++ (d.data ++ ']' :: ')' :: (its.map (stage1Item f)).flatten) := by
          simp [List.append_assoc]
        have hhit := matcherBracket_hit hd (')' :: (its.map (stage1Item f)).flatten)
        have hstep3 := @passRun_cons_fail matcherBracket wrapRepl f ')'
          ((its.map (stage1Item f)).flatten) (matcherBracket_head_ne (by decide))
        rw [hre]
        rw [passRun_cons_fail (matcherBracket_head_ne (by decide))]
        cases hl : listLookup d f with
        | some fb =>
          have hstep := @passRun_match_some matcherBracket wrapRepl f
            matcherBracket_consumes _ _ _ _ hM (by rw [hM2]; exact hhit)
            (by rw [hnorm]; exact hl)
          rw [hstep, hstep3, ihr, hnorm]
          simp only [citedPass2, removedPass2, List.filterMap_cons]
          rw [hl]
          simp [finalItem, renderItem, repOf, hl, citedPass2, removedPass2, List.append_assoc]
        | none =>
          have hstep := @passRun_match_none matcherBracket wrapRepl f
            matcherBracket_consumes _ _ _ hM (by rw [hM2]; exact hhit)
            (by rw [hnorm]; exact hl)
          rw [hstep, hstep3, ihr, hnorm]
          simp only [citedPass2, removedPass2, List.filterMap_cons]
          rw [hl]
          simp [finalItem, renderItem, repOf, hl, citedPass2, removedPass2, List.append_assoc]
      | mdLink u =>
        have hu := goodUrl_parts (goodItem_md hit)
        have hre : stage1Item f (RItem.cite (CiteForm.mdLink u) d) ++
            (its.map (stage1Item f)).flatten =
            "[DOI: ".data ++ (d.data ++ ']' ::
              ('(' :: ((u.data ++ [')']) ++ (its.map (stage1Item f)).flatten))) := by
          simp [stage1Item, renderItem, List.append_assoc]
        have hM : ("[DOI: ".data ++ (d.data ++ [']']) : List Char) ≠ [] := by simp
        have hM2 : ("[DOI: ".data ++ (d.data ++ [']'])) ++
            ('(' :: ((u.data ++ [')']) ++ (its.map (stage1Item f)).flatten)) =
            "[DOI: ".data ++ (d.data ++ ']' ::
              ('(' :: ((u.data ++ [')']) ++ (its.map (stage1Item f)).flatten))) := by
          simp [List.append_assoc]
        have hhit := matcherBracket_hit hd
          ('(' :: ((u.data ++ [')']) ++ (its.map (stage1Item f)).flatten))
        have hiner : InertFor matcherBracket ('(' :: (u.data ++ [')']))
            ((its.map (stage1Item f)).flatten) := by
          apply inertFor_cons
          · exact matcherBracket_head_ne (by decide)
          · apply inertFor_of_all matcherBracket_head
            rw [List.all_append, Bool.and_eq_true]
            exact ⟨all_noTrig_right hu.1, by decide⟩
        have hstep3 := @passRun_append_inert matcherBracket wrapRepl f
          ('(' :: (u.data ++ [')'])) ((its.map (stage1Item f)).flatten) hiner
        rw [List.cons_append] at hstep3
        rw [hre]
        cases hl : listLookup d f with
        | some fb =>
          have hstep := @passRun_match_some matcherBracket wrapRepl f
            matcherBracket_consumes _ _ _ _ hM (by rw [hM2]; exact hhit)
            (by rw [hnorm]; exact hl)
          rw [hM2] at hstep
          rw [hstep, hstep3, ihr, hnorm]
          simp only [citedPass2, removedPass2, List.filterMap_cons]
          rw [hl]
          simp [finalItem, renderItem, repOf, hl, citedPass2, removedPass2, List.append_assoc]
        | none =>
          have hstep := @passRun_match_none matcherBracket wrapRepl f
            matcherBracket_consumes _ _ _ hM (by rw [hM2]; exact hhit)
            (by rw [hnorm]; exact hl)
          rw [hM2] at hstep
          rw [hstep, hstep3, ihr, hnorm]
          simp only [citedPass2, removedPass2, List.filterMap_cons]
          rw [hl]
          simp [finalItem, renderItem, repOf, hl, citedPass2, removedPass2, List.append_assoc]

lemma matcherParenBracket_head_ne {c : Char} {r : List Char} (hc : c ≠ '(') :
    matcherParenBracket (c :: r) = none := by
  cases hmf : matcherParenBracket (c :: r) with
  | none => rfl
  | some p =>
    obtain ⟨r0, hr⟩ := matcherParenBracket_head _ _ hmf
    rw [List.cons.injEq] at hr
    exact absurd hr.1 hc

lemma matcherMdLink_head_ne {c : Char} {r : List Char} (hc : c ≠ '[') :
    matcherMdLink (c :: r) = none := by
  cases hmf : matcherMdLink (c :: r) with
  | none => rfl
  | some p =>
    obtain ⟨r0, hr⟩ := matcherMdLink_head _ _ hmf
    rw [List.cons.injEq] at hr
    exact absurd hr.1 hc

lemma toDoiUrl_head (d : String) :
    (toDoiUrl d).data =
      'h' :: ("ttps://doi.org/".data ++ unescapeSlash (encodeURIChars d.data)) := rfl

lemma wrapRepl_inert_pb {d : String} {fb : ReferenceFallbackInfo}
    (hd : GoodDoi d = true) (hf : GoodFallback fb = true) (rest : List Char) :
    InertFor matcherParenBracket (wrapRepl d fb).data rest := by
  have hlab := goodFallback_parts hf
  rw [wrapRepl_data]
  apply inertFor_cons
  · apply matcherParenBracket_no_doi
    have hsh : ((formatCitationLinkTextFromFallback fb).data ++
        (']' :: '(' :: ((toDoiUrl d).data ++ [')', ')']))).append rest =
        (formatCitationLinkTextFromFallback fb).data ++
          ']' :: (('(' :: ((toDoiUrl d).data ++ [')', ')'])) ++ rest) := by simp
    rw [hsh]
    exact ciStarts_append_block doiPat_blocker_rb hlab.2 _
  · apply inertFor_cons
    · exact matcherParenBracket_head_ne (by decide)
    · apply inertFor_append
      · exact inertFor_of_all matcherParenBracket_head (all_noTrig_left hlab.1)
      · apply inertFor_cons
        · exact matcherParenBracket_head_ne (by decide)
        · apply inertFor_cons
          · rw [toDoiUrl_head, List.cons_append, List.cons_append]
            exact matcherParenBracket_snd_ne (by decide)
          · apply inertFor_of_all matcherParenBracket_head
            rw [List.all_append, Bool.and_eq_true]
            exact ⟨all_noTrig_left (toDoiUrl_noTrig hd), by decide⟩

lemma wrapRepl_inert_md {d : String} {fb : ReferenceFallbackInfo}
    (hd : GoodDoi d = true) (hf : GoodFallback fb = true) (rest : List Char) :
    InertFor matcherMdLink (wrapRepl d fb).data rest := by
  have hlab := goodFallback_parts hf
  rw [wrapRepl_data]
  apply inertFor_cons
  · exact matcherMdLink_head_ne (by decide)
  · apply inertFor_cons
    · apply matcherMdLink_no_doi
      have hsh : ((formatCitationLinkTextFromFallback fb).data ++
          (']' :: '(' :: ((toDoiUrl d).data ++ [')', ')']))) ++ rest =
          (formatCitationLinkTextFromFallback fb).data ++
            ']' :: (('(' :: ((toDoiUrl d).data ++ [')', ')'])) ++ rest) := by simp
      rw [hsh]
      exact ciStarts_append_block doiPat_blocker_rb hlab.2 _
    · apply inertFor_append
      · exact inertFor_of_all matcherMdLink_head (all_noTrig_right hlab.1)
      · apply inertFor_cons
        · exact matcherMdLink_head_ne (by decide)
        · apply inertFor_cons
          · exact matcherMdLink_head_ne (by decide)
          · apply inertFor_of_all matcherMdLink_head
            rw [List.all_append, Bool.and_eq_true]
            exact ⟨all_noTrig_right (toDoiUrl_noTrig hd), by decide⟩

lemma repOf_inert_pb {f : List (String × ReferenceFallbackInfo)} {d : String}
    (hm : CleanMap f = true) (hd : GoodDoi d = true) (rest : List Char) :
    InertFor matcherParenBracket (repOf f d) rest := by
  cases hl : listLookup d f with
  | none =>
    rw [repOf, hl]
    exact inertFor_nil
  | some fb =>
    rw [repOf, hl]
    exact wrapRepl_inert_pb hd (listLookup_clean hm hl) rest

lemma repOf_inert_md {f : List (String × ReferenceFallbackInfo)} {d : String}
    (hm : CleanMap f = true) (hd : GoodDoi d = true) (rest : List Char) :
    InertFor matcherMdLink (repOf f d) rest := by
  cases hl : listLookup d f with
  | none =>
    rw [repOf, hl]
    exact inertFor_nil
  | some fb =>
    rw [repOf, hl]
    exact wrapRepl_inert_md hd (listLookup_clean hm hl) rest

/-- Items after the second pass never trigger the paren-bracket matcher. -/
lemma finalItem_inert_pb {f : List (String × ReferenceFallbackInfo)} {it : RItem}
    (hm : CleanMap f = true) (hg : GoodItem it = true) (rest : List Char) :
    InertFor matcherParenBracket (finalItem f it) rest := by
  cases it with
  | seg s => exact inertFor_of_all matcherParenBracket_head (all_noTrig_left hg)
  | cite fo d =>
    have hd : GoodDoi d = true := goodItem_cite hg
    cases fo with
    | paren => exact repOf_inert_pb hm hd rest
    | bracket => exact repOf_inert_pb hm hd rest
    | parenBracket =>
      rw [show finalItem f (RItem.cite CiteForm.parenBracket d) =
        '(' :: (repOf f d ++ [')']) from rfl]
      apply inertFor_cons
      · cases hl : listLookup d f with
        | none =>
          have hr : repOf f d = [] := by rw [repOf, hl]
          rw [hr]
          exact matcherParenBracket_snd_ne (by decide)
        | some fb =>
          have hr : repOf f d = (wrapRepl d fb).data := by rw [repOf, hl]
          rw [hr, wrapRepl_data]
          exact matcherParenBracket_snd_ne (by decide)
      · exact inertFor_append (repOf_inert_pb hm hd _)
          (inertFor_of_all matcherParenBracket_head (by decide))
    | mdLink u =>
      have hu := goodUrl_parts (goodItem_md hg)
      rw [show finalItem f (RItem.cite (CiteForm.mdLink u) d) =
        repOf f d ++ ('(' :: (u.data ++ [')'])) from rfl]
      apply inertFor_append (repOf_inert_pb hm hd _)
      apply inertFor_cons
      · cases hud : u.data with
        | nil =>
          exact matcherParenBracket_snd_ne (by decide)
        | cons c ur =>
          have hcne : c ≠ '[' := by
            have := List.all_eq_true.mp (all_noTrig_right hu.1) c
              (by rw [hud]; exact List.mem_cons_self _ _)
            simp only [Bool.not_eq_true', beq_eq_false_iff_ne] at this
            exact this
          exact matcherParenBracket_snd_ne hcne
      · apply inertFor_of_all matcherParenBracket_head
        rw [List.all_append, Bool.and_eq_true]
        exact ⟨all_noTrig_left hu.1, by decide⟩

/-- Items after the second pass never trigger the markdown-link matcher. -/
lemma finalItem_inert_md {f : List (String × ReferenceFallbackInfo)} {it : RItem}
    (hm : CleanMap f = true) (hg : GoodItem it = true) (rest : List Char) :
    InertFor matcherMdLink (finalItem f it) rest := by
  cases it with
  | seg s => exact inertFor_of_all matcherMdLink_head (all_noTrig_right hg)
  | cite fo d =>
    have hd : GoodDoi d = true := goodItem_cite hg
    cases fo with
    | paren => exact repOf_inert_md hm hd rest
    | bracket => exact repOf_inert_md hm hd rest
    | parenBracket =>
      rw [show finalItem f (RItem.cite CiteForm.parenBracket d) =
        '(' :: (repOf f d ++ [')']) from rfl]
      apply inertFor_cons
      · exact matcherMdLink_head_ne (by decide)
      · exact inertFor_append (repOf_inert_md hm hd _)
          (inertFor_of_all matcherMdLink_head (by decide))
    | mdLink u =>
      have hu := goodUrl_parts (goodItem_md hg)
      rw [show finalItem f (RItem.cite (CiteForm.mdLink u) d) =
        repOf f d ++ ('(' :: (u.data ++ [')'])) from rfl]
      apply inertFor_append (repOf_inert_md hm hd _)
      apply inertFor_cons
      · exact matcherMdLink_head_ne (by decide)
      · apply inertFor_of_all matcherMdLink_head
        rw [List.all_append, Bool.and_eq_true]
        exact ⟨all_noTrig_right hu.1, by decide⟩

lemma inertFor_flatten {mf : List Char → Option (List Char × List Char)}
    {g : RItem → List Char} :
    ∀ (items : List RItem), (∀ it ∈ items, ∀ rest, InertFor mf (g it) rest) →
      ∀ rest, InertFor mf ((items.map g).flatten) rest := by
  intro items
  induction items with
  | nil => intro _ rest; exact inertFor_nil
  | cons it its ih =>
    intro hin rest
    rw [List.map_cons, List.flatten_cons]
    exact inertFor_append (hin it (List.mem_cons_self _ _) _)
      (ih (fun it2 h2 rest2 => hin it2 (List.mem_cons_of_mem _ h2) rest2) rest)

lemma passRun_inert_all {X : List Char}
    (h : InertFor mf X []) : passRun mf repl f X = (X, [], []) := by
  have h2 := @passRun_append_inert mf repl f X [] h
  rw [List.append_nil] at h2
  rw [h2]
  simp [passRun, passAuxF]

/-- The third and fourth passes are no-ops on clean rendered texts: all
marker occurrences were already consumed by the first two passes. -/
lemma pass34_eq {f : List (String × ReferenceFallbackInfo)} {items : List RItem}
    (hm : CleanMap f = true) (hc : CleanItems items = true) :
    passRun matcherParenBracket wrapRepl f ((items.map (finalItem f)).flatten) =
      ((items.map (finalItem f)).flatten, [], []) ∧
    passRun matcherMdLink linkRepl f ((items.map (finalItem f)).flatten) =
      ((items.map (finalItem f)).flatten, [], []) := by
  have hall : ∀ it ∈ items, GoodItem it = true := fun it h =>
    List.all_eq_true.mp hc it h
  constructor
  · exact passRun_inert_all
      (inertFor_flatten items (fun it h2 rest => finalItem_inert_pb hm (hall it h2) rest) [])
  · exact passRun_inert_all
      (inertFor_flatten items (fun it h2 rest => finalItem_inert_md hm (hall it h2) rest) [])

/-- Full characterization of the citation filter on clean rendered texts. -/
lemma filter_render {items : List RItem} {f : List (String × ReferenceFallbackInfo)}
    (hc : CleanItems items = true) (hm : CleanMap f = true) :
    filterAndFormatCitationsWithSourceDois (String.mk (renderChars items)) f =
      { processedContent := String.mk ((items.map (finalItem f)).flatten)
      , citedDois := dedupFirst (citedPass1 items f ++ citedPass2 items f)
      , removedDois := dedupFirst (removedPass1 items f ++ removedPass2 items f) } := by
  have h1 := @pass1_eq f items hc
  have h2 := pass2_eq hm items hc
  have h34 := pass34_eq hm hc
  rw [filterAndFormatCitationsWithSourceDois]
  rw [show (String.mk (renderChars items)).data = renderChars items from rfl]
  rw [h1]
  simp only
  rw [h2]
  simp only
  rw [h34.1]
  simp only
  rw [h34.2]
  simp

/-- C1 (corrected): on a clean structured text, every citation marker whose
DOI is not a key of the fallback map is removed from the output in the sense
that its doi-label text and captured DOI are deleted and the normalized DOI
is recorded in removedDois; however the deletion is NOT always complete:
paren and bracket markers vanish entirely, but a paren-bracket marker leaves
an empty paren pair and a markdown-link marker leaves its parenthesized URL
behind (so a doi.org URL remnant can still carry the raw DOI, refuting the
no-dangling-remnant part of the claim). -/
theorem filter_unmapped_spec (items : List RItem)
    (f : List (String × ReferenceFallbackInfo))
    (hc : CleanItems items = true) (hm : CleanMap f = true) :
    (filterAndFormatCitationsWithSourceDois (String.mk (renderChars items))
        f).processedContent = String.mk ((items.map (finalItem f)).flatten) ∧
    ∀ fo d, RItem.cite fo d ∈ items → listLookup d f = none →
      d ∈ (filterAndFormatCitationsWithSourceDois (String.mk (renderChars items))
          f).removedDois ∧
      finalItem f (RItem.cite fo d) =
        (match fo with
         | CiteForm.paren => ([] : List Char)
         | CiteForm.bracket => ([] : List Char)
         | CiteForm.parenBracket => ['(', ')']
         | CiteForm.mdLink u => '(' :: (u.data ++ [')'])) := by
  have hfr := filter_render hc hm
  rw [hfr]
  refine ⟨rfl, ?_⟩
  intro fo d hmem hl
  constructor
  · show d ∈ dedupFirst (removedPass1 items f ++ removedPass2 items f)
    rw [mem_dedupFirst, List.mem_append]
    cases fo with
    | paren =>
      exact Or.inl (List.mem_filterMap.mpr ⟨_, hmem, by simp [hl]⟩)
    | bracket =>
      exact Or.inr (List.mem_filterMap.mpr ⟨_, hmem, by simp [hl]⟩)
    | parenBracket =>
      exact Or.inr (List.mem_filterMap.mpr ⟨_, hmem, by simp [hl]⟩)
    | mdLink u =>
      exact Or.inr (List.mem_filterMap.mpr ⟨_, hmem, by simp [hl]⟩)
  · cases fo with
    | paren =>
      show repOf f d = []
      simp [repOf, hl]
    | bracket =>
      show repOf f d = []
      simp [repOf, hl]
    | parenBracket =>
      show '(' :: (repOf f d ++ [')']) = ['(', ')']
      simp [repOf, hl]
    | mdLink u =>
      show repOf f d ++ ('(' :: (u.data ++ [')'])) = '(' :: (u.data ++ [')'])
      simp [repOf, hl]

/-- C1 counterexample: an unmapped markdown-link citation marker is not
deleted entirely — the parenthesized doi.org URL survives in the output, and
it still contains the raw DOI as a dangling remnant. -/
theorem filter_unmapped_counterexample :
    (filterAndFormatCitationsWithSourceDois
        "[DOI: 10.1234/abcd](https://doi.org/10.1234/abcd)" []).processedContent =
      "(https://doi.org/10.1234/abcd)" ∧
    (filterAndFormatCitationsWithSourceDois
        "[DOI: 10.1234/abcd](https://doi.org/10.1234/abcd)" []).removedDois =
      ["10.1234/abcd"] ∧
    containsSubB "10.1234/abcd".data
      (filterAndFormatCitationsWithSourceDois
        "[DOI: 10.1234/abcd](https://doi.org/10.1234/abcd)"
        []).processedContent.data = true := by
  decide

/-- C1 witness: instantiation of the removal theorem at a concrete clean
text holding one unmapped markdown-link marker. -/
theorem filter_unmapped_spec_witness :
    CleanItems [RItem.seg "See ",
      RItem.cite (CiteForm.mdLink "https://x.org/p") "10.1234/abcd"] = true ∧
    CleanMap [] = true ∧
    ("10.1234/abcd" ∈ (filterAndFormatCitationsWithSourceDois
        (String.mk (renderChars [RItem.seg "See ",
          RItem.cite (CiteForm.mdLink "https://x.org/p") "10.1234/abcd"]))
        []).removedDois ∧
      finalItem [] (RItem.cite (CiteForm.mdLink "https://x.org/p") "10.1234/abcd") =
        '(' :: (("https://x.org/p" : String).data ++ [')'])) :=
  ⟨by decide, by decide,
    (filter_unmapped_spec
        [RItem.seg "See ", RItem.cite (CiteForm.mdLink "https://x.org/p") "10.1234/abcd"]
        [] (by decide) (by decide)).2
      (CiteForm.mdLink "https://x.org/p") "10.1234/abcd" (by decide) (by decide)⟩

/-- C2 (confirmed, with the wrapped-link form made explicit): on a clean
structured text, every citation marker whose DOI is a key of the fallback
map is replaced by the paren-wrapped markdown link toward the doi.org URL of
the DOI, whose link text is the humanized author-year label (Unknown / single
last name / two last names joined by and / first last name et al., with year
n.d. when the stored year is zero), and the DOI appears in citedDois exactly
once no matter how many markers cite it. -/
theorem filter_mapped_spec (items : List RItem)
    (f : List (String × ReferenceFallbackInfo))
    (hc : CleanItems items = true) (hm : CleanMap f = true) :
    ∀ fo d fb, RItem.cite fo d ∈ items → listLookup d f = some fb →
      (filterAndFormatCitationsWithSourceDois (String.mk (renderChars items))
          f).citedDois.count d = 1 ∧
      (filterAndFormatCitationsWithSourceDois (String.mk (renderChars items))
          f).processedContent = String.mk ((items.map (finalItem f)).flatten) ∧
      finalItem f (RItem.cite fo d) =
        (match fo with
         | CiteForm.parenBracket => '(' :: ((wrapRepl d fb).data ++ [')'])
         | CiteForm.mdLink u => (wrapRepl d fb).data ++ ('(' :: (u.data ++ [')']))
         | _ => (wrapRepl d fb).data) ∧
      wrapRepl d fb =
        "([" ++ formatCitationLinkTextFromFallback fb ++ "](" ++ toDoiUrl d ++ "))" ∧
      (fb.authors = [] → formatCitationLinkTextFromFallback fb =
        "Unknown " ++ (if fb.year > 0 then toString fb.year else "n.d.")) ∧
      (∀ a, fb.authors = [a] → formatCitationLinkTextFromFallback fb =
        getLastName a ++ " " ++ (if fb.year > 0 then toString fb.year else "n.d.")) ∧
      (∀ a b, fb.authors = [a, b] → formatCitationLinkTextFromFallback fb =
        getLastName a ++ " and " ++ getLastName b ++ " " ++
          (if fb.year > 0 then toString fb.year else "n.d.")) ∧
      (∀ a b c r, fb.authors = a :: b :: c :: r → formatCitationLinkTextFromFallback fb =
        getLastName a ++ " et al. " ++
          (if fb.year > 0 then toString fb.year else "n.d.")) := by
  have hfr := filter_render hc hm
  rw [hfr]
  intro fo d fb hmem hl
  refine ⟨?_, rfl, ?_, rfl, ?_, ?_, ?_, ?_⟩
  · show (dedupFirst (citedPass1 items f ++ citedPass2 items f)).count d = 1
    apply count_dedupFirst_eq_one
    rw [List.mem_append]
    cases fo with
    | paren =>
      exact Or.inl (List.mem_filterMap.mpr ⟨_, hmem, by simp [hl]⟩)
    | bracket =>
      exact Or.inr (List.mem_filterMap.mpr ⟨_, hmem, by simp [hl]⟩)
    | parenBracket =>
      exact Or.inr (List.mem_filterMap.mpr ⟨_, hmem, by simp [hl]⟩)
    | mdLink u =>
      exact Or.inr (List.mem_filterMap.mpr ⟨_, hmem, by simp [hl]⟩)
  · cases fo with
    | paren =>
      show repOf f d = (wrapRepl d fb).data
      simp [repOf, hl]
    | bracket =>
      show repOf f d = (wrapRepl d fb).data
      simp [repOf, hl]
    | parenBracket =>
      show '(' :: (repOf f d ++ [')']) = '(' :: ((wrapRepl d fb).data ++ [')'])
      simp [repOf, hl]
    | mdLink u =>
      show repOf f d ++ ('(' :: (u.data ++ [')'])) =
        (wrapRepl d fb).data ++ ('(' :: (u.data ++ [')']))
      simp [repOf, hl]
  · intro ha
    simp [formatCitationLinkTextFromFallback, ha]
  · intro a ha
    simp [formatCitationLinkTextFromFallback, ha]
  · intro a b ha
    simp [formatCitationLinkTextFromFallback, ha]
  · intro a b c r ha
    simp [formatCitationLinkTextFromFallback, ha]

/-- C2 witness: instantiation at a concrete clean text holding one mapped
paren marker with a two-author fallback record. -/
theorem filter_mapped_spec_witness :
    CleanItems [RItem.seg "See ", RItem.cite CiteForm.paren "10.1234/abcd"] = true ∧
    CleanMap [("10.1234/abcd",
      (⟨["Ann Kim", "Bo Li"], 2021, "T", "J"⟩ : ReferenceFallbackInfo))] = true ∧
    (filterAndFormatCitationsWithSourceDois
        (String.mk (renderChars [RItem.seg "See ",
          RItem.cite CiteForm.paren "10.1234/abcd"]))
        [("10.1234/abcd",
          (⟨["Ann Kim", "Bo Li"], 2021, "T", "J"⟩ : ReferenceFallbackInfo))]).citedDois.count
      "10.1234/abcd" = 1 :=
  ⟨by decide, by decide,
    (filter_mapped_spec
        [RItem.seg "See ", RItem.cite CiteForm.paren "10.1234/abcd"]
        [("10.1234/abcd",
          (⟨["Ann Kim", "Bo Li"], 2021, "T", "J"⟩ : ReferenceFallbackInfo))]
        (by decide) (by decide) CiteForm.paren "10.1234/abcd"
        (⟨["Ann Kim", "Bo Li"], 2021, "T", "J"⟩ : ReferenceFallbackInfo)
        (by decide) (by decide)).1⟩

/-! ### Line splitting and joining (report cleanup support) -/

lemma splitOnPred_ne_nil (p : Char → Bool) : ∀ l, splitOnPred p l ≠ [] := by
  intro l
  cases l with
  | nil => simp [splitOnPred]
  | cons c r =>
    rw [splitOnPred]
    split_ifs
    · simp
    · cases h : splitOnPred p r <;> simp

lemma joinLines_splitLines : ∀ L : List Char, joinLinesChars (splitLinesChars L) = L := by
  intro L
  induction L with
  | nil => rfl
  | cons c r ih =>
    rw [splitLinesChars, splitOnPred]
    split_ifs with hc
    · have hc2 : c = '\n' := by
        have := of_decide_eq_true hc
        exact this
      cases hs : splitOnPred (fun c => c == '\n') r with
      | nil => exact absurd hs (splitOnPred_ne_nil _ r)
      | cons h t =>
        rw [joinLinesChars, hc2]
        rw [splitLinesChars, hs] at ih
        rw [ih]
        rfl
    · cases hs : splitOnPred (fun c => c == '\n') r with
      | nil => exact absurd hs (splitOnPred_ne_nil _ r)
      | cons h t =>
        rw [splitLinesChars, hs] at ih
        cases t with
        | nil =>
          rw [joinLinesChars] at ih
          rw [joinLinesChars, ih]
        | cons y ys =>
          rw [joinLinesChars] at ih
          rw [joinLinesChars, List.cons_append, ih]

lemma joinLines_append {A B : List (List Char)} (hA : A ≠ []) (hB : B ≠ []) :
    joinLinesChars (A ++ B) = joinLinesChars A ++ '\n' :: joinLinesChars B := by
  induction A with
  | nil => exact absurd rfl hA
  | cons a A2 ih =>
    cases A2 with
    | nil =>
      cases B with
      | nil => exact absurd rfl hB
      | cons b B2 =>
        rw [List.singleton_append, joinLinesChars, joinLinesChars]
    | cons a2 A3 =>
      rw [List.cons_append, List.cons_append]
      rw [show joinLinesChars (a :: a2 :: (A3 ++ B)) =
        a ++ '\n' :: joinLinesChars (a2 :: (A3 ++ B)) from rfl]
      rw [← List.cons_append, ih (by simp)]
      rw [show joinLinesChars (a :: a2 :: A3) =
        a ++ '\n' :: joinLinesChars (a2 :: A3) from rfl]
      simp

lemma findIdxQ_go {p : List Char → Bool} :
    ∀ {l : List (List Char)} (s : Nat) {i : Nat}, List.findIdx? p l s = some i →
      s ≤ i ∧ i - s < l.length ∧ p (l.getD (i - s) []) = true ∧
        ∀ x ∈ l.take (i - s), p x = false := by
  intro l
  induction l with
  | nil => intro s i h; simp [List.findIdx?] at h
  | cons x xs ih =>
    intro s i h
    have ihs := @ih (s + 1)
    rw [List.findIdx?_cons] at h
    by_cases hx : p x
    · rw [if_pos hx] at h
      injection h with h2
      subst h2
      refine ⟨le_rfl, by simp, ?_, by simp⟩
      rw [Nat.sub_self]
      simpa using hx
    · rw [if_neg hx] at h
      obtain ⟨h0, h1, h2, h3⟩ := ihs h
      have hsi : s < i := by omega
      have hpred : i - s = (i - (s + 1)) + 1 := by omega
      refine ⟨by omega, by rw [hpred]; simpa using h1, ?_, ?_⟩
      · rw [hpred]
        simpa using h2
      · intro y hy
        rw [hpred, List.take_succ_cons, List.mem_cons] at hy
        rcases hy with rfl | hy
        · simpa using hx
        · exact h3 y hy

lemma findIdxQ_some_spec {p : List Char → Bool} {l : List (List Char)} {i : Nat}
    (h : l.findIdx? p = some i) :
    i < l.length ∧ p (l.getD i []) = true ∧ ∀ x ∈ l.take i, p x = false := by
  have hg := findIdxQ_go 0 h
  simpa using hg.2

lemma trimRightC_prefix : ∀ l : List Char, ∃ t, l = trimRightC l ++ t := by
  intro l
  induction l with
  | nil => exact ⟨[], rfl⟩
  | cons c r ih =>
    obtain ⟨t, ht⟩ := ih
    rw [trimRightC]
    cases h : trimRightC r with
    | nil =>
      split_ifs with hc
      · exact ⟨c :: r, rfl⟩
      · refine ⟨r, ?_⟩
        rw [List.singleton_append]
    | cons x xs =>
      refine ⟨t, ?_⟩
      show c :: r = (c :: x :: xs) ++ t
      rw [List.cons_append, ← h, ← ht]

lemma trimChars_infix (l : List Char) : ∃ s t, l = s ++ trimChars l ++ t := by
  obtain ⟨t, ht⟩ := trimRightC_prefix (l.dropWhile isWsJS)
  refine ⟨l.takeWhile isWsJS, t, ?_⟩
  rw [trimChars, List.append_assoc, ← ht, List.takeWhile_append_dropWhile]

/-- C8: the cleanup applied to LM output before appending it to the report
truncates everything from the first reference-marker line onward: the
appended content is the trimmed join of the lines strictly before that
line, no kept line is a reference marker while the dropped first line is,
the marker line and everything after it form a separate suffix of the
pre-cleanup text, and the appended content is a contiguous part of the
pre-marker prefix alone. -/
theorem cleanup_strips_references (text : String) (i : Nat)
    (hidx : (splitLinesChars (trimS (stripHeaders text)).data).findIdx? isRefMarkerL =
      some i) :
    cleanupSectionContent text =
      String.mk (trimChars (joinLinesChars
        ((splitLinesChars (trimS (stripHeaders text)).data).take i))) ∧
    (∀ l ∈ (splitLinesChars (trimS (stripHeaders text)).data).take i,
      isRefMarkerL l = false) ∧
    isRefMarkerL ((splitLinesChars (trimS (stripHeaders text)).data).getD i []) = true ∧
    (i = 0 ∨ (trimS (stripHeaders text)).data =
      joinLinesChars ((splitLinesChars (trimS (stripHeaders text)).data).take i) ++
        '\n' :: joinLinesChars
          ((splitLinesChars (trimS (stripHeaders text)).data).drop i)) ∧
    ∃ s t, joinLinesChars ((splitLinesChars (trimS (stripHeaders text)).data).take i) =
      s ++ (cleanupSectionContent text).data ++ t := by
  obtain ⟨hlt, hati, hbefore⟩ := findIdxQ_some_spec hidx
  have heq : cleanupSectionContent text =
      String.mk (trimChars (joinLinesChars
        ((splitLinesChars (trimS (stripHeaders text)).data).take i))) := by
    rw [cleanupSectionContent, stripInlineReferencesBlock, hidx]
  refine ⟨heq, hbefore, hati, ?_, ?_⟩
  · by_cases hi : i = 0
    · exact Or.inl hi
    · refine Or.inr ?_
      have hsplit := List.take_append_drop i
        (splitLinesChars (trimS (stripHeaders text)).data)
      have hA : (splitLinesChars (trimS (stripHeaders text)).data).take i ≠ [] := by
        intro hnil
        have hlen := congrArg List.length hnil
        rw [List.length_take, List.length_nil] at hlen
        omega
      have hB : (splitLinesChars (trimS (stripHeaders text)).data).drop i ≠ [] := by
        intro hnil
        have hlen := congrArg List.length hnil
        rw [List.length_drop, List.length_nil] at hlen
        omega
      calc (trimS (stripHeaders text)).data
          = joinLinesChars (splitLinesChars (trimS (stripHeaders text)).data) :=
            (joinLines_splitLines _).symm
        _ = joinLinesChars
              ((splitLinesChars (trimS (stripHeaders text)).data).take i ++
               (splitLinesChars (trimS (stripHeaders text)).data).drop i) := by
            rw [hsplit]
        _ = _ := joinLines_append hA hB
  · obtain ⟨s, t, hst⟩ := trimChars_infix
      (joinLinesChars ((splitLinesChars (trimS (stripHeaders text)).data).take i))
    refine ⟨s, t, ?_⟩
    rw [heq]
    exact hst

/-- C8 witness: instantiation at a concrete section text whose model
output leaks a heading and an inline References block. -/
theorem cleanup_strips_references_witness :
    (splitLinesChars (trimS (stripHeaders "## Head\nBody\nReferences\n1. A")).data).findIdx?
      isRefMarkerL = some 1 ∧
    (cleanupSectionContent "## Head\nBody\nReferences\n1. A" =
      String.mk (trimChars (joinLinesChars
        ((splitLinesChars (trimS (stripHeaders "## Head\nBody\nReferences\n1. A")).data).take
          1))) ∧
    (∀ l ∈ (splitLinesChars
        (trimS (stripHeaders "## Head\nBody\nReferences\n1. A")).data).take 1,
      isRefMarkerL l = false) ∧
    isRefMarkerL ((splitLinesChars
      (trimS (stripHeaders "## Head\nBody\nReferences\n1. A")).data).getD 1 []) = true ∧
    (1 = 0 ∨ (trimS (stripHeaders "## Head\nBody\nReferences\n1. A")).data =
      joinLinesChars ((splitLinesChars
        (trimS (stripHeaders "## Head\nBody\nReferences\n1. A")).data).take 1) ++
        '\n' :: joinLinesChars ((splitLinesChars
          (trimS (stripHeaders "## Head\nBody\nReferences\n1. A")).data).drop 1)) ∧
    ∃ s t, joinLinesChars ((splitLinesChars
        (trimS (stripHeaders "## Head\nBody\nReferences\n1. A")).data).take 1) =
      s ++ (cleanupSectionContent "## Head\nBody\nReferences\n1. A").data ++ t) :=
  ⟨by decide, cleanup_strips_references "## Head\nBody\nReferences\n1. A" 1 (by decide)⟩

/-! ### Orchestrator run lemmas -/

lemma bind_ok {α β : Type} {x : RM α} {f : α → RM β} {w w2 : World} {a : α}
    (hx : x w = (w2, Except.ok a)) : (x >>= f) w = f a w2 := by
  have hb : (x >>= f) w =
      match x w with
      | (w2, .ok a) => f a w2
      | (w2, .error e) => (w2, .error e) := rfl
  rw [hb, hx]

lemma bind_err {α β : Type} {x : RM α} {f : α → RM β} {w w2 : World} {e : JsError}
    (hx : x w = (w2, Except.error e)) : (x >>= f) w = (w2, Except.error e) := by
  have hb : (x >>= f) w =
      match x w with
      | (w2, .ok a) => f a w2
      | (w2, .error e) => (w2, .error e) := rfl
  rw [hb, hx]

lemma pure_run {α : Type} (a : α) (w : World) : (pure a : RM α) w = (w, Except.ok a) := rfl

lemma emitEv_run (ev : REvent) (w : World) :
    emitEv ev w = ({w with events := w.events ++ [ev]}, Except.ok ()) := rfl

lemma modifyW_run (g : World → World) (w : World) : modifyW g w = (g w, Except.ok ()) := rfl

lemma getWorld_run (w : World) : getWorld w = (w, Except.ok w) := rfl

lemma updateSession_run (g : ResearchState → ResearchState) (w : World) :
    updateSession g w = ({w with session := w.session.map g}, Except.ok ()) := rfl

lemma lmCall_run {α : Type} (outcome : Except JsError α) (w : World) :
    lmCall outcome w = ({w with lmCalls := w.lmCalls + 1}, outcome) := rfl

lemma checkPauseCancel_run_ok {o : Oracles} {w : World}
    (h : o.abortedAtPoll w.polls = false) :
    checkPauseCancel o w = ({w with polls := w.polls + 1}, Except.ok ()) := by
  rw [checkPauseCancel]
  simp [h]

lemma checkPauseCancel_run_err {o : Oracles} {w : World}
    (h : o.abortedAtPoll w.polls = true) :
    checkPauseCancel o w = ({w with polls := w.polls + 1}, Except.error cancelledError) := by
  rw [checkPauseCancel]
  simp [h]

lemma generateSearchKeywordsModel_run_err {o : Oracles} {i : Nat} {e : JsError}
    (h : o.keywordOutcome i = Except.error e) (w : World) :
    generateSearchKeywordsModel o i w =
      ({w with lmCalls := w.lmCalls + 1}, Except.ok none) := by
  rw [generateSearchKeywordsModel]
  simp [h]

lemma generateSearchKeywordsModel_run_ok {o : Oracles} {i : Nat} {content : String}
    (h : o.keywordOutcome i = Except.ok content) (w : World) :
    generateSearchKeywordsModel o i w =
      ({w with lmCalls := w.lmCalls + 1}, Except.ok (some (processKeywords content))) := by
  rw [generateSearchKeywordsModel]
  simp [h]

lemma session_map_nil (os : Option ResearchState) :
    os.map (fun st => {st with sources := st.sources ++ []}) = os := by
  cases os <;> simp

lemma session_map_comp (os : Option ResearchState) (s : AcademicSource)
    (rest : List AcademicSource) :
    (os.map (fun st => {st with sources := st.sources ++ [s]})).map
        (fun st => {st with sources := st.sources ++ rest}) =
      os.map (fun st => {st with sources := st.sources ++ (s :: rest)}) := by
  cases os <;> simp

lemma reportSources_run : ∀ (l : List AcademicSource) (w : World),
    reportSources l w =
      ({w with
          session := w.session.map (fun st => {st with sources := st.sources ++ l}),
          events := w.events ++
            l.map (fun s => REvent.sourceFound s.title s.url s.doi s.journal)},
        Except.ok ()) := by
  intro l
  induction l with
  | nil =>
    intro w
    rw [show reportSources [] = (pure () : RM Unit) from rfl, pure_run]
    rw [session_map_nil]
    simp
  | cons s rest ih =>
    intro w
    rw [reportSources]
    rw [bind_ok (updateSession_run _ w)]
    rw [bind_ok (emitEv_run _ _)]
    rw [ih]
    rw [Prod.mk.injEq]
    refine ⟨?_, rfl⟩
    rw [World.mk.injEq]
    refine ⟨by simp, rfl, rfl, rfl, rfl, rfl, ?_, rfl, rfl, rfl⟩
    cases w.session with
    | none => rfl
    | some st => simp

lemma bind_run {α β : Type} (x : RM α) (f : α → RM β) (w : World) :
    (x >>= f) w =
      match x w with
      | (w2, .ok a) => f a w2
      | (w2, .error e) => (w2, .error e) := rfl

/-- C9: when the keyword-generation LM call for a section fails, the
section is researched with the deterministic fallback query built from the
section title, a single space and its description; the section run still
returns successfully (the failure aborts nothing) and emits no error
event. -/
theorem researchSection_keyword_fallback (o : Oracles) (i : Nat) (sect : PlanSection)
    (e : JsError) (c : String)
    (hk : o.keywordOutcome i = Except.error e)
    (hs : o.sectionSynthOutcome i = Except.ok c) (w : World) :
    researchSectionModel o i sect w =
      ({w with
          events := w.events ++ [REvent.toolStart "keyword_generation" sect.title] ++
            [REvent.toolStart "academic_search" (sect.title ++ " " ++ sect.description)] ++
            (o.searchResults i (sect.title ++ " " ++ sect.description)).map
              (fun s => REvent.sourceFound s.title s.url s.doi s.journal),
          session := w.session.map (fun st =>
            {st with sources := st.sources ++
              o.searchResults i (sect.title ++ " " ++ sect.description)}),
          lmCalls := w.lmCalls + 1 + 1},
        Except.ok ⟨sect.title, c,
          o.searchResults i (sect.title ++ " " ++ sect.description)⟩) ∧
    (∀ m, REvent.errorEv m ∈ (researchSectionModel o i sect w).1.events ↔
      REvent.errorEv m ∈ w.events) := by
  have hrun : researchSectionModel o i sect w =
      ({w with
          events := w.events ++ [REvent.toolStart "keyword_generation" sect.title] ++
            [REvent.toolStart "academic_search" (sect.title ++ " " ++ sect.description)] ++
            (o.searchResults i (sect.title ++ " " ++ sect.description)).map
              (fun s => REvent.sourceFound s.title s.url s.doi s.journal),
          session := w.session.map (fun st =>
            {st with sources := st.sources ++
              o.searchResults i (sect.title ++ " " ++ sect.description)}),
          lmCalls := w.lmCalls + 1 + 1},
        Except.ok ⟨sect.title, c,
          o.searchResults i (sect.title ++ " " ++ sect.description)⟩) := by
    rw [researchSectionModel]
    rw [bind_ok (emitEv_run _ _)]
    rw [bind_ok (generateSearchKeywordsModel_run_err hk _)]
    rw [bind_ok (emitEv_run _ _)]
    rw [bind_ok (reportSources_run _ _)]
    rw [bind_ok (by rw [lmCall_run, hs])]
    rw [pure_run]
  refine ⟨hrun, ?_⟩
  intro m
  rw [hrun]
  simp

/-- C9 witness: a section whose keyword LM call fails is still researched
with the fallback query, without error events. -/
theorem researchSection_keyword_fallback_witness :
    (⟨[], .ok none, fun _ => .error ⟨"Error", "kwfail"⟩, fun _ _ => [],
        fun _ => .ok "body", .ok "sum", .ok "ttl",
        fun _ => false⟩ : Oracles).keywordOutcome 0 =
      Except.error ⟨"Error", "kwfail"⟩ ∧
    (⟨[], .ok none, fun _ => .error ⟨"Error", "kwfail"⟩, fun _ _ => [],
        fun _ => .ok "body", .ok "sum", .ok "ttl",
        fun _ => false⟩ : Oracles).sectionSynthOutcome 0 = Except.ok "body" ∧
    ∀ m, REvent.errorEv m ∈
        (researchSectionModel
          (⟨[], .ok none, fun _ => .error ⟨"Error", "kwfail"⟩, fun _ _ => [],
              fun _ => .ok "body", .ok "sum", .ok "ttl", fun _ => false⟩ : Oracles)
          0 ⟨"T", "D"⟩ (initialWorld "s" "c" "q")).1.events ↔
      REvent.errorEv m ∈ (initialWorld "s" "c" "q").events :=
  ⟨rfl, rfl,
    (researchSection_keyword_fallback _ 0 ⟨"T", "D"⟩ ⟨"Error", "kwfail"⟩ "body" rfl rfl
      (initialWorld "s" "c" "q")).2⟩

lemma synth_empty_run (o : Oracles) (results : List SectionResult) (lang : String)
    (w : World) (hempty : (results.map (fun s => s.sources)).flatten = []) :
    synthesizeReportModel o results lang w =
      ({w with
          events := w.events ++ [REvent.reportChunk (noSourcesReport lang) true],
          session := w.session.map (fun st =>
            {st with reportContent := noSourcesReport lang, sources := []})},
        Except.ok ()) := by
  rw [synthesizeReportModel, hempty]
  simp only [List.length_nil, beq_self_eq_true, eq_self_iff_true, if_true]
  rw [bind_ok (emitEv_run _ _)]
  rw [bind_ok (updateSession_run _ _)]
  rw [pure_run]

lemma generateSearchKeywords_ok (o : Oracles) (i : Nat) (w : World) :
    ∃ kwv, generateSearchKeywordsModel o i w =
      ({w with lmCalls := w.lmCalls + 1}, Except.ok kwv) := by
  cases hko : o.keywordOutcome i with
  | ok content => exact ⟨_, generateSearchKeywordsModel_run_ok hko w⟩
  | error e => exact ⟨_, generateSearchKeywordsModel_run_err hko w⟩

lemma researchSection_ok (o : Oracles)
    (hs : ∀ j, ∃ c, o.sectionSynthOutcome j = Except.ok c)
    (hsearch : ∀ j qq, o.searchResults j qq = [])
    (i : Nat) (sect : PlanSection) (w : World) :
    ∃ w2 r, researchSectionModel o i sect w = (w2, Except.ok r) ∧ r.sources = [] := by
  obtain ⟨c, hc⟩ := hs i
  rw [researchSectionModel]
  rw [bind_ok (emitEv_run _ _)]
  obtain ⟨kwv, hkw⟩ := generateSearchKeywords_ok o i _
  rw [bind_ok hkw]
  rw [bind_ok (emitEv_run _ _)]
  rw [hsearch]
  rw [bind_ok (reportSources_run _ _)]
  rw [bind_ok (by rw [lmCall_run, hc])]
  rw [pure_run]
  exact ⟨_, _, rfl, rfl⟩

lemma researchLoop_ok (o : Oracles) (habort : ∀ k, o.abortedAtPoll k = false)
    (hs : ∀ j, ∃ c, o.sectionSynthOutcome j = Except.ok c)
    (hsearch : ∀ j qq, o.searchResults j qq = []) :
    ∀ (ss : List PlanSection) (i : Nat) (w : World),
      ∃ w2 rs, researchLoopModel o i ss w = (w2, Except.ok rs) ∧
        ∀ r ∈ rs, r.sources = [] := by
  intro ss
  induction ss with
  | nil =>
    intro i w
    exact ⟨w, [], rfl, by simp⟩
  | cons sect rest ih =>
    intro i w
    rw [researchLoopModel]
    rw [bind_ok (checkPauseCancel_run_ok (habort _))]
    rw [bind_ok (updateSession_run _ _)]
    rw [bind_ok (modifyW_run _ _)]
    rw [bind_ok (emitEv_run _ _)]
    obtain ⟨w2, r, hrun, hr⟩ := researchSection_ok o hs hsearch i sect _
    rw [bind_ok hrun]
    obtain ⟨w3, rs, hloop, hrs⟩ := ih (i + 1) w2
    rw [bind_ok hloop, pure_run]
    refine ⟨w3, r :: rs, rfl, ?_⟩
    intro r2 h2
    rcases List.mem_cons.mp h2 with rfl | h2
    · exact hr
    · exact hrs r2 h2

lemma flatten_map_sources_nil :
    ∀ rs : List SectionResult, (∀ r ∈ rs, r.sources = []) →
      (rs.map (fun s => s.sources)).flatten = [] := by
  intro rs
  induction rs with
  | nil => intro _; rfl
  | cons r rest ih =>
    intro h
    rw [List.map_cons, List.flatten_cons, h r (List.mem_cons_self _ _),
      ih (fun r2 h2 => h r2 (List.mem_cons_of_mem _ h2))]
    rfl

lemma generateTitleModel_shape (o : Oracles) (w : World) :
    ∃ w2, generateTitleModel o w = (w2, Except.ok ()) ∧ w2.dbStatus = w.dbStatus := by
  cases h : o.titleOutcome with
  | ok content =>
    refine ⟨{w with
                lmCalls := w.lmCalls + 1,
                chatTitle := some (stripEdgeQuotes (trimS content)),
                events := w.events ++
                  [REvent.statusTitle (stripEdgeQuotes (trimS content))]},
      ?_, rfl⟩
    simp [generateTitleModel, h]
  | error e =>
    refine ⟨{w with lmCalls := w.lmCalls + 1}, ?_, rfl⟩
    simp [generateTitleModel, h]

lemma runResearchCore_ok_empty (o : Oracles) (q lang : String) (ss : List PlanSection)
    (hplan : o.planOutcome = Except.ok (some ⟨ss⟩))
    (habort : ∀ k, o.abortedAtPoll k = false)
    (hs : ∀ j, ∃ c, o.sectionSynthOutcome j = Except.ok c)
    (hsearch : ∀ j qq, o.searchResults j qq = []) (w : World) :
    ∃ w2, runResearchCore o q lang w = (w2, Except.ok ()) ∧ w2.dbStatus = "completed" := by
  rw [runResearchCore]
  rw [bind_ok (emitEv_run _ _)]
  rw [bind_ok (by rw [lmCall_run, hplan])]
  dsimp only
  rw [bind_ok (modifyW_run _ _)]
  rw [bind_ok (updateSession_run _ _)]
  rw [bind_ok (emitEv_run _ _)]
  obtain ⟨w2, rs, hloop, hrs⟩ := researchLoop_ok o habort hs hsearch ss 0 _
  rw [bind_ok hloop]
  rw [bind_ok (checkPauseCancel_run_ok (habort _))]
  rw [bind_ok (emitEv_run _ _)]
  rw [bind_ok (synth_empty_run o rs lang _ (flatten_map_sources_nil rs hrs))]
  rw [bind_ok (modifyW_run _ _)]
  rw [bind_ok (getWorld_run _)]
  rw [bind_ok (emitEv_run _ _)]
  rw [bind_ok (modifyW_run _ _)]
  obtain ⟨w3, htitle, hdb⟩ := generateTitleModel_shape o _
  refine ⟨w3, htitle, ?_⟩
  rw [hdb]

/-- C4: when the union of sources across all researched sections is empty,
synthesizeReport emits the localized placeholder as a single final
report_chunk, stores it as the report content with an empty session source
list, issues no further LM calls and runs no citation phase (the
placeholder chunk is the only emitted event); and a full run satisfying
these conditions still terminates with persisted status completed and a
successful outcome. -/
theorem synth_no_sources_spec :
    (∀ (o : Oracles) (results : List SectionResult) (lang : String) (w : World),
      (results.map (fun s => s.sources)).flatten = [] →
      synthesizeReportModel o results lang w =
        ({w with
            events := w.events ++ [REvent.reportChunk (noSourcesReport lang) true],
            session := w.session.map (fun st =>
              {st with reportContent := noSourcesReport lang, sources := []})},
          Except.ok ()) ∧
      (synthesizeReportModel o results lang w).1.lmCalls = w.lmCalls ∧
      (synthesizeReportModel o results lang w).1.events.drop w.events.length =
        [REvent.reportChunk (noSourcesReport lang) true]) ∧
    (∀ (o : Oracles) (sid cid q lang : String) (ss : List PlanSection),
      o.planOutcome = Except.ok (some ⟨ss⟩) →
      (∀ k, o.abortedAtPoll k = false) →
      (∀ j, ∃ c, o.sectionSynthOutcome j = Except.ok c) →
      (∀ j qq, o.searchResults j qq = []) →
      (runResearchModel o sid cid q lang).1.dbStatus = "completed" ∧
      (runResearchModel o sid cid q lang).2 = Except.ok ()) := by
  constructor
  · intro o results lang w hempty
    have hrun := synth_empty_run o results lang w hempty
    refine ⟨hrun, ?_, ?_⟩
    · rw [hrun]
    · rw [hrun]
      simp
  · intro o sid cid q lang ss hplan habort hs hsearch
    obtain ⟨w2, hcore, hdb⟩ :=
      runResearchCore_ok_empty o q lang ss hplan habort hs hsearch
        (initialWorld sid cid q)
    rw [runResearchModel, hcore]
    exact ⟨hdb, rfl⟩

/-- C4 witness: a one-section run whose searches all come back empty ends
with persisted status completed and a successful outcome. -/
theorem synth_no_sources_spec_witness :
    (⟨[], .ok (some ⟨[⟨"T", "D"⟩]⟩), fun _ => .ok "kw", fun _ _ => [],
        fun _ => .ok "body", .ok "sum", .ok "ttl",
        fun _ => false⟩ : Oracles).planOutcome =
      Except.ok (some ⟨[⟨"T", "D"⟩]⟩) ∧
    ((runResearchModel
        (⟨[], .ok (some ⟨[⟨"T", "D"⟩]⟩), fun _ => .ok "kw", fun _ _ => [],
            fun _ => .ok "body", .ok "sum", .ok "ttl", fun _ => false⟩ : Oracles)
        "s" "c" "q" "en").1.dbStatus = "completed" ∧
      (runResearchModel
        (⟨[], .ok (some ⟨[⟨"T", "D"⟩]⟩), fun _ => .ok "kw", fun _ _ => [],
            fun _ => .ok "body", .ok "sum", .ok "ttl", fun _ => false⟩ : Oracles)
        "s" "c" "q" "en").2 = Except.ok ()) :=
  ⟨rfl,
    synth_no_sources_spec.2
      (⟨[], .ok (some ⟨[⟨"T", "D"⟩]⟩), fun _ => .ok "kw", fun _ _ => [],
          fun _ => .ok "body", .ok "sum", .ok "ttl", fun _ => false⟩ : Oracles)
      "s" "c" "q" "en" [⟨"T", "D"⟩] rfl (fun _ => rfl)
      (fun _ => ⟨"body", rfl⟩) (fun _ _ => rfl)⟩

/-! ### Event-shape invariant: the core run never emits error or cancelled
events -/

lemma safeEv_intro {ev : REvent} (h1 : ∀ m, ev ≠ REvent.errorEv m)
    (h2 : ∀ m, ev ≠ REvent.cancelledEv m) : SafeEv ev := And.intro h1 h2

lemma evshape_events_const {α : Type} {x : RM α} (h : ∀ w, ((x w).1).events = w.events) :
    EvShape x := by
  intro w
  exact ⟨[], by rw [h, List.append_nil], by simp⟩

lemma evshape_emit {ev : REvent} (h : SafeEv ev) : EvShape (emitEv ev) := by
  intro w
  refine ⟨[ev], rfl, ?_⟩
  intro e he
  rw [List.mem_singleton] at he
  rw [he]
  exact h

lemma evshape_bind {α β : Type} {x : RM α} {f : α → RM β}
    (hx : EvShape x) (hf : ∀ a, EvShape (f a)) : EvShape (x >>= f) := by
  intro w
  obtain ⟨evs1, h1, hs1⟩ := hx w
  cases hxw : x w with
  | mk w2 r =>
    have h1b : w2.events = w.events ++ evs1 := by rw [hxw] at h1; exact h1
    cases r with
    | ok a =>
      obtain ⟨evs2, h2, hs2⟩ := hf a w2
      refine ⟨evs1 ++ evs2, ?_, ?_⟩
      · rw [bind_ok hxw, h2, h1b, List.append_assoc]
      · intro ev hev
        rcases List.mem_append.mp hev with hev | hev
        · exact hs1 ev hev
        · exact hs2 ev hev
    | error e =>
      refine ⟨evs1, ?_, hs1⟩
      rw [bind_err hxw]
      exact h1b

lemma evshape_reportSources (l : List AcademicSource) : EvShape (reportSources l) := by
  intro w
  refine ⟨l.map (fun s => REvent.sourceFound s.title s.url s.doi s.journal), ?_, ?_⟩
  · rw [reportSources_run]
  · intro ev hev
    obtain ⟨s, _, rfl⟩ := List.mem_map.mp hev
    exact (safeEv_intro (fun m h => by cases h) (fun m h => by cases h))

lemma evshape_checkPauseCancel (o : Oracles) : EvShape (checkPauseCancel o) := by
  apply evshape_events_const
  intro w
  simp only [checkPauseCancel]
  split <;> rfl

lemma evshape_keywords (o : Oracles) (i : Nat) :
    EvShape (generateSearchKeywordsModel o i) := by
  apply evshape_events_const
  intro w
  simp only [generateSearchKeywordsModel]
  split <;> rfl

lemma evshape_title (o : Oracles) : EvShape (generateTitleModel o) := by
  intro w
  cases h : o.titleOutcome with
  | ok content =>
    refine ⟨[REvent.statusTitle (stripEdgeQuotes (trimS content))], ?_, ?_⟩
    · simp [generateTitleModel, h]
    · intro ev hev
      rw [List.mem_singleton] at hev
      rw [hev]
      exact safeEv_intro (fun m hh => by cases hh) (fun m hh => by cases hh)
  | error e =>
    exact ⟨[], by simp [generateTitleModel, h], by simp⟩

lemma evshape_researchSection (o : Oracles) (i : Nat) (sect : PlanSection) :
    EvShape (researchSectionModel o i sect) := by
  rw [researchSectionModel]
  apply evshape_bind (evshape_emit (safeEv_intro (fun m h => by cases h) (fun m h => by cases h)))
  intro _
  apply evshape_bind (evshape_keywords o i)
  intro kw
  apply evshape_bind (evshape_emit (safeEv_intro (fun m h => by cases h) (fun m h => by cases h)))
  intro _
  apply evshape_bind (evshape_reportSources _)
  intro _
  apply evshape_bind (evshape_events_const (fun w => rfl))
  intro _
  exact evshape_events_const (fun w => rfl)

lemma evshape_appendSections (o : Oracles) :
    ∀ (rs : List SectionResult) (acc : String), EvShape (appendSectionsModel o rs acc) := by
  intro rs
  induction rs with
  | nil =>
    intro acc
    exact evshape_events_const (fun w => rfl)
  | cons s rest ih =>
    intro acc
    rw [appendSectionsModel]
    apply evshape_bind (evshape_checkPauseCancel o)
    intro _
    apply evshape_bind (evshape_emit (safeEv_intro (fun m h => by cases h) (fun m h => by cases h)))
    intro _
    apply evshape_bind (evshape_events_const (fun w => rfl))
    intro _
    exact ih _

lemma evshape_loop (o : Oracles) :
    ∀ (ss : List PlanSection) (i : Nat), EvShape (researchLoopModel o i ss) := by
  intro ss
  induction ss with
  | nil =>
    intro i
    exact evshape_events_const (fun w => rfl)
  | cons sect rest ih =>
    intro i
    rw [researchLoopModel]
    apply evshape_bind (evshape_checkPauseCancel o)
    intro _
    apply evshape_bind (evshape_events_const (fun w => rfl))
    intro _
    apply evshape_bind (evshape_events_const (fun w => rfl))
    intro _
    apply evshape_bind (evshape_emit (safeEv_intro (fun m h => by cases h) (fun m h => by cases h)))
    intro _
    apply evshape_bind (evshape_researchSection o i sect)
    intro _
    apply evshape_bind (ih (i + 1))
    intro _
    exact evshape_events_const (fun w => rfl)

lemma evshape_synth (o : Oracles) (results : List SectionResult) (lang : String) :
    EvShape (synthesizeReportModel o results lang) := by
  rw [synthesizeReportModel]
  split
  · apply evshape_bind (evshape_emit (safeEv_intro (fun m h => by cases h) (fun m h => by cases h)))
    intro _
    apply evshape_bind (evshape_events_const (fun w => rfl))
    intro _
    exact evshape_events_const (fun w => rfl)
  · apply evshape_bind (evshape_emit (safeEv_intro (fun m h => by cases h) (fun m h => by cases h)))
    intro _
    apply evshape_bind (evshape_events_const (fun w => rfl))
    intro _
    apply evshape_bind (evshape_emit (safeEv_intro (fun m h => by cases h) (fun m h => by cases h)))
    intro _
    apply evshape_bind (evshape_events_const (fun w => rfl))
    intro _
    apply evshape_bind (evshape_appendSections o _ _)
    intro _
    apply evshape_bind (evshape_emit (safeEv_intro (fun m h => by cases h) (fun m h => by cases h)))
    intro _
    apply evshape_bind (evshape_emit (safeEv_intro (fun m h => by cases h) (fun m h => by cases h)))
    intro _
    apply evshape_bind (evshape_events_const (fun w => rfl))
    intro _
    apply evshape_bind (evshape_events_const (fun w => rfl))
    intro _
    exact evshape_events_const (fun w => rfl)

lemma evshape_core (o : Oracles) (q lang : String) :
    EvShape (runResearchCore o q lang) := by
  rw [runResearchCore]
  apply evshape_bind (evshape_emit (safeEv_intro (fun m h => by cases h) (fun m h => by cases h)))
  intro _
  apply evshape_bind (evshape_events_const (fun w => rfl))
  intro plan?
  cases plan? with
  | none => exact evshape_events_const (fun w => rfl)
  | some plan =>
    apply evshape_bind (evshape_events_const (fun w => rfl))
    intro _
    apply evshape_bind (evshape_events_const (fun w => rfl))
    intro _
    apply evshape_bind (evshape_emit (safeEv_intro (fun m h => by cases h) (fun m h => by cases h)))
    intro _
    apply evshape_bind (evshape_loop o plan.sections 0)
    intro _
    apply evshape_bind (evshape_checkPauseCancel o)
    intro _
    apply evshape_bind (evshape_emit (safeEv_intro (fun m h => by cases h) (fun m h => by cases h)))
    intro _
    apply evshape_bind (evshape_synth o _ lang)
    intro _
    apply evshape_bind (evshape_events_const (fun w => rfl))
    intro _
    apply evshape_bind (evshape_events_const (fun w => rfl))
    intro wv
    apply evshape_bind (evshape_emit (safeEv_intro (fun m h => by cases h) (fun m h => by cases h)))
    intro _
    apply evshape_bind (evshape_events_const (fun w => rfl))
    intro _
    exact evshape_title o

/-- C5: at run termination the in-memory session and cancellation-token
references are always cleared; a cancellation error is mapped to persisted
status cancelled plus a cancelled event and a successful (non-error)
outcome, with no error event anywhere; any other error is mapped to
persisted status completed, is rethrown, and surfaces as a single error
event carrying the message, while the core run itself never emits error or
cancelled events. -/
theorem run_termination_spec (o : Oracles) (sid cid q lang : String) :
    (runResearchModel o sid cid q lang).1.session = none ∧
    (runResearchModel o sid cid q lang).1.abortCtrl = none ∧
    (startResearchModel o sid cid q lang).session = none ∧
    (startResearchModel o sid cid q lang).abortCtrl = none ∧
    (∀ e, runResearchOutcome o sid cid q lang = Except.error e →
      isCancelError e = true →
      (runResearchModel o sid cid q lang).1.dbStatus = "cancelled" ∧
      (runResearchModel o sid cid q lang).2 = Except.ok () ∧
      (∃ evs, (startResearchModel o sid cid q lang).events =
          evs ++ [REvent.cancelledEv "Research cancelled by user"] ∧
        ∀ m, REvent.errorEv m ∉ evs ∧ REvent.cancelledEv m ∉ evs) ∧
      (∀ m, REvent.errorEv m ∉ (startResearchModel o sid cid q lang).events)) ∧
    (∀ e, runResearchOutcome o sid cid q lang = Except.error e →
      isCancelError e = false →
      (runResearchModel o sid cid q lang).1.dbStatus = "completed" ∧
      (runResearchModel o sid cid q lang).2 = Except.error e ∧
      (∃ evs, (startResearchModel o sid cid q lang).events =
          evs ++ [REvent.errorEv e.message] ∧
        ∀ m, REvent.errorEv m ∉ evs ∧ REvent.cancelledEv m ∉ evs)) := by
  obtain ⟨evs0, hevs0, hsafe0⟩ := evshape_core o q lang (initialWorld sid cid q)
  cases hcore : runResearchCore o q lang (initialWorld sid cid q) with
  | mk w1 r =>
    have hev1 : w1.events = evs0 := by
      rw [hcore] at hevs0
      simpa using hevs0
    have houtcome : runResearchOutcome o sid cid q lang = r := by
      rw [runResearchOutcome, hcore]
    have hnoerr : ∀ m, REvent.errorEv m ∉ w1.events := by
      intro m hmem
      rw [hev1] at hmem
      exact ((hsafe0 _ hmem).1 m rfl).elim
    have hnocan : ∀ m, REvent.cancelledEv m ∉ w1.events := by
      intro m hmem
      rw [hev1] at hmem
      exact ((hsafe0 _ hmem).2 m rfl).elim
    cases r with
    | ok a =>
      have hrm : runResearchModel o sid cid q lang =
          ({w1 with session := none, abortCtrl := none}, Except.ok ()) := by
        rw [runResearchModel, hcore]
      have hsm : startResearchModel o sid cid q lang =
          {w1 with session := none, abortCtrl := none} := by
        rw [startResearchModel, hrm]
      refine ⟨by rw [hrm], by rw [hrm], by rw [hsm], by rw [hsm], ?_, ?_⟩
      · intro e he _
        rw [houtcome] at he
        simp at he
      · intro e he _
        rw [houtcome] at he
        simp at he
    | error e0 =>
      by_cases hc : isCancelError e0 = true
      · have hrm : runResearchModel o sid cid q lang =
            ({w1 with
                dbStatus := "cancelled",
                events := w1.events ++ [REvent.cancelledEv "Research cancelled by user"],
                session := none, abortCtrl := none}, Except.ok ()) := by
          rw [runResearchModel, hcore]
          simp [hc]
        have hsm : startResearchModel o sid cid q lang =
            {w1 with
              dbStatus := "cancelled",
              events := w1.events ++ [REvent.cancelledEv "Research cancelled by user"],
              session := none, abortCtrl := none} := by
          rw [startResearchModel, hrm]
        refine ⟨by rw [hrm], by rw [hrm], by rw [hsm], by rw [hsm], ?_, ?_⟩
        · intro e he hce
          rw [houtcome] at he
          injection he with he2
          refine ⟨by rw [hrm], by rw [hrm], ⟨w1.events, by rw [hsm], ?_⟩, ?_⟩
          · intro m
            exact ⟨hnoerr m, hnocan m⟩
          · intro m hmem
            rw [hsm] at hmem
            rcases List.mem_append.mp hmem with hmem | hmem
            · exact hnoerr m hmem
            · rw [List.mem_singleton] at hmem
              cases hmem
        · intro e he hce
          rw [houtcome] at he
          injection he with he2
          rw [← he2, hc] at hce
          cases hce
      · have hcf : isCancelError e0 = false := by
          revert hc
          cases isCancelError e0 <;> simp
        have hrm : runResearchModel o sid cid q lang =
            ({w1 with dbStatus := "completed", session := none, abortCtrl := none},
              Except.error e0) := by
          rw [runResearchModel, hcore]
          simp [hcf]
        have hsm : startResearchModel o sid cid q lang =
            {w1 with
              dbStatus := "completed", session := none, abortCtrl := none,
              events := w1.events ++ [REvent.errorEv e0.message]} := by
          rw [startResearchModel, hrm]
        refine ⟨by rw [hrm], by rw [hrm], by rw [hsm], by rw [hsm], ?_, ?_⟩
        · intro e he hce
          rw [houtcome] at he
          injection he with he2
          rw [← he2, hcf] at hce
          cases hce
        · intro e he hce
          rw [houtcome] at he
          injection he with he2
          rw [← he2]
          refine ⟨by rw [hrm], by rw [hrm], ⟨w1.events, by rw [hsm], ?_⟩⟩
          intro m
          exact ⟨hnoerr m, hnocan m⟩

/-- C5 witness: a run whose cancellation signal fires at the first poll
point ends cancelled with a cancelled event, a cleared session and no
error event. -/
theorem run_termination_spec_witness :
    runResearchOutcome
        (⟨[], .ok (some ⟨[]⟩), fun _ => .ok "kw", fun _ _ => [],
            fun _ => .ok "body", .ok "sum", .ok "ttl", fun _ => true⟩ : Oracles)
        "s" "c" "q" "en" = Except.error cancelledError ∧
    isCancelError cancelledError = true ∧
    ((runResearchModel
        (⟨[], .ok (some ⟨[]⟩), fun _ => .ok "kw", fun _ _ => [],
            fun _ => .ok "body", .ok "sum", .ok "ttl", fun _ => true⟩ : Oracles)
        "s" "c" "q" "en").1.dbStatus = "cancelled" ∧
      (runResearchModel
        (⟨[], .ok (some ⟨[]⟩), fun _ => .ok "kw", fun _ _ => [],
            fun _ => .ok "body", .ok "sum", .ok "ttl", fun _ => true⟩ : Oracles)
        "s" "c" "q" "en").2 = Except.ok () ∧
      (∃ evs, (startResearchModel
          (⟨[], .ok (some ⟨[]⟩), fun _ => .ok "kw", fun _ _ => [],
              fun _ => .ok "body", .ok "sum", .ok "ttl", fun _ => true⟩ : Oracles)
          "s" "c" "q" "en").events =
          evs ++ [REvent.cancelledEv "Research cancelled by user"] ∧
        ∀ m, REvent.errorEv m ∉ evs ∧ REvent.cancelledEv m ∉ evs) ∧
      (∀ m, REvent.errorEv m ∉ (startResearchModel
          (⟨[], .ok (some ⟨[]⟩), fun _ => .ok "kw", fun _ _ => [],
              fun _ => .ok "body", .ok "sum", .ok "ttl", fun _ => true⟩ : Oracles)
          "s" "c" "q" "en").events)) :=
  ⟨by rfl, by decide,
    (run_termination_spec
        (⟨[], .ok (some ⟨[]⟩), fun _ => .ok "kw", fun _ _ => [],
            fun _ => .ok "body", .ok "sum", .ok "ttl", fun _ => true⟩ : Oracles)
        "s" "c" "q" "en").2.2.2.2.1 cancelledError (by rfl) (by decide)⟩

end NeuroScholar
